import Mathlib

/-!
# Kuna.io exchange access layer

A shallow embedding of the Go package `kunaio` (files `json.go`, `decoder.go`,
`http.go`, `api.go`, `history.go`) and of the order book walk of `cli.go`, and
theorems about them.

Conventions of the embedding:

* Go strings are lists of characters (`GoString`).  Go compares strings
  byte-wise; on UTF-8 text that order is the code point order used here.
* `interface{}` is the sum type `Any`.
* Go functions returning `(value, error)` return `Except Error value`;
  `decodeOrder` returns the pair itself, with the record it returns next to an
  error.
* `Float64` is `float64` in exact arithmetic (the rationals, no rounding), and
  the theorems stated over it are theorems of exact arithmetic; `F64` is
  `float64` with the rounding of IEEE 754, and `walkLoop64` is the loop of
  `cli.go` over it, for the inputs at which rounding decides.
* Functions of the Go standard library and the outside world (sorting, HMAC,
  hex, the JSON decoder, `strconv`, `time.Parse`, the HTTP client) are the
  fields of `Lib`;
  the clock reading is an explicit argument.
-/

namespace Kuna

/-! ## Data model -/

/-- Go `string`. -/
abbrev GoString := List Char

/-- Go `float64`, in exact arithmetic: the operations are those of the
rationals, without rounding, overflow or underflow.  `F64` below is `float64`
with its rounding. -/
abbrev Float64 := ℚ

/-- The fields of `*http.Response` that the package reads: `StatusCode`,
`Status` (the status text, such as `404 Not Found`) and the bytes of `Body`. -/
structure Response where
  StatusCode : Int
  Status : GoString
  Body : GoString
deriving DecidableEq, Repr

/-- Go `interface{}`: the dynamic values the accessors are applied to.  The JSON
decoder (with `UseNumber`) produces `null`, `bool`, `number` (a `json.Number`, the
literal text), `str`, `list` and `map`; `response` is an `*http.Response` stored
in an interface value.  A map is an association list; `mapIndex` reads it. -/
inductive Any where
  | null
  | bool (b : Bool)
  | number (n : GoString)
  | str (s : GoString)
  | list (l : List Any)
  | map (m : List (GoString × Any))
  | response (r : Response)
deriving Repr

/-- Go `m[key]` on a `map[string]interface{}`: the zero value `nil` when the key
is absent. -/
def mapIndex (m : List (GoString × Any)) (key : GoString) : Any :=
  match m.lookup key with
  | some v => v
  | none => Any.null

/-- Go `error` values of the package.
* `missingValue k` is `errors.New("expected k but NIL found")`;
* `typeMismatch k v` is `fmt.Errorf("expected k but %#v (%T) found", v, v)`;
* `lib msg` is an error returned by a library call (`strconv`, `encoding/json`,
  `net/http`), with its text;
* `text msg` is an error built by `fmt.Errorf` whose text is `msg`. -/
inductive Error where
  | missingValue (expected : GoString)
  | typeMismatch (expected : GoString) (found : Any)
  | lib (msg : GoString)
  | text (msg : GoString)
deriving Repr

/-- Go `time.Time`, as the instant in Unix seconds. -/
structure Time where
  unix : Int
deriving DecidableEq, Repr

/-- The record `Stats` of `api.go`. -/
structure Stats where
  Time : Time
  Buy : Float64
  Sell : Float64
  Low : Float64
  High : Float64
  Last : Float64
  Vol : Float64
  Amount : Float64
deriving DecidableEq

/-- The record `Order` of `api.go`. -/
structure Order where
  ID : Int
  Side : GoString
  OrdType : GoString
  Price : Float64
  AvgPrice : Float64
  State : GoString
  Market : GoString
  CreatedAt : Time
  Volume : Float64
  RemainingVolume : Float64
  ExecutedVolume : Float64
  TradesCount : Int
deriving DecidableEq

/-- The type `Orders` of `api.go`. -/
abbrev Orders := List Order

/-- The record `OrderBook` of `api.go`. -/
structure OrderBook where
  Asks : Orders
  Bids : Orders
deriving DecidableEq

/-- The record `HistoryEntry` of `api.go`. -/
structure HistoryEntry where
  ID : Int
  Price : Float64
  Volume : Float64
  Funds : Float64
  Market : GoString
  CreatedAt : Time
deriving DecidableEq

/-- The type `History` of `api.go`. -/
abbrev History := List HistoryEntry

/-- Go `time.Time{}`, the zero time: January 1 of year 1, 00:00:00 UTC. -/
def Time.zero : Time := ⟨-62135596800⟩

/-- Go `Order{}`, the zero value of `Order`. -/
def Order.zero : Order :=
  { ID := 0, Side := [], OrdType := [], Price := 0, AvgPrice := 0, State := [],
    Market := [], CreatedAt := Time.zero, Volume := 0, RemainingVolume := 0,
    ExecutedVolume := 0, TradesCount := 0 }

/-- One element of `Args` (`http.go`). -/
structure Arg where
  Key : GoString
  Value : GoString
deriving DecidableEq, Repr

/-- The type `Args` of `http.go`: a slice of key/value pairs. -/
abbrev Args := List Arg

/-- The method `Args.Less`, on two elements. -/
def Args.Less (x y : Arg) : Prop := x.Key < y.Key

/-- `Less` is decidable. -/
instance (x y : Arg) : Decidable (Args.Less x y) :=
  inferInstanceAs (Decidable (x.Key < y.Key))

/-- The given functions.
* `sortSort` is `sort.Sort` on `Args`; its contract is that the result is a
  rearrangement of the input in which no later element is `Less` than an
  earlier one (stability is not promised);
* `hmacSHA256 key msg` is the digest of `hmac.New(sha256.New, key)` after
  writing `msg`; `hexEncodeToString` is `hex.EncodeToString`;
* `jsonDecode` is `json.NewDecoder(r)` with `UseNumber`, then `Decode`;
* `parseFloat s` is `strconv.ParseFloat(s, 64)` and `parseInt s` is
  `strconv.ParseInt(s, 10, 64)` (the bodies of `json.Number.Float64` and
  `json.Number.Int64`);
* `timeParse layout value` is `time.Parse(layout, value)`;
* `clientGet` is `gClient.Get`;
* `fmtGoSyntax` is the `%#v` rendering of `fmt`. -/
structure Lib where
  sortSort : Args → Args
  sortSort_perm : ∀ a : Args, List.Perm (sortSort a) a
  sortSort_sorted : ∀ a : Args, List.Pairwise (fun x y => ¬ Args.Less y x) (sortSort a)
  hmacSHA256 : GoString → GoString → List Nat
  hexEncodeToString : List Nat → GoString
  jsonDecode : GoString → Except Error Any
  parseFloat : GoString → Except Error Float64
  parseInt : GoString → Except Error Int
  timeParse : GoString → GoString → Except Error Time
  clientGet : GoString → Except Error Response
  fmtGoSyntax : Any → GoString

/-- The `%T` rendering of a dynamic value. -/
def typeName : Any → GoString
  | .null => "<nil>".toList
  | .bool _ => "bool".toList
  | .number _ => "json.Number".toList
  | .str _ => "string".toList
  | .list _ => "[]interface {}".toList
  | .map _ => "map[string]interface {}".toList
  | .response _ => "*http.Response".toList

/-- The method `Error()` of an error value: its text. -/
def errorString (L : Lib) : Error → GoString
  | .missingValue k => "expected ".toList ++ k ++ " but NIL found".toList
  | .typeMismatch k v =>
      "expected ".toList ++ k ++ " but ".toList ++ L.fmtGoSyntax v ++ " (".toList
        ++ typeName v ++ ") found".toList
  | .lib msg => msg
  | .text msg => msg

/-- The `%d` rendering of an integer. -/
def fmtD (i : Int) : GoString := (toString i).toList

/-- The `%s` rendering of an `error` operand (`nil` included). -/
def fmtS (L : Lib) : Option Error → GoString
  | some e => errorString L e
  | none => "%!s(<nil>)".toList

/-! ## json.go -/

/-- The function `DecodeJSON` of `json.go`. -/
def DecodeJSON (L : Lib) (r : GoString) : Except Error Any :=
  match L.jsonDecode r with
  | .error err => .error err
  | .ok v => .ok v

/-- The function `jsonGetTime` of `json.go`. -/
def jsonGetTime (L : Lib) : Any → Except Error Time
  | .null => .error (.missingValue "int".toList)
  | .number n =>
      match L.parseInt n with
      | .error err => .error err
      | .ok t => .ok ⟨t⟩
  | v => .error (.typeMismatch "int".toList v)

/-- The variable `supportedTimeFormats` of `json.go`. -/
def supportedTimeFormats : List GoString :=
  ["2006-01-02T15:04:05Z".toList,
   "2006-01-02T15:04:05-0700".toList,
   "2006-01-02T15:04:05-07:00".toList]

/-- The loop of `jsonGetTimeFromText` over the layouts still to try, and the
error returned after it. -/
def parseTimeLoop (L : Lib) (s : GoString) : List GoString → Except Error Time
  | [] => .error (.text ("can't parse time: ".toList ++ s))
  | f :: rest =>
    match L.timeParse f s with
    | .ok t => .ok t
    | .error _ => parseTimeLoop L s rest

/-- The function `jsonGetTimeFromText` of `json.go`. -/
def jsonGetTimeFromText (L : Lib) : Any → Except Error Time
  | .null => .error (.missingValue "int".toList)
  | .str s => parseTimeLoop L s supportedTimeFormats
  | v => .error (.typeMismatch "time".toList v)

/-- The function `jsonGetString` of `json.go`. -/
def jsonGetString : Any → Except Error GoString
  | .null => .error (.missingValue "string".toList)
  | .str s => .ok s
  | v => .error (.typeMismatch "string".toList v)

/-- The function `jsonGetBool` of `json.go`. -/
def jsonGetBool : Any → Except Error Bool
  | .null => .error (.missingValue "bool".toList)
  | .bool b => .ok b
  | v => .error (.typeMismatch "bool".toList v)

/-- The function `jsonGetFloat` of `json.go`. -/
def jsonGetFloat (L : Lib) : Any → Except Error Float64
  | .null => .error (.missingValue "float".toList)
  | .number n => L.parseFloat n
  | .str s => L.parseFloat s
  | v => .error (.typeMismatch "float".toList v)

/-- The function `jsonGetFloatDef` of `json.go`. -/
def jsonGetFloatDef (L : Lib) (v : Any) (dflt : Float64) : Except Error Float64 :=
  match v with
  | .null => .ok dflt
  | .number n => L.parseFloat n
  | .str s => L.parseFloat s
  | v => .error (.typeMismatch "float".toList v)

/-- The function `jsonGetInt` of `json.go` (`int` is 64 bits wide). -/
def jsonGetInt (L : Lib) : Any → Except Error Int
  | .null => .error (.missingValue "int".toList)
  | .number n =>
      match L.parseInt n with
      | .error err => .error err
      | .ok i => .ok i
  | v => .error (.typeMismatch "int".toList v)

/-- The function `jsonGetMap` of `json.go`. -/
def jsonGetMap : Any → Except Error (List (GoString × Any))
  | .null => .error (.missingValue "dict".toList)
  | .map m => .ok m
  | v => .error (.typeMismatch "dict".toList v)

/-- The function `jsonGetList` of `json.go`. -/
def jsonGetList : Any → Except Error (List Any)
  | .null => .error (.missingValue "list".toList)
  | .list l => .ok l
  | v => .error (.typeMismatch "list".toList v)

/-! ## decoder.go -/

/-- The function `decodeLatestStats` of `decoder.go`. -/
def decodeLatestStats (L : Lib) (v : Any) : Except Error Stats := do
  let m ← jsonGetMap v
  let timestamp ← jsonGetTime L (mapIndex m "at".toList)
  let m ← jsonGetMap (mapIndex m "ticker".toList)
  let buy ← jsonGetFloat L (mapIndex m "buy".toList)
  let sell ← jsonGetFloat L (mapIndex m "sell".toList)
  let low ← jsonGetFloat L (mapIndex m "low".toList)
  let high ← jsonGetFloat L (mapIndex m "high".toList)
  let last ← jsonGetFloat L (mapIndex m "last".toList)
  let vol ← jsonGetFloat L (mapIndex m "vol".toList)
  let amount ← jsonGetFloatDef L (mapIndex m "amount".toList) 0
  return { Time := timestamp, Buy := buy, Sell := sell, Low := low,
           High := high, Last := last, Vol := vol, Amount := amount }

/-- The function `decodeOrder` of `decoder.go`: the pair `(Order, error)`, with
the record returned next to an error spelled out. -/
def decodeOrder (L : Lib) (v : Any) : Order × Option Error :=
  match jsonGetMap v with
  | .error err => (Order.zero, some err)
  | .ok m =>
  match jsonGetInt L (mapIndex m "id".toList) with
  | .error err => (Order.zero, some err)
  | .ok id =>
  match jsonGetString (mapIndex m "side".toList) with
  | .error err => (Order.zero, some err)
  | .ok side =>
  match jsonGetString (mapIndex m "ord_type".toList) with
  | .error err => (Order.zero, some err)
  | .ok ord_type =>
  match jsonGetFloat L (mapIndex m "price".toList) with
  | .error err => (Order.zero, some err)
  | .ok price =>
  match jsonGetFloat L (mapIndex m "avg_price".toList) with
  | .error err => (Order.zero, some err)
  | .ok avg_price =>
  match jsonGetString (mapIndex m "state".toList) with
  | .error err => (Order.zero, some err)
  | .ok state =>
  match jsonGetString (mapIndex m "market".toList) with
  | .error err => (Order.zero, some err)
  | .ok market =>
  match jsonGetTimeFromText L (mapIndex m "created_at".toList) with
  | .error err => (Order.zero, some err)
  | .ok created_at =>
  match jsonGetFloat L (mapIndex m "volume".toList) with
  | .error err => (Order.zero, some err)
  | .ok volume =>
  match jsonGetFloat L (mapIndex m "remaining_volume".toList) with
  | .error err => (Order.zero, some err)
  | .ok remaining_volume =>
  match jsonGetFloat L (mapIndex m "executed_volume".toList) with
  | .error err => (Order.zero, some err)
  | .ok executed_volume =>
  match jsonGetInt L (mapIndex m "trades_count".toList) with
  | .error err => (Order.zero, some err)
  | .ok trades_count =>
    ({ ID := id, Side := side, OrdType := ord_type, Price := price,
       AvgPrice := avg_price, State := state, Market := market,
       CreatedAt := created_at, Volume := volume,
       RemainingVolume := remaining_volume, ExecutedVolume := executed_volume,
       TradesCount := trades_count }, none)

/-- The loop of `decodeOrders`: `res` holds the orders decoded so far. -/
def decodeOrdersLoop (L : Lib) : List Any → Orders → Except Error Orders
  | [], res => .ok res
  | v :: rest, res =>
    match decodeOrder L v with
    | (_, some err) => .error err
    | (order, none) => decodeOrdersLoop L rest (res ++ [order])

/-- The function `decodeOrders` of `decoder.go`. -/
def decodeOrders (L : Lib) (v : Any) : Except Error Orders :=
  match jsonGetList v with
  | .error err => .error err
  | .ok orderList => decodeOrdersLoop L orderList []

/-- The function `decodeOrderBook` of `decoder.go`. -/
def decodeOrderBook (L : Lib) (v : Any) : Except Error OrderBook :=
  match jsonGetMap v with
  | .error err => .error err
  | .ok m =>
    match decodeOrders L (mapIndex m "asks".toList) with
    | .error err => .error err
    | .ok asks =>
      match decodeOrders L (mapIndex m "bids".toList) with
      | .error err => .error err
      | .ok bids => .ok { Asks := asks, Bids := bids }

/-- The function `decodeError` of `decoder.go`: the pair `(error, bool)`. -/
def decodeError (L : Lib) (r : GoString) : Option Error × Bool :=
  match DecodeJSON L r with
  | .error _ => (none, false)
  | .ok j =>
    match jsonGetMap j with
    | .error _ => (none, false)
    | .ok m =>
      match jsonGetMap (mapIndex m "error".toList) with
      | .error _ => (none, false)
      | .ok m =>
        match jsonGetInt L (mapIndex m "code".toList) with
        | .error _ => (none, false)
        | .ok code =>
          match jsonGetString (mapIndex m "message".toList) with
          | .error _ => (none, false)
          | .ok msg => (some (.text (fmtD code ++ ": ".toList ++ msg)), true)

/-! ## http.go -/

/-- The constant `gBaseURL` of `api.go`. -/
def gBaseURL : GoString := "https://kuna.io".toList

/-- The function `readResp` of `http.go`. -/
def readResp (L : Lib) (r : Response) : Except Error Any :=
  if r.StatusCode.tdiv 100 ≠ 2 then
    match decodeError L r.Body with
    | (err, true) => .error (.text (r.Status ++ "; ".toList ++ fmtS L err))
    | (_, false) =>
        .error (.text ("server returned HTTP response code ".toList ++ r.Status))
  else
    DecodeJSON L r.Body

/-- The function `doGet` of `http.go`. -/
def doGet (L : Lib) (url : GoString) : Except Error Any :=
  match L.clientGet url with
  | .error err => .error err
  | .ok resp => readResp L resp

/-- Go `strings.Trim(s, cutset)`: `s` without its leading and trailing
characters that occur in `cutset`. -/
def stringsTrim (s cutset : GoString) : GoString :=
  (s.dropWhile (fun c => cutset.contains c)).rdropWhile (fun c => cutset.contains c)

/-- The slice that `privURL` sorts: the extra parameters followed by
`access_key` and `tonce` (`now` is `time.Now().Unix()`). -/
def privArgs (now : Int) (access_key : GoString) (args : Args) : Args :=
  args ++ [⟨"access_key".toList, access_key⟩, ⟨"tonce".toList, fmtD now ++ "000".toList⟩]

/-- The loop of `privURL` that renders the sorted slice: each element appends
`&Key=Value` to the string built so far. -/
def privQueryLoop (args : Args) : GoString :=
  args.foldl (fun query e => query ++ ("&".toList ++ e.Key ++ "=".toList ++ e.Value)) []

/-- The value of the variable `query` of `privURL` after the trim. -/
def privQuery (L : Lib) (now : Int) (access_key : GoString) (args : Args) : GoString :=
  stringsTrim (privQueryLoop (L.sortSort (privArgs now access_key args))) "&".toList

/-- The message `privURL` writes to the HMAC: `method|url|query`. -/
def privMessage (L : Lib) (now : Int) (method url access_key : GoString) (args : Args) :
    GoString :=
  method ++ "|".toList ++ url ++ "|".toList ++ privQuery L now access_key args

/-- The function `privURL` of `http.go`; `now` is the reading of
`time.Now().Unix()`.  A `nil` slice and the empty slice are both the empty
list, so the initial test `args == nil` has no counterpart. -/
def privURL (L : Lib) (now : Int) (method url access_key secret_key : GoString)
    (args : Args) : GoString :=
  let args := args ++ [⟨"access_key".toList, access_key⟩,
    ⟨"tonce".toList, fmtD now ++ "000".toList⟩]
  let args := L.sortSort args
  let query := args.foldl
    (fun query e => query ++ ("&".toList ++ e.Key ++ "=".toList ++ e.Value)) []
  let query := stringsTrim query "&".toList
  let h := L.hmacSHA256 secret_key (method ++ "|".toList ++ url ++ "|".toList ++ query)
  let secret := L.hexEncodeToString h
  let url := url ++ "?".toList ++ query ++ "&signature=".toList ++ secret
  gBaseURL ++ url

/-- The variable `secret` of `privURL`: the hexadecimal digest of the signed
message. -/
def privSignature (L : Lib) (now : Int) (method url access_key secret_key : GoString)
    (args : Args) : GoString :=
  L.hexEncodeToString (L.hmacSHA256 secret_key (privMessage L now method url access_key args))

/-! ## api.go -/

/-- The function `GetServerTime` of `api.go`. -/
def GetServerTime (L : Lib) : Except Error Time :=
  match doGet L (gBaseURL ++ "/api/v2/timestamp".toList) with
  | .error err => .error err
  | .ok j => jsonGetTime L j

/-- The function `GetLatestStats` of `api.go`: the value handed to
`decodeLatestStats` is the `*http.Response` that `gClient.Get` returned. -/
def GetLatestStats (L : Lib) (market : GoString) : Except Error Stats :=
  match L.clientGet (gBaseURL ++ "/api/v2/tickers/".toList ++ market) with
  | .error err => .error err
  | .ok j => decodeLatestStats L (.response j)

/-- The function `GetOrderBook` of `api.go`. -/
def GetOrderBook (L : Lib) (market : GoString) : Except Error OrderBook :=
  match doGet L (gBaseURL ++ "/api/v2/order_book?market=".toList ++ market) with
  | .error err => .error err
  | .ok j => decodeOrderBook L j

/-- The variable `url` of `GetUserInfo`: `privURL` called with no extra
parameter (`nil`). -/
def GetUserInfoURL (L : Lib) (now : Int) (access_key secret_key : GoString) : GoString :=
  privURL L now "GET".toList "/api/v2/members/me".toList access_key secret_key []

/-- The variable `url` of `GetUserOrders`. -/
def GetUserOrdersURL (L : Lib) (now : Int) (access_key secret_key market : GoString) :
    GoString :=
  privURL L now "GET".toList "/api/v2/orders".toList access_key secret_key
    [⟨"market".toList, market⟩]

/-- The variable `url` of `GetUserTrades`. -/
def GetUserTradesURL (L : Lib) (now : Int) (access_key secret_key market : GoString) :
    GoString :=
  privURL L now "GET".toList "/api/v2/trades/my".toList access_key secret_key
    [⟨"market".toList, market⟩]

/-- The variable `url` of `NewOrder`; `fmtF` is the `%f` rendering of `fmt`. -/
def NewOrderURL (L : Lib) (fmtF : Float64 → GoString) (now : Int)
    (access_key secret_key market side : GoString) (volume price : Float64) : GoString :=
  privURL L now "POST".toList "/api/v2/orders".toList access_key secret_key
    [⟨"market".toList, market⟩, ⟨"price".toList, fmtF price⟩, ⟨"side".toList, side⟩,
      ⟨"volume".toList, fmtF volume⟩]

/-- The variable `url` of `CancelOrder`; the order ID is rendered by `%d`. -/
def CancelOrderURL (L : Lib) (now : Int) (access_key secret_key : GoString) (id : Int) :
    GoString :=
  privURL L now "POST".toList "/api/v2/order/delete".toList access_key secret_key
    [⟨"id".toList, fmtD id⟩]

/-! ## history.go -/

/-- The body shared by `MinPrice`, `MinVolume` and `MinFunds`, on the field
`field`: 0 for the empty history, otherwise a loop from the first entry that
keeps the smaller value. -/
def histMin (field : HistoryEntry → Float64) : History → Float64
  | [] => 0
  | e :: rest => rest.foldl (fun min x => if field x < min then field x else min) (field e)

/-- The body shared by `MaxPrice`, `MaxVolume` and `MaxFunds`, on the field
`field`: a loop over all entries from `max := 0` that keeps the larger value. -/
def histMax (field : HistoryEntry → Float64) (h : History) : Float64 :=
  h.foldl (fun max e => if max < field e then field e else max) 0

/-- The body shared by `SumVolume` and `SumFunds`: a loop that adds the field. -/
def histSum (field : HistoryEntry → Float64) (h : History) : Float64 :=
  h.foldl (fun sum e => sum + field e) 0

/-- The method `History.MinPrice` of `history.go`. -/
def History.MinPrice (h : History) : Float64 := histMin (fun e => e.Price) h

/-- The method `History.MaxPrice` of `history.go`. -/
def History.MaxPrice (h : History) : Float64 := histMax (fun e => e.Price) h

/-- The method `History.SumVolume` of `history.go`. -/
def History.SumVolume (h : History) : Float64 := histSum (fun e => e.Volume) h

/-- The method `History.SumFunds` of `history.go`. -/
def History.SumFunds (h : History) : Float64 := histSum (fun e => e.Funds) h

/-- The method `History.AvgPrice` of `history.go`. -/
def History.AvgPrice (h : History) : Float64 := History.SumFunds h / History.SumVolume h

/-- The method `History.AvgVolume` of `history.go`. -/
def History.AvgVolume (h : History) : Float64 := History.SumVolume h / (h.length : Float64)

/-- The method `History.AvgFunds` of `history.go`. -/
def History.AvgFunds (h : History) : Float64 := History.SumFunds h / (h.length : Float64)

/-- The method `History.MinVolume` of `history.go`. -/
def History.MinVolume (h : History) : Float64 := histMin (fun e => e.Volume) h

/-- The method `History.MaxVolume` of `history.go`. -/
def History.MaxVolume (h : History) : Float64 := histMax (fun e => e.Volume) h

/-- The method `History.MinFunds` of `history.go`. -/
def History.MinFunds (h : History) : Float64 := histMin (fun e => e.Funds) h

/-- The method `History.MaxFunds` of `history.go`. -/
def History.MaxFunds (h : History) : Float64 := histMax (fun e => e.Funds) h

/-! ## cli.go: the order book walk -/

/-- One line printed by the order book walk: price, volume and funds of the
level, the average price `sumFunds/sumVolume`, and the running totals.  The
average price is the quotient of rationals; its divisor is the field
`SumVolume` of the same line. -/
structure Row where
  Price : Float64
  Volume : Float64
  Funds : Float64
  AvgPrice : Float64
  SumVolume : Float64
  SumFunds : Float64
deriving DecidableEq

/-- The loop of `main` for the commands `sell` and `buy` (`cli.go`), in exact
arithmetic, from the state `sumVolume`, `sumFunds` on the levels still to
visit; the result is the lines printed. `gUAH` is the option `--uah` (the limit
is in funds), `limit` the ceiling. The loop variable `e` is a copy of the
level, whose `RemainingVolume` the loop overwrites when it clips; the loop is
left after the line of a clipped level (`needBreak`). -/
def walkLoop (gUAH : Bool) (limit : Float64) : Orders → Float64 → Float64 → List Row
  | [], _, _ => []
  | e :: rest, sumVolume, sumFunds =>
    let clipVolume : Bool :=
      decide (0 < limit) && (!gUAH && decide (limit ≤ sumVolume + e.RemainingVolume))
    let clipFunds : Bool :=
      decide (0 < limit) && !clipVolume &&
        (gUAH && decide (limit ≤ sumFunds + e.RemainingVolume * e.Price))
    let remainingVolume : Float64 :=
      if clipVolume then limit - sumVolume
      else if clipFunds then (limit - sumFunds) / e.Price
      else e.RemainingVolume
    let needBreak : Bool := clipVolume || clipFunds
    let sumVolume := sumVolume + remainingVolume
    let sumFunds := sumFunds + remainingVolume * e.Price
    { Price := e.Price, Volume := remainingVolume, Funds := remainingVolume * e.Price,
      AvgPrice := sumFunds / sumVolume, SumVolume := sumVolume, SumFunds := sumFunds }
      :: (if needBreak then [] else walkLoop gUAH limit rest sumVolume sumFunds)

/-- The divisors of the divisions the loop of `sell` and `buy` evaluates, in the
order of evaluation: `e.Price` in `(limit - sumFunds) / e.Price` when a level
is clipped by funds, and the cumulative volume in `sumFunds/sumVolume` for
each line printed. -/
def walkDivisors (gUAH : Bool) (limit : Float64) : Orders → Float64 → Float64 → List Float64
  | [], _, _ => []
  | e :: rest, sumVolume, sumFunds =>
    let clipVolume : Bool :=
      decide (0 < limit) && (!gUAH && decide (limit ≤ sumVolume + e.RemainingVolume))
    let clipFunds : Bool :=
      decide (0 < limit) && !clipVolume &&
        (gUAH && decide (limit ≤ sumFunds + e.RemainingVolume * e.Price))
    let remainingVolume : Float64 :=
      if clipVolume then limit - sumVolume
      else if clipFunds then (limit - sumFunds) / e.Price
      else e.RemainingVolume
    let needBreak : Bool := clipVolume || clipFunds
    let sumVolume := sumVolume + remainingVolume
    let sumFunds := sumFunds + remainingVolume * e.Price
    (if clipFunds then [e.Price] else []) ++
      sumVolume :: (if needBreak then [] else walkDivisors gUAH limit rest sumVolume sumFunds)

/-- The line printed for the level `e` when its volume, as clipped or not, is
`v` and the totals before it are `sv` and `sf`. -/
def rowOf (e : Order) (v sv sf : Float64) : Row :=
  { Price := e.Price, Volume := v, Funds := v * e.Price,
    AvgPrice := (sf + v * e.Price) / (sv + v), SumVolume := sv + v,
    SumFunds := sf + v * e.Price }

/-- The lines printed for the command `sell`: the walk over the asks. -/
def sellRows (gUAH : Bool) (limit : Float64) (obook : OrderBook) : List Row :=
  walkLoop gUAH limit obook.Asks 0 0

/-- The lines printed for the command `buy`: the walk over the bids. -/
def buyRows (gUAH : Bool) (limit : Float64) (obook : OrderBook) : List Row :=
  walkLoop gUAH limit obook.Bids 0 0

/-! ## The type float64

The loop of `sell` and `buy` computes in `float64`.  `F64` is that type with the
arithmetic of IEEE 754 binary64 as Go defines it: every operation returns the
representable value nearest to the exact result, ties to the even significand;
results too large become an infinity, results too small become subnormal or
zero; zeros carry a sign; `0/0` is NaN.  Each operation is rounded on its own
(no fused multiply-add), as the compiler does on amd64. -/

/-- A value of Go type `float64`.  `finite neg mag` is the number
`± mag * 2^(-1074)`: every finite `float64` is a multiple of the least
subnormal `2^(-1074)`, with `mag` below `2^53` or a multiple of `2^s` below
`2^(53+s)`, at most `(2^53 - 1) * 2^2045`.  The operations below return such
values (`F64.round`), and the theorems start from decimal literals
(`F64.ofDecimal`). -/
inductive F64 where
  | finite (neg : Bool) (mag : Nat)
  | inf (neg : Bool)
  | nan
deriving DecidableEq

/-- The number of binary digits of `n`; `fuel` bounds the number of halvings
(`n` itself is enough). -/
def F64.bitLength : Nat → Nat → Nat
  | 0, _ => 0
  | fuel + 1, n => if n = 0 then 0 else F64.bitLength fuel (n / 2) + 1

/-- Rounding to nearest, ties to even: the `float64` nearest to `± a / b`
(in units of `2^(-1074)`, `0 < b`).  Below `2^53` units the representable
values are the whole numbers of units; from `2^(52+s)` to `2^(53+s)` they are
the multiples of `2^s`.  A result of `2^2098` units (`2^1024`) or more is an
infinity. -/
def F64.round (neg : Bool) (a b : Nat) : F64 :=
  let s := F64.bitLength (a / b) (a / b) - 53
  let d := b * 2 ^ s
  let q := a / d
  let r := a % d
  let q := if 2 * r < d then q else if d < 2 * r then q + 1 else if q % 2 = 0 then q else q + 1
  let m := q * 2 ^ s
  if m < 2 ^ 2098 then .finite neg m else .inf neg

/-- The `float64` that `strconv.ParseFloat` returns for the decimal literal
`d * 10^e` (with a minus sign when `neg`): the nearest one. -/
def F64.ofDecimal (neg : Bool) (d : Nat) (e : Int) : F64 :=
  match e with
  | Int.ofNat k => F64.round neg (d * 10 ^ k * 2 ^ 1074) 1
  | Int.negSucc k => F64.round neg (d * 2 ^ 1074) (10 ^ (k + 1))

/-- The constant `0` of type `float64`. -/
def F64.zero : F64 := .finite false 0

/-- Go `-x`. -/
def F64.neg : F64 → F64
  | .finite n m => .finite (!n) m
  | .inf n => .inf (!n)
  | .nan => .nan

/-- Go `x + y`. -/
def F64.add : F64 → F64 → F64
  | .finite n1 m1, .finite n2 m2 =>
    if n1 = n2 then F64.round n1 (m1 + m2) 1
    else if m1 = m2 then .finite false 0
    else if m2 < m1 then F64.round n1 (m1 - m2) 1
    else F64.round n2 (m2 - m1) 1
  | .finite _ _, .inf n => .inf n
  | .inf n, .finite _ _ => .inf n
  | .inf n1, .inf n2 => if n1 = n2 then .inf n1 else .nan
  | _, _ => .nan

/-- Go `x * y`. -/
def F64.mul : F64 → F64 → F64
  | .finite n1 m1, .finite n2 m2 => F64.round (n1 != n2) (m1 * m2) (2 ^ 1074)
  | .finite n1 m1, .inf n2 => if m1 = 0 then .nan else .inf (n1 != n2)
  | .inf n1, .finite n2 m2 => if m2 = 0 then .nan else .inf (n1 != n2)
  | .inf n1, .inf n2 => .inf (n1 != n2)
  | _, _ => .nan

/-- Go `x / y`. -/
def F64.div : F64 → F64 → F64
  | .finite n1 m1, .finite n2 m2 =>
    if m2 = 0 then (if m1 = 0 then .nan else .inf (n1 != n2))
    else F64.round (n1 != n2) (m1 * 2 ^ 1074) m2
  | .finite n1 _, .inf n2 => .finite (n1 != n2) 0
  | .inf n1, .finite n2 _ => .inf (n1 != n2)
  | _, _ => .nan

/-- The `float64` of a positive decimal literal `d * 10^e`. -/
def dec (d : Nat) (e : Int) : F64 := F64.ofDecimal false d e

/-- The dynamic type of a value, as the type switches of `json.go` see it. -/
inductive Kind where
  | null | bool | number | string | list | map | other
deriving DecidableEq, Repr

/-- The kind of a dynamic value. -/
def Any.kind : Any → Kind
  | .null => .null
  | .bool _ => .bool
  | .number _ => .number
  | .str _ => .string
  | .list _ => .list
  | .map _ => .map
  | .response _ => .other

/-! ## The query string in the words of the specification -/

/-- One parameter rendered as `key=value`. -/
def renderPair (e : Arg) : GoString := e.Key ++ "=".toList ++ e.Value

/-- The rendered parameters joined by a single `&` between consecutive pairs. -/
def joinPairs (args : Args) : GoString :=
  "&".toList.intercalate (args.map renderPair)

/-- The signed URL in the words of the specification: the base URL, the path,
`?`, the canonical query string of the key-sorted parameters `sorted`,
`&signature=` and the hexadecimal digest of `method|path|query` under the
secret key. -/
def specURL (L : Lib) (method url secret_key : GoString) (sorted : Args) : GoString :=
  gBaseURL ++ url ++ "?".toList ++ joinPairs sorted ++ "&signature=".toList ++
    L.hexEncodeToString (L.hmacSHA256 secret_key
      (method ++ "|".toList ++ url ++ "|".toList ++ joinPairs sorted))

/-! ## A reference instance of the given functions

`refLib` makes the definitions above computable at concrete inputs.  Sorting is
insertion sort; `refParseInt` and `refParseFloat` read decimal literals;
`refTimeParse` reads the three timestamp layouts of the package; the JSON
decoder and the HTTP client answer on the sample inputs below; the digest is a
stand-in for HMAC-SHA256, which is not evaluated here. -/

/-- The value of a decimal digit. -/
def digitVal (c : Char) : Option Nat :=
  if '0' ≤ c ∧ c ≤ '9' then some (c.toNat - 48) else none

/-- Reads a non-empty run of decimal digits as a natural number. -/
def parseDigits : GoString → Option Nat
  | [] => none
  | c :: cs => (c :: cs).foldlM (fun acc d => (digitVal d).map (fun v => 10 * acc + v)) 0

/-- Splits a leading sign off a literal: the flag is true for `-`. -/
def splitSign : GoString → Bool × GoString
  | '+' :: rest => (false, rest)
  | '-' :: rest => (true, rest)
  | s => (false, s)

/-- The error text of a `*strconv.NumError` (the quoted operand is `num` between
double quotes, as for text without quotes, backslashes or control characters). -/
def numError (fn num reason : GoString) : Error :=
  .lib ("strconv.".toList ++ fn ++ ": parsing \"".toList ++ num ++ "\": ".toList ++ reason)

/-- Go `strconv.ParseInt(s, 10, 64)`: an optional sign and a non-empty run of
decimal digits, within the range of `int64`. -/
def refParseInt (s : GoString) : Except Error Int :=
  match parseDigits (splitSign s).2 with
  | none => .error (numError "ParseInt".toList s "invalid syntax".toList)
  | some un =>
    if (splitSign s).1 = false ∧ un ≥ 2 ^ 63 then
      .error (numError "ParseInt".toList s "value out of range".toList)
    else if (splitSign s).1 = true ∧ un > 2 ^ 63 then
      .error (numError "ParseInt".toList s "value out of range".toList)
    else if (splitSign s).1 then .ok (-(un : Int)) else .ok (un : Int)

/-- The exponent part of a decimal literal: empty, or `e`/`E`, an optional sign
and a non-empty run of digits. -/
def parseExponent : GoString → Option Int
  | [] => some 0
  | _ :: rest =>
    match parseDigits (splitSign rest).2 with
    | none => none
    | some e => some (if (splitSign rest).1 then -(e : Int) else (e : Int))

/-- The parts of a decimal literal: the sign flag, the digits of the mantissa
read as one natural number, the number of digits after the point, and the
exponent.  The mantissa needs at least one digit. -/
def decimalParts (s : GoString) : Option (Bool × Nat × Nat × Int) :=
  let body := (splitSign s).2
  let mant := body.takeWhile (fun c => c ≠ 'e' ∧ c ≠ 'E')
  let expo := body.dropWhile (fun c => c ≠ 'e' ∧ c ≠ 'E')
  let ip := mant.takeWhile (fun c => c ≠ '.')
  let fp := (mant.dropWhile (fun c => c ≠ '.')).drop 1
  match parseDigits (ip ++ fp), parseExponent expo with
  | some m, some e => some ((splitSign s).1, m, fp.length, e)
  | _, _ => none

/-- The rational number a decimal literal denotes. -/
def decimalValue (neg : Bool) (m k : Nat) (e : Int) : ℚ :=
  (if neg then -1 else 1) * (m : ℚ) / (10 : ℚ) ^ k * (10 : ℚ) ^ e

/-- Go `strconv.ParseFloat(s, 64)` on decimal literals (sign, digits with an
optional point, optional exponent), the value taken exactly.  Hexadecimal
literals, infinities and NaN are outside this reference instance, as is the
range check of `float64`. -/
def refParseFloat (s : GoString) : Except Error Float64 :=
  match decimalParts s with
  | some (neg, m, k, e) => .ok (decimalValue neg m k e)
  | none => .error (numError "ParseFloat".toList s "invalid syntax".toList)

/-- Go `hex.EncodeToString`: two lowercase hexadecimal digits per byte. -/
def refHex (bs : List Nat) : GoString :=
  bs.flatMap (fun b => [Nat.digitChar (b / 16 % 16), Nat.digitChar (b % 16)])

/-- A stand-in digest: the bytes of key and message (not HMAC-SHA256). -/
def refDigest (key msg : GoString) : List Nat :=
  (key ++ msg).map (fun c => c.toNat % 256)

/-- A stand-in for the `%#v` rendering: the text of strings and numbers between
double quotes, the type name otherwise. -/
def refGoSyntax : Any → GoString
  | .bool true => "true".toList
  | .bool false => "false".toList
  | .number n => "\"".toList ++ n ++ "\"".toList
  | .str s => "\"".toList ++ s ++ "\"".toList
  | v => typeName v

/-- A ticker body as the server sends it. -/
def tickerBody : GoString :=
  ("\x7b\"at\":1609459200,\"ticker\":\x7b\"buy\":\"29000.0\",\"sell\":\"29100.5\"," ++
   "\"low\":\"28000.0\",\"high\":\"29500.0\",\"last\":\"29050.0\",\"vol\":\"12.5\"\x7d\x7d").toList

/-- The value the JSON decoder produces for `tickerBody`. -/
def tickerValue : Any :=
  .map [("at".toList, .number "1609459200".toList),
        ("ticker".toList, .map [
          ("buy".toList, .str "29000.0".toList),
          ("sell".toList, .str "29100.5".toList),
          ("low".toList, .str "28000.0".toList),
          ("high".toList, .str "29500.0".toList),
          ("last".toList, .str "29050.0".toList),
          ("vol".toList, .str "12.5".toList)])]

/-- An error body as the server sends it. -/
def errorBody : GoString :=
  "\x7b\"error\":\x7b\"code\":2002,\"message\":\"Failed to create order.\"\x7d\x7d".toList

/-- The value the JSON decoder produces for `errorBody`. -/
def errorValue : Any :=
  .map [("error".toList, .map [
    ("code".toList, .number "2002".toList),
    ("message".toList, .str "Failed to create order.".toList)])]

/-- The JSON decoder on the sample bodies; any other body is reported as a
syntax error. -/
def refJsonDecode (body : GoString) : Except Error Any :=
  if body = tickerBody then .ok tickerValue
  else if body = errorBody then .ok errorValue
  else .error (.lib "invalid character".toList)

/-- A successful ticker response. -/
def tickerResponse : Response :=
  { StatusCode := 200, Status := "200 OK".toList, Body := tickerBody }

/-- A rejected request: status 400 with a structured error body. -/
def errorResponse : Response :=
  { StatusCode := 400, Status := "400 Bad Request".toList, Body := errorBody }

/-- A failed request whose body is not JSON. -/
def gatewayResponse : Response :=
  { StatusCode := 502, Status := "502 Bad Gateway".toList, Body := "<html>".toList }

/-- The HTTP client on the sample requests: the ticker of `btcuah` is served,
any other request fails at the network level. -/
def refClientGet (url : GoString) : Except Error Response :=
  if url = "https://kuna.io/api/v2/tickers/btcuah".toList then .ok tickerResponse
  else .error (.lib "dial tcp: connection refused".toList)

/-- A date and time of day as written in a timestamp. -/
structure Civil where
  year : Nat
  month : Nat
  day : Nat
  hour : Nat
  min : Nat
  sec : Nat
deriving DecidableEq, Repr

/-- Leap years of the Gregorian calendar. -/
def isLeap (y : Nat) : Bool := decide (y % 4 = 0 ∧ (y % 100 ≠ 0 ∨ y % 400 = 0))

/-- The number of days of a month. -/
def daysIn (month year : Nat) : Nat :=
  if month = 2 then (if isLeap year then 29 else 28)
  else if month = 4 ∨ month = 6 ∨ month = 9 ∨ month = 11 then 30
  else 31

/-- The number of days of the year before the first of a month. -/
def daysBefore (month year : Nat) : Nat :=
  ((List.range (month - 1)).map (fun i => daysIn (i + 1) year)).sum

/-- The number of leap years before the year `y`, counted from year 1. -/
def leapsBefore (y : Int) : Int := (y - 1) / 4 - (y - 1) / 100 + (y - 1) / 400

/-- The Unix second of a date and time of day read as UTC. -/
def Civil.unix (c : Civil) : Int :=
  (365 * ((c.year : Int) - 1970) + (leapsBefore c.year - leapsBefore 1970)
      + daysBefore c.month c.year + ((c.day : Int) - 1)) * 86400
    + c.hour * 3600 + c.min * 60 + c.sec

/-- Reads two decimal digits (a fixed-width field). -/
def getnum2 : GoString → Option (Nat × GoString)
  | a :: b :: rest =>
    match digitVal a, digitVal b with
    | some x, some y => some (10 * x + y, rest)
    | _, _ => none
  | _ => none

/-- Reads one or two decimal digits (the hour field `15`). -/
def getnum12 : GoString → Option (Nat × GoString)
  | a :: b :: rest =>
    match digitVal a, digitVal b with
    | some x, some y => some (10 * x + y, rest)
    | some x, none => some (x, b :: rest)
    | none, _ => none
  | [a] => (digitVal a).map (fun x => (x, []))
  | [] => none

/-- Reads four decimal digits (the year field `2006`). -/
def getnum4 : GoString → Option (Nat × GoString)
  | a :: b :: c :: d :: rest =>
    match digitVal a, digitVal b, digitVal c, digitVal d with
    | some x, some y, some z, some w => some (1000 * x + 100 * y + 10 * z + w, rest)
    | _, _, _, _ => none
  | _ => none

/-- Reads the literal character `c`. -/
def expectChar (c : Char) : GoString → Option GoString
  | x :: rest => if x = c then some rest else none
  | [] => none

/-- Skips a fractional second (`.` or `,` and digits) after the seconds field. -/
def skipFraction : GoString → GoString
  | c :: d :: rest =>
    if (c = '.' ∨ c = ',') ∧ (digitVal d).isSome then
      rest.dropWhile (fun x => (digitVal x).isSome)
    else c :: d :: rest
  | s => s

/-- Reads the elements `2006-01-02T15:04:05` of a layout from a value: the
fields, checked against their ranges, and the text that follows. -/
def readDateTime (s : GoString) : Option (Civil × GoString) := do
  let (year, s) ← getnum4 s
  let s ← expectChar '-' s
  let (month, s) ← getnum2 s
  if month = 0 ∨ 12 < month then none
  let s ← expectChar '-' s
  let (day, s) ← getnum2 s
  let s ← expectChar 'T' s
  let (hour, s) ← getnum12 s
  if 24 ≤ hour then none
  let s ← expectChar ':' s
  let (min, s) ← getnum2 s
  if 60 ≤ min then none
  let s ← expectChar ':' s
  let (sec, s) ← getnum2 s
  if 60 ≤ sec then none
  pure ({ year := year, month := month, day := day, hour := hour, min := min, sec := sec },
    skipFraction s)

/-- The last element of the three supported layouts: the letter `Z`, the zone
`-0700`, or the zone `-07:00`. -/
inductive ZoneForm where
  | utc | numeric | colon
deriving DecidableEq, Repr

/-- The zone element of a supported layout. -/
def layoutZone (layout : GoString) : Option ZoneForm :=
  if layout = "2006-01-02T15:04:05Z".toList then some .utc
  else if layout = "2006-01-02T15:04:05-0700".toList then some .numeric
  else if layout = "2006-01-02T15:04:05-07:00".toList then some .colon
  else none

/-- The offset in seconds of a zone written with sign `sg`, hours `a b` and
minutes `c d`. -/
def zoneOffset (sg a b c d : Char) : Option Int :=
  match digitVal a, digitVal b, digitVal c, digitVal d with
  | some x, some y, some z, some w =>
    if 24 < 10 * x + y ∨ 60 < 10 * z + w then none
    else if sg = '+' then some ((((10 * x + y) * 60 + (10 * z + w)) * 60 : Nat) : Int)
    else if sg = '-' then some (-((((10 * x + y) * 60 + (10 * z + w)) * 60 : Nat) : Int))
    else none
  | _, _, _, _ => none

/-- Reads the zone element at the end of a value: the offset in seconds east
of UTC. -/
def readZone : ZoneForm → GoString → Option Int
  | .utc, [z] => if z = 'Z' then some 0 else none
  | .numeric, [sg, a, b, c, d] => zoneOffset sg a b c d
  | .colon, [sg, a, b, col, c, d] => if col = ':' then zoneOffset sg a b c d else none
  | _, _ => none

/-- The error text of `time.Parse`, without the detail on the failing element. -/
def timeParseError (layout value : GoString) : Error :=
  .lib ("parsing time \"".toList ++ value ++ "\" as \"".toList ++ layout ++ "\"".toList)

/-- Go `time.Parse(layout, value)` for the three layouts of
`supportedTimeFormats`, after the documentation of package `time`: fixed-width
fields (the hour may have one digit), a fractional second accepted after the
seconds, each field checked against its range, the day against the length of
the month, no text left over.  The instant is the written date and time minus
the zone offset; without a zone it is read as UTC.  The instant is kept to the
second. -/
def refTimeParse (layout value : GoString) : Except Error Time :=
  match layoutZone layout with
  | none => .error (timeParseError layout value)
  | some z =>
    match readDateTime value with
    | none => .error (timeParseError layout value)
    | some (c, rest) =>
      match readZone z rest with
      | none => .error (timeParseError layout value)
      | some off =>
        if c.day < 1 ∨ daysIn c.month c.year < c.day then
          .error (timeParseError layout value)
        else .ok ⟨c.unix - off⟩

/-- The error of a result, `nil` for a success. -/
def errOf {α : Type} : Except Error α → Option Error
  | .ok _ => none
  | .error e => some e

/-- The errors of the twelve field accessors of an order, in the order in which
the fields are required. -/
def orderFieldErrors (L : Lib) (m : List (GoString × Any)) : List (Option Error) :=
  [errOf (jsonGetInt L (mapIndex m "id".toList)),
   errOf (jsonGetString (mapIndex m "side".toList)),
   errOf (jsonGetString (mapIndex m "ord_type".toList)),
   errOf (jsonGetFloat L (mapIndex m "price".toList)),
   errOf (jsonGetFloat L (mapIndex m "avg_price".toList)),
   errOf (jsonGetString (mapIndex m "state".toList)),
   errOf (jsonGetString (mapIndex m "market".toList)),
   errOf (jsonGetTimeFromText L (mapIndex m "created_at".toList)),
   errOf (jsonGetFloat L (mapIndex m "volume".toList)),
   errOf (jsonGetFloat L (mapIndex m "remaining_volume".toList)),
   errOf (jsonGetFloat L (mapIndex m "executed_volume".toList)),
   errOf (jsonGetInt L (mapIndex m "trades_count".toList))]

/-- The sum of the funds `volume * price` of a list of levels. -/
def sumLevelFunds (levels : Orders) : Float64 :=
  (levels.map (fun e => e.RemainingVolume * e.Price)).sum

/-- A level of an order book: an order with a price and a remaining volume. -/
def level (price volume : Float64) : Order :=
  { Order.zero with Price := price, RemainingVolume := volume }

/-- An entry of a trade history with a price, a volume and funds. -/
def trade (price volume funds : Float64) : HistoryEntry :=
  { ID := 0, Price := price, Volume := volume, Funds := funds, Market := [],
    CreatedAt := Time.zero }

/-- A trade history of three entries whose funds are `price * volume`. -/
def sampleHistory : History := [trade 10 2 20, trade 12 1 12, trade 9 3 27]

/-- The order book of the specification's examples: asks `(10, 5)`, `(11, 5)`. -/
def sampleBook : OrderBook :=
  { Asks := [level 10 5, level 11 5], Bids := [level 9 4, level 8 6] }

/-- A number below 100 written with two digits. -/
def pad2 (n : Nat) : GoString := [Nat.digitChar (n / 10), Nat.digitChar (n % 10)]

/-- A number below 10000 written with four digits. -/
def pad4 (n : Nat) : GoString :=
  [Nat.digitChar (n / 1000), Nat.digitChar (n / 100 % 10), Nat.digitChar (n / 10 % 10),
    Nat.digitChar (n % 10)]

/-- A date and time of day written as `YYYY-MM-DDThh:mm:ss`. -/
def writeDateTime (c : Civil) : GoString :=
  pad4 c.year ++ '-' :: pad2 c.month ++ '-' :: pad2 c.day ++ 'T' :: pad2 c.hour
    ++ ':' :: pad2 c.min ++ ':' :: pad2 c.sec

/-- The dates and times of day that exist: a year of four digits, a month, a
day of that month, and a time of day. -/
def Civil.valid (c : Civil) : Prop :=
  c.year ≤ 9999 ∧ 1 ≤ c.month ∧ c.month ≤ 12 ∧ 1 ≤ c.day ∧ c.day ≤ daysIn c.month c.year ∧
    c.hour < 24 ∧ c.min < 60 ∧ c.sec < 60

/-- Validity of a date and time of day is decidable. -/
instance (c : Civil) : Decidable c.valid := by
  unfold Civil.valid
  exact inferInstance

/-- A zone offset written as `±hhmm`, or as `±hh:mm` when `colon` is set; `east`
selects the sign `+`. -/
def writeZone (colon east : Bool) (hh mm : Nat) : GoString :=
  (if east then '+' else '-') :: pad2 hh ++ (if colon then [':'] else []) ++ pad2 mm

/-- The offset in seconds east of UTC of a zone `±hh:mm`. -/
def zoneSeconds (east : Bool) (hh mm : Nat) : Int :=
  if east then (((hh * 60 + mm) * 60 : Nat) : Int) else -(((hh * 60 + mm) * 60 : Nat) : Int)

/-- The entries of a map value (none for a value that is not a map). -/
def Any.fields : Any → List (GoString × Any)
  | .map m => m
  | _ => []

/-- A ticker value that carries an `amount`. -/
def tickerValueAmount : Any :=
  .map [("at".toList, .number "1609459200".toList),
        ("ticker".toList, .map [
          ("buy".toList, .str "29000.0".toList),
          ("sell".toList, .str "29100.5".toList),
          ("low".toList, .str "28000.0".toList),
          ("high".toList, .str "29500.0".toList),
          ("last".toList, .str "29050.0".toList),
          ("vol".toList, .str "12.5".toList),
          ("amount".toList, .str "362500.0".toList)])]

/-- The fields of an order as the server sends them. -/
def sampleOrderFields : List (GoString × Any) :=
  [("id".toList, .number "42".toList),
   ("side".toList, .str "sell".toList),
   ("ord_type".toList, .str "limit".toList),
   ("price".toList, .str "10.0".toList),
   ("avg_price".toList, .str "0.0".toList),
   ("state".toList, .str "wait".toList),
   ("market".toList, .str "btcuah".toList),
   ("created_at".toList, .str "2021-01-01T00:00:00Z".toList),
   ("volume".toList, .str "5.0".toList),
   ("remaining_volume".toList, .str "5.0".toList),
   ("executed_volume".toList, .str "0.0".toList),
   ("trades_count".toList, .number "0".toList)]

/-- The order that `sampleOrderFields` describes. -/
def sampleOrder : Order :=
  { ID := 42, Side := "sell".toList, OrdType := "limit".toList, Price := 10, AvgPrice := 0,
    State := "wait".toList, Market := "btcuah".toList, CreatedAt := ⟨1609459200⟩,
    Volume := 5, RemainingVolume := 5, ExecutedVolume := 0, TradesCount := 0 }

/-- The fields of an order without `state` and with a `volume` that is not a
number. -/
def brokenOrderFields : List (GoString × Any) :=
  [("id".toList, .number "43".toList),
   ("side".toList, .str "buy".toList),
   ("ord_type".toList, .str "limit".toList),
   ("price".toList, .str "9.0".toList),
   ("avg_price".toList, .str "0.0".toList),
   ("market".toList, .str "btcuah".toList),
   ("created_at".toList, .str "2021-01-01T00:00:00Z".toList),
   ("volume".toList, .bool true)]

/-- The second line of `sell 7` on the sample order book. -/
def sampleVolumeLine : Row :=
  { Price := 11, Volume := 2, Funds := 22, AvgPrice := 72 / 7, SumVolume := 7, SumFunds := 72 }

/-- The order `sort.Sort` sorts by, as a non-strict relation. -/
def Args.LessEq (x y : Arg) : Prop := x.Key ≤ y.Key

/-- `LessEq` is decidable. -/
instance (x y : Arg) : Decidable (Args.LessEq x y) :=
  inferInstanceAs (Decidable (x.Key ≤ y.Key))

/-- Any two elements are comparable by key. -/
instance : IsTotal Arg Args.LessEq := ⟨fun x y => le_total x.Key y.Key⟩

/-- The order by key is transitive. -/
instance : IsTrans Arg Args.LessEq := ⟨fun _ _ _ h₁ h₂ => le_trans h₁ h₂⟩

/-- The reference instance of the given functions. -/
def refLib : Lib where
  sortSort := List.insertionSort Args.LessEq
  sortSort_perm := List.perm_insertionSort Args.LessEq
  sortSort_sorted := fun a =>
    (List.sorted_insertionSort Args.LessEq a).imp (fun h => not_lt.mpr h)
  hmacSHA256 := refDigest
  hexEncodeToString := refHex
  jsonDecode := refJsonDecode
  parseFloat := refParseFloat
  parseInt := refParseInt
  timeParse := refTimeParse
  clientGet := refClientGet
  fmtGoSyntax := refGoSyntax

/-- The order parameters of the specification's example, in insertion order. -/
def sampleArgs : Args :=
  [⟨"volume".toList, "1".toList⟩, ⟨"market".toList, "x".toList⟩, ⟨"price".toList, "2".toList⟩]

/-- A second instance of the given functions, in which the stand-ins for the
digest and its rendering keep the whole message, so that the signature is an
injective function of the signed message. -/
def plainLib : Lib :=
  { refLib with
    hmacSHA256 := fun key msg => (key ++ msg).map Char.toNat
    hexEncodeToString := fun bs => bs.map Char.ofNat }

/-! ## Theorems -/

/-! ### Reference instance -/

/-- The reference `ParseFloat` on a literal with known parts. -/
theorem refParseFloat_literal (s : GoString) (neg : Bool) (m k : Nat) (e : Int)
    (h : decimalParts s = some (neg, m, k, e)) :
    refParseFloat s = .ok (decimalValue neg m k e) := by
  simp [refParseFloat, h]

/-! ### `GetLatestStats` (C1) -/

/-- Whatever the transport answers, `GetLatestStats` returns the transport
error or the type mismatch of `jsonGetMap` on the `*http.Response`: it never
returns a `Stats` record. -/
theorem GetLatestStats_eq (L : Lib) (market : GoString) :
    GetLatestStats L market =
      match L.clientGet (gBaseURL ++ "/api/v2/tickers/".toList ++ market) with
      | .error err => .error err
      | .ok j => .error (.typeMismatch "dict".toList (.response j)) := by
  unfold GetLatestStats
  cases L.clientGet (gBaseURL ++ "/api/v2/tickers/".toList ++ market) <;> rfl

/-- The sample ticker value decodes to its `Stats` record. -/
theorem decodeLatestStats_tickerValue :
    decodeLatestStats refLib tickerValue =
      .ok { Time := ⟨1609459200⟩, Buy := 29000, Sell := 58201 / 2, Low := 28000,
            High := 29500, Last := 29050, Vol := 25 / 2, Amount := 0 } := by
  have h : decodeLatestStats refLib tickerValue =
      .ok { Time := ⟨1609459200⟩, Buy := decimalValue false 290000 1 0,
            Sell := decimalValue false 291005 1 0, Low := decimalValue false 280000 1 0,
            High := decimalValue false 295000 1 0, Last := decimalValue false 290500 1 0,
            Vol := decimalValue false 125 1 0, Amount := 0 } := by rfl
  rw [h]
  norm_num [decimalValue]

/-- C1, at the failing input: the ticker request for `btcuah` is answered
`200 OK` with a well-formed ticker body.  Fetched as the other operations fetch
(`doGet`, then the domain decoder), the request gives the `Stats` record;
`GetLatestStats` returns the type-mismatch error of `jsonGetMap` on the response
itself. -/
theorem GetLatestStats_ticker_fails :
    refLib.clientGet (gBaseURL ++ "/api/v2/tickers/".toList ++ "btcuah".toList)
        = .ok tickerResponse ∧
      tickerResponse.StatusCode = 200 ∧
      doGet refLib (gBaseURL ++ "/api/v2/tickers/".toList ++ "btcuah".toList)
        = .ok tickerValue ∧
      decodeLatestStats refLib tickerValue =
        .ok { Time := ⟨1609459200⟩, Buy := 29000, Sell := 58201 / 2, Low := 28000,
              High := 29500, Last := 29050, Vol := 25 / 2, Amount := 0 } ∧
      GetLatestStats refLib "btcuah".toList =
        .error (.typeMismatch "dict".toList (.response tickerResponse)) :=
  ⟨rfl, rfl, rfl, decodeLatestStats_tickerValue, rfl⟩

/-! ### The shape of the signed URL -/

/-- The URL that `privURL` returns, in terms of its variable `query`: the same
string stands in the URL and in the signed message. -/
theorem privURL_format (L : Lib) (now : Int) (method url access_key secret_key : GoString)
    (args : Args) :
    privURL L now method url access_key secret_key args =
      gBaseURL ++ url ++ "?".toList ++ privQuery L now access_key args
        ++ "&signature=".toList
        ++ L.hexEncodeToString (L.hmacSHA256 secret_key
            (method ++ "|".toList ++ url ++ "|".toList ++ privQuery L now access_key args)) := by
  simp [privURL, privQuery, privQueryLoop, privArgs, List.append_assoc]

/-- The digest in the URL is the digest of the message `privMessage`. -/
theorem privURL_signs_privMessage (L : Lib) (now : Int)
    (method url access_key secret_key : GoString) (args : Args) :
    privURL L now method url access_key secret_key args =
      gBaseURL ++ url ++ "?".toList ++ privQuery L now access_key args
        ++ "&signature=".toList
        ++ L.hexEncodeToString
            (L.hmacSHA256 secret_key (privMessage L now method url access_key args)) :=
  privURL_format L now method url access_key secret_key args

/-- The URL that `privURL` returns, in terms of its variables `query` and
`secret`. -/
theorem privURL_signature (L : Lib) (now : Int)
    (method url access_key secret_key : GoString) (args : Args) :
    privURL L now method url access_key secret_key args =
      gBaseURL ++ url ++ "?".toList ++ privQuery L now access_key args
        ++ "&signature=".toList
        ++ privSignature L now method url access_key secret_key args :=
  privURL_format L now method url access_key secret_key args

/-! ### Error payloads and the transport (C8, C9) -/

/-- When the body decodes to the error envelope, `decodeError` returns the
text `code: message` and the flag `true`. -/
theorem decodeError_of_envelope (L : Lib) (body : GoString)
    (m e : List (GoString × Any)) (n : GoString) (code : Int) (msg : GoString)
    (hbody : L.jsonDecode body = .ok (.map m))
    (herr : mapIndex m "error".toList = .map e)
    (hcode : mapIndex e "code".toList = .number n)
    (hint : L.parseInt n = .ok code)
    (hmsg : mapIndex e "message".toList = .str msg) :
    decodeError L body = (some (.text (fmtD code ++ ": ".toList ++ msg)), true) := by
  simp only [decodeError, DecodeJSON, hbody, jsonGetMap, herr, jsonGetInt, hcode, hint,
    jsonGetString, hmsg]

/-- The two outcomes of `decodeError`: `(nil, false)`, or the envelope was read. -/
theorem decodeError_cases (L : Lib) (body : GoString) :
    decodeError L body = (none, false) ∨
    ∃ (m e : List (GoString × Any)) (n : GoString) (code : Int) (msg : GoString),
      L.jsonDecode body = .ok (.map m) ∧
      mapIndex m "error".toList = .map e ∧
      mapIndex e "code".toList = .number n ∧
      L.parseInt n = .ok code ∧
      mapIndex e "message".toList = .str msg ∧
      decodeError L body = (some (.text (fmtD code ++ ": ".toList ++ msg)), true) := by
  cases hbody : L.jsonDecode body with
  | error err => left; simp only [decodeError, DecodeJSON, hbody]
  | ok j =>
    cases j with
    | map m =>
      cases herr : mapIndex m "error".toList with
      | map e =>
        cases hcode : mapIndex e "code".toList with
        | number n =>
          cases hint : L.parseInt n with
          | error err =>
            left
            simp only [decodeError, DecodeJSON, hbody, jsonGetMap, herr, jsonGetInt, hcode, hint]
          | ok code =>
            cases hmsg : mapIndex e "message".toList with
            | str msg =>
              right
              exact ⟨m, e, n, code, msg, rfl, herr, hcode, hint, hmsg,
                decodeError_of_envelope L body m e n code msg hbody herr hcode hint hmsg⟩
            | _ =>
              left
              simp only [decodeError, DecodeJSON, hbody, jsonGetMap, herr, jsonGetInt, hcode,
                hint, jsonGetString, hmsg]
        | _ =>
          left
          simp only [decodeError, DecodeJSON, hbody, jsonGetMap, herr, jsonGetInt, hcode]
      | _ => left; simp only [decodeError, DecodeJSON, hbody, jsonGetMap, herr]
    | _ => left; simp only [decodeError, DecodeJSON, hbody, jsonGetMap]

/-- C9: `decodeError` returns the flag `true` exactly when the body parses as
JSON to a map whose `error` entry is a map with an integer `code` (a number
that reads as an `int`) and a string `message`; the error text is then
`code: message`; with the flag `false` the error is `nil`. -/
theorem decodeError_spec (L : Lib) (body : GoString) :
    ((decodeError L body).2 = true ↔
      ∃ (m e : List (GoString × Any)) (n : GoString) (code : Int) (msg : GoString),
        L.jsonDecode body = .ok (.map m) ∧
        mapIndex m "error".toList = .map e ∧
        mapIndex e "code".toList = .number n ∧
        L.parseInt n = .ok code ∧
        mapIndex e "message".toList = .str msg) ∧
    (∀ (m e : List (GoString × Any)) (n : GoString) (code : Int) (msg : GoString),
        L.jsonDecode body = .ok (.map m) →
        mapIndex m "error".toList = .map e →
        mapIndex e "code".toList = .number n →
        L.parseInt n = .ok code →
        mapIndex e "message".toList = .str msg →
        decodeError L body = (some (.text (fmtD code ++ ": ".toList ++ msg)), true)) ∧
    ((decodeError L body).2 = false → decodeError L body = (none, false)) := by
  refine ⟨⟨fun h => ?_, fun h => ?_⟩, fun m e n code msg h₁ h₂ h₃ h₄ h₅ =>
    decodeError_of_envelope L body m e n code msg h₁ h₂ h₃ h₄ h₅, fun h => ?_⟩
  · rcases decodeError_cases L body with h0 | ⟨m, e, n, code, msg, h₁, h₂, h₃, h₄, h₅, _⟩
    · rw [h0] at h
      cases h
    · exact ⟨m, e, n, code, msg, h₁, h₂, h₃, h₄, h₅⟩
  · obtain ⟨m, e, n, code, msg, h₁, h₂, h₃, h₄, h₅⟩ := h
    rw [decodeError_of_envelope L body m e n code msg h₁ h₂ h₃ h₄ h₅]
  · rcases decodeError_cases L body with h0 | ⟨m, e, n, code, msg, _, _, _, _, _, h₆⟩
    · exact h0
    · rw [h₆] at h
      cases h

/-- C9, on the sample bodies: the error envelope is read as `2002: Failed to
create order.`; a body that is not JSON gives `(nil, false)`. -/
theorem decodeError_spec_witness :
    (refLib.jsonDecode errorBody = .ok errorValue ∧
      decodeError refLib errorBody =
        (some (.text "2002: Failed to create order.".toList), true)) ∧
    ((decodeError refLib "<html>".toList).2 = false ∧
      decodeError refLib "<html>".toList = (none, false)) :=
  ⟨⟨rfl, (decodeError_spec refLib errorBody).2.1 _ _ "2002".toList 2002
      "Failed to create order.".toList rfl rfl rfl rfl rfl⟩,
   ⟨rfl, (decodeError_spec refLib "<html>".toList).2.2 rfl⟩⟩

/-- The test `r.StatusCode/100 != 2` of `readResp` (Go division truncates) fails
exactly for the status codes 200..299. -/
theorem statusClass_two_iff (c : Int) : c.tdiv 100 = 2 ↔ 200 ≤ c ∧ c ≤ 299 := by
  by_cases h : 0 ≤ c
  · rw [Int.tdiv_eq_ediv h (by norm_num)]
    omega
  · have h₁ : 0 ≤ (-c).tdiv 100 := Int.tdiv_nonneg (by omega) (by norm_num)
    rw [Int.neg_tdiv] at h₁
    omega

/-- C8: for a status code in 200..299 `readResp` returns the result of
`DecodeJSON` on the body; otherwise it returns an error, whose text is
`status; code: message` when `decodeError` reads the error envelope and
`server returned HTTP response code status` when it does not. -/
theorem readResp_spec (L : Lib) (r : Response) :
    (200 ≤ r.StatusCode ∧ r.StatusCode ≤ 299 → readResp L r = DecodeJSON L r.Body) ∧
    (¬ (200 ≤ r.StatusCode ∧ r.StatusCode ≤ 299) →
      (∃ (code : Int) (msg : GoString),
          decodeError L r.Body = (some (.text (fmtD code ++ ": ".toList ++ msg)), true) ∧
          readResp L r =
            .error (.text (r.Status ++ "; ".toList ++ (fmtD code ++ ": ".toList ++ msg)))) ∨
      (decodeError L r.Body = (none, false) ∧
          readResp L r =
            .error (.text ("server returned HTTP response code ".toList ++ r.Status)))) := by
  constructor
  · intro h
    have h2 : r.StatusCode.tdiv 100 = 2 := (statusClass_two_iff _).mpr h
    simp only [readResp, h2, ne_eq, not_true_eq_false, if_false]
  · intro h
    have h2 : r.StatusCode.tdiv 100 ≠ 2 := fun hc => h ((statusClass_two_iff _).mp hc)
    rcases decodeError_cases L r.Body with h0 | ⟨m, e, n, code, msg, _, _, _, _, _, h₆⟩
    · right
      refine ⟨h0, ?_⟩
      simp only [readResp, h2, ne_eq, not_false_eq_true, if_true, h0]
    · left
      refine ⟨code, msg, h₆, ?_⟩
      simp only [readResp, h2, ne_eq, not_false_eq_true, if_true, h₆, fmtS, errorString]

/-- C8, on the sample responses: `200 OK` gives the decoded body, `400 Bad
Request` with the error envelope gives the composed text, and `502 Bad Gateway`
with a body that is not JSON gives the status line alone. -/
theorem readResp_spec_witness :
    ((200 ≤ tickerResponse.StatusCode ∧ tickerResponse.StatusCode ≤ 299) ∧
      readResp refLib tickerResponse = DecodeJSON refLib tickerResponse.Body ∧
      DecodeJSON refLib tickerResponse.Body = .ok tickerValue) ∧
    (¬ (200 ≤ errorResponse.StatusCode ∧ errorResponse.StatusCode ≤ 299) ∧
      readResp refLib errorResponse =
        .error (.text "400 Bad Request; 2002: Failed to create order.".toList)) ∧
    (¬ (200 ≤ gatewayResponse.StatusCode ∧ gatewayResponse.StatusCode ≤ 299) ∧
      readResp refLib gatewayResponse =
        .error (.text "server returned HTTP response code 502 Bad Gateway".toList)) :=
  ⟨⟨by decide, (readResp_spec refLib tickerResponse).1 (by decide), rfl⟩,
   ⟨by decide, rfl⟩, ⟨by decide, rfl⟩⟩

/-! ### The accessors on values of another kind (C10) -/

/-- C10 as stated fails for `jsonGetFloat`: a string is not a JSON number, and
`jsonGetFloat` returns the number its text denotes. -/
theorem jsonGetFloat_accepts_string :
    (Any.str "1.5".toList).kind ≠ Kind.number ∧
    jsonGetFloat refLib (Any.str "1.5".toList) = .ok (3 / 2) := by
  refine ⟨by decide, ?_⟩
  show refParseFloat "1.5".toList = .ok (3 / 2)
  rw [refParseFloat_literal _ false 15 1 0 (by rfl)]
  norm_num [decimalValue]

/-- C10, amended: every accessor returns an error, and no value, on every value
whose kind is not the kind it expects (the `MissingValue` error on `nil`, the
`TypeMismatch` error otherwise), where `jsonGetFloat` expects a number or a
string. -/
theorem accessor_rejects_other_kinds (L : Lib) (v : Any) :
    (v.kind ≠ Kind.string →
      jsonGetString v = .error (if v.kind = Kind.null then .missingValue "string".toList
        else .typeMismatch "string".toList v)) ∧
    (v.kind ≠ Kind.bool →
      jsonGetBool v = .error (if v.kind = Kind.null then .missingValue "bool".toList
        else .typeMismatch "bool".toList v)) ∧
    (v.kind ≠ Kind.number →
      jsonGetInt L v = .error (if v.kind = Kind.null then .missingValue "int".toList
        else .typeMismatch "int".toList v)) ∧
    (v.kind ≠ Kind.number → v.kind ≠ Kind.string →
      jsonGetFloat L v = .error (if v.kind = Kind.null then .missingValue "float".toList
        else .typeMismatch "float".toList v)) ∧
    (v.kind ≠ Kind.map →
      jsonGetMap v = .error (if v.kind = Kind.null then .missingValue "dict".toList
        else .typeMismatch "dict".toList v)) ∧
    (v.kind ≠ Kind.list →
      jsonGetList v = .error (if v.kind = Kind.null then .missingValue "list".toList
        else .typeMismatch "list".toList v)) := by
  cases v <;>
    simp [Any.kind, jsonGetString, jsonGetBool, jsonGetInt, jsonGetFloat, jsonGetMap,
      jsonGetList]

/-- C10, amended, at sample values: a number handed to `jsonGetString`, `nil`
handed to `jsonGetInt`, and a list handed to `jsonGetFloat`. -/
theorem accessor_rejects_other_kinds_witness :
    ((Any.number "1".toList).kind ≠ Kind.string ∧
      jsonGetString (Any.number "1".toList) =
        .error (.typeMismatch "string".toList (Any.number "1".toList))) ∧
    (Any.null.kind ≠ Kind.number ∧
      jsonGetInt refLib Any.null = .error (.missingValue "int".toList)) ∧
    ((Any.list []).kind ≠ Kind.number ∧ (Any.list []).kind ≠ Kind.string ∧
      jsonGetFloat refLib (Any.list []) =
        .error (.typeMismatch "float".toList (Any.list []))) :=
  ⟨⟨by decide, (accessor_rejects_other_kinds refLib (Any.number "1".toList)).1 (by decide)⟩,
   ⟨by decide, (accessor_rejects_other_kinds refLib Any.null).2.2.1 (by decide)⟩,
   ⟨by decide, by decide,
    (accessor_rejects_other_kinds refLib (Any.list [])).2.2.2.1 (by decide) (by decide)⟩⟩

/-! ### The order of the sorted parameters -/

/-- With pairwise distinct extra keys, none of them `access_key` or `tonce`,
the keys of the slice `privURL` sorts are pairwise distinct. -/
theorem privArgs_keys_nodup (now : Int) (access_key : GoString) (args : Args)
    (hnd : (args.map Arg.Key).Nodup)
    (hak : "access_key".toList ∉ args.map Arg.Key)
    (hto : "tonce".toList ∉ args.map Arg.Key) :
    ((privArgs now access_key args).map Arg.Key).Nodup := by
  have hne : "access_key".toList ≠ "tonce".toList := by decide
  unfold privArgs
  rw [List.map_append, List.nodup_append]
  refine ⟨hnd, ?_, ?_⟩
  · simp only [List.map_cons, List.map_nil, List.nodup_cons, List.mem_singleton,
      List.not_mem_nil, not_false_eq_true, List.nodup_nil, and_true]
    exact hne
  · intro k hk hk'
    simp only [List.map_cons, List.map_nil, List.mem_cons, List.mem_singleton,
      List.not_mem_nil, or_false] at hk'
    rcases hk' with rfl | rfl
    · exact hak hk
    · exact hto hk

/-- On a slice with pairwise distinct keys, the result of `sort.Sort` is
strictly ascending by key. -/
theorem sortSort_strict (L : Lib) (a : Args) (hnd : (a.map Arg.Key).Nodup) :
    List.Pairwise (fun x y : Arg => x.Key < y.Key) (L.sortSort a) := by
  have hn : ((L.sortSort a).map Arg.Key).Nodup :=
    ((L.sortSort_perm a).map Arg.Key).nodup_iff.mpr hnd
  have hn' : List.Pairwise (fun x y : Arg => x.Key ≠ y.Key) (L.sortSort a) :=
    List.pairwise_map.mp hn
  exact ((L.sortSort_sorted a).and hn').imp
    (fun h => lt_of_le_of_ne (not_lt.mp h.1) h.2)

/-- On slices with pairwise distinct keys, the result of `sort.Sort` does not
depend on the order of the input. -/
theorem sortSort_perm_eq (L : Lib) (a b : Args) (hp : List.Perm a b)
    (hnd : (b.map Arg.Key).Nodup) : L.sortSort a = L.sortSort b := by
  have hnda : (a.map Arg.Key).Nodup := (hp.map Arg.Key).nodup_iff.mpr hnd
  haveI : IsAntisymm Arg (fun x y : Arg => x.Key < y.Key) :=
    ⟨fun _ _ h₁ h₂ => absurd h₂ (lt_asymm h₁)⟩
  exact List.eq_of_perm_of_sorted
    (((L.sortSort_perm a).trans hp).trans (L.sortSort_perm b).symm)
    (sortSort_strict L a hnda) (sortSort_strict L b hnd)

/-! ### The injected parameters (C7) -/

/-- With enough fuel, the digit loop of `Nat.toDigits` puts the digits of `n`
in front of the digits collected so far. -/
theorem toDigitsCore_fuel (fuel : Nat) : ∀ (n : Nat) (ds : List Char), n < fuel →
    Nat.toDigitsCore 10 fuel n ds = Nat.toDigitsCore 10 (n + 1) n [] ++ ds := by
  induction fuel using Nat.strong_induction_on with
  | _ fuel ih =>
    intro n ds hn
    cases fuel with
    | zero => omega
    | succ f =>
      rw [Nat.toDigitsCore, Nat.toDigitsCore]
      by_cases h0 : n / 10 = 0
      · simp [h0]
      · simp only [h0, if_false]
        have hlt : n / 10 < n := by omega
        rw [ih f (by omega) (n / 10) _ (by omega)]
        cases n with
        | zero => simp at h0
        | succ k =>
          rw [ih (k + 1) (by omega) ((k + 1) / 10) _ hlt]
          simp

/-- The decimal digits of `n * 10` are those of `n` followed by `0`. -/
theorem toDigits_mul_ten (n : Nat) (hn : 0 < n) :
    Nat.toDigits 10 (n * 10) = Nat.toDigits 10 n ++ ['0'] := by
  unfold Nat.toDigits
  rw [Nat.toDigitsCore]
  have h1 : n * 10 / 10 = n := by omega
  have h2 : n * 10 % 10 = 0 := by omega
  have h3 : n ≠ 0 := by omega
  simp only [h1, h2, h3, if_false]
  rw [toDigitsCore_fuel (n * 10) n _ (by omega)]
  rfl

/-- The decimal digits of `n * 1000` are those of `n` followed by `000`. -/
theorem toDigits_mul_thousand (n : Nat) (hn : 0 < n) :
    Nat.toDigits 10 (n * 1000) = Nat.toDigits 10 n ++ ['0', '0', '0'] := by
  have e : n * 1000 = n * 10 * 10 * 10 := by ring
  rw [e, toDigits_mul_ten _ (by omega), toDigits_mul_ten _ (by omega), toDigits_mul_ten _ hn]
  simp

/-- The rendering `%d` of a natural number. -/
theorem fmtD_ofNat (k : Nat) : fmtD (Int.ofNat k) = Nat.toDigits 10 k := rfl

/-- The rendering `%d` of a negative number. -/
theorem fmtD_negSucc (k : Nat) :
    fmtD (Int.negSucc k) = '-' :: Nat.toDigits 10 (k + 1) := rfl

/-- For `t ≠ 0` the text `%d000` of `t` is the decimal rendering of `t * 1000`. -/
theorem fmtD_mul_thousand (t : Int) (ht : t ≠ 0) :
    fmtD t ++ "000".toList = fmtD (t * 1000) := by
  cases t with
  | ofNat m =>
    have hm : 0 < m := by
      rcases Nat.eq_zero_or_pos m with h | h
      · subst h
        exact absurd rfl ht
      · exact h
    have e : Int.ofNat m * 1000 = Int.ofNat (m * 1000) := by simp
    rw [e, fmtD_ofNat, fmtD_ofNat, toDigits_mul_thousand m hm]
    rfl
  | negSucc m =>
    have e : Int.negSucc m * 1000 = Int.negSucc (m * 1000 + 999) := by
      simp only [Int.negSucc_eq]
      push_cast
      ring
    rw [e, fmtD_negSucc, fmtD_negSucc]
    have e2 : m * 1000 + 999 + 1 = (m + 1) * 1000 := by ring
    rw [e2, toDigits_mul_thousand (m + 1) (by omega)]
    rfl

/-- C7 as stated fails at the clock reading 0: the value of `tonce` is `0000`,
and the decimal rendering of `0 * 1000`, which is `0`, is not among the signed
parameters. -/
theorem tonce_at_clock_zero :
    fmtD (0 * 1000) = "0".toList ∧
    Arg.mk "tonce".toList (fmtD (0 * 1000)) ∉
      refLib.sortSort (privArgs 0 "key".toList []) ∧
    refLib.sortSort (privArgs 0 "key".toList []) =
      [⟨"access_key".toList, "key".toList⟩, ⟨"tonce".toList, "0000".toList⟩] := by
  decide

/-- C7, amended: the parameters `privURL` signs contain `access_key` with the
given access key and `tonce` with the decimal rendering of the clock reading
followed by `000`, which for every clock reading other than 0 is the decimal
rendering of the integer `t * 1000`. -/
theorem privArgs_signed_params (L : Lib) (now : Int) (access_key : GoString) (args : Args) :
    Arg.mk "access_key".toList access_key ∈ L.sortSort (privArgs now access_key args) ∧
    Arg.mk "tonce".toList (fmtD now ++ "000".toList) ∈
      L.sortSort (privArgs now access_key args) ∧
    (now ≠ 0 →
      Arg.mk "tonce".toList (fmtD (now * 1000)) ∈ L.sortSort (privArgs now access_key args)) := by
  have hak : Arg.mk "access_key".toList access_key ∈ L.sortSort (privArgs now access_key args) :=
    (L.sortSort_perm _).mem_iff.mpr (by simp [privArgs])
  have hto : Arg.mk "tonce".toList (fmtD now ++ "000".toList) ∈
      L.sortSort (privArgs now access_key args) :=
    (L.sortSort_perm _).mem_iff.mpr (by simp [privArgs])
  refine ⟨hak, hto, fun hnow => ?_⟩
  rw [← fmtD_mul_thousand now hnow]
  exact hto

/-- C7, amended, at the clock reading 1609459200: `tonce` is `1609459200000`. -/
theorem privArgs_signed_params_witness :
    (1609459200 : Int) ≠ 0 ∧
    fmtD (1609459200 * 1000) = "1609459200000".toList ∧
    Arg.mk "access_key".toList "key".toList ∈
      refLib.sortSort (privArgs 1609459200 "key".toList sampleArgs) ∧
    Arg.mk "tonce".toList (fmtD (1609459200 * 1000)) ∈
      refLib.sortSort (privArgs 1609459200 "key".toList sampleArgs) :=
  ⟨by decide, by decide,
   (privArgs_signed_params refLib 1609459200 "key".toList sampleArgs).1,
   (privArgs_signed_params refLib 1609459200 "key".toList sampleArgs).2.2 (by decide)⟩

/-! ### The query string and the trim -/

/-- Changing only the method changes the signed message. -/
theorem privMessage_method_ne (L : Lib) (now : Int) (method₁ method₂ url access_key : GoString)
    (args : Args) (h : method₁ ≠ method₂) :
    privMessage L now method₁ url access_key args ≠
      privMessage L now method₂ url access_key args := by
  intro he
  unfold privMessage at he
  exact h (List.append_left_inj _ |>.mp (List.append_left_inj _ |>.mp
    (List.append_left_inj _ |>.mp (List.append_left_inj _ |>.mp he))))

/-- Changing only the path changes the signed message. -/
theorem privMessage_url_ne (L : Lib) (now : Int) (method url₁ url₂ access_key : GoString)
    (args : Args) (h : url₁ ≠ url₂) :
    privMessage L now method url₁ access_key args ≠
      privMessage L now method url₂ access_key args := by
  intro he
  unfold privMessage at he
  exact h (List.append_right_inj _ |>.mp (List.append_left_inj _ |>.mp
    (List.append_left_inj _ |>.mp he)))

/-- The loop of `privURL` started from `acc` appends its output to `acc`. -/
theorem foldl_append_pairs (l : Args) (acc : GoString) :
    l.foldl (fun query e => query ++ ("&".toList ++ e.Key ++ "=".toList ++ e.Value)) acc =
      acc ++ privQueryLoop l := by
  unfold privQueryLoop
  induction l generalizing acc with
  | nil => simp
  | cons e l ih =>
    rw [List.foldl_cons, List.foldl_cons, ih (acc ++ _), ih ([] ++ _)]
    simp only [List.nil_append, List.append_assoc]

/-- One round of the loop of `privURL`. -/
theorem privQueryLoop_cons (e : Arg) (l : Args) :
    privQueryLoop (e :: l) = '&' :: (renderPair e ++ privQueryLoop l) := by
  unfold privQueryLoop
  rw [List.foldl_cons, foldl_append_pairs]
  simp [renderPair, privQueryLoop]

/-- The joined pairs of a slice with at least two elements. -/
theorem joinPairs_cons_cons (e e' : Arg) (l : Args) :
    joinPairs (e :: e' :: l) = renderPair e ++ '&' :: joinPairs (e' :: l) := by
  simp [joinPairs, List.intercalate, List.intersperse]

/-- The joined pairs of a slice with one element. -/
theorem joinPairs_singleton (e : Arg) : joinPairs [e] = renderPair e := by
  simp [joinPairs, List.intercalate, List.intersperse]

/-- On a non-empty slice the loop of `privURL` yields `&` followed by the pairs
joined by `&`. -/
theorem privQueryLoop_eq (l : Args) (h : l ≠ []) : privQueryLoop l = '&' :: joinPairs l := by
  induction l with
  | nil => exact absurd rfl h
  | cons e l ih =>
    cases l with
    | nil => simp [privQueryLoop_cons, joinPairs_singleton, privQueryLoop, renderPair]
    | cons e' l =>
      rw [privQueryLoop_cons, ih (by simp), joinPairs_cons_cons]

/-- The cutset of the trim holds the one character `&`. -/
theorem trimCut_iff (c : Char) : ("&".toList.contains c) = true ↔ c = '&' := by
  simp

/-- Trimming `&` off `&J` gives `J` when `J` neither begins nor ends with `&`. -/
theorem stringsTrim_amp (J : GoString) (hhead : J.head? ≠ some '&')
    (hlast : J.getLast? ≠ some '&') : stringsTrim ('&' :: J) "&".toList = J := by
  unfold stringsTrim
  have h1 : List.dropWhile (fun c => "&".toList.contains c) ('&' :: J) = J := by
    rw [List.dropWhile_cons_of_pos (by decide)]
    cases J with
    | nil => rfl
    | cons c cs =>
      rw [List.dropWhile_cons_of_neg]
      intro hc
      exact hhead (by rw [(trimCut_iff c).mp hc]; rfl)
  rw [h1, List.rdropWhile_eq_self_iff]
  intro hne hc
  apply hlast
  rw [List.getLast?_eq_getLast _ hne, (trimCut_iff _).mp hc]


/-- A rendered pair begins with `&` only if its key does. -/
theorem renderPair_head (e : Arg) (h : e.Key.head? ≠ some '&') (X : GoString) :
    (renderPair e ++ X).head? ≠ some '&' := by
  unfold renderPair
  cases hk : e.Key with
  | nil => simp
  | cons c cs =>
    rw [hk] at h
    simpa using h

/-- A list is empty or has a last element. -/
theorem eq_nil_or_snoc {α : Type} (l : List α) : l = [] ∨ ∃ init z, l = init ++ [z] := by
  rcases List.eq_nil_or_concat l with h | ⟨init, z, h⟩
  · exact Or.inl h
  · exact Or.inr ⟨init, z, by rw [h, List.concat_eq_append]⟩

/-- A rendered pair ends with `&` only if its value does. -/
theorem renderPair_getLast (e : Arg) (h : e.Value.getLast? ≠ some '&') (X : GoString) :
    (X ++ renderPair e).getLast? ≠ some '&' := by
  unfold renderPair
  rcases eq_nil_or_snoc e.Value with hv | ⟨v, c, hv⟩
  · rw [hv, List.append_nil, ← List.append_assoc]
    show ((X ++ e.Key) ++ ['=']).getLast? ≠ some '&'
    rw [List.getLast?_concat]
    decide
  · rw [hv] at h ⊢
    rw [List.getLast?_concat] at h
    rw [← List.append_assoc, ← List.append_assoc, List.getLast?_concat]
    exact h

/-- The joined pairs begin with the first pair. -/
theorem joinPairs_cons (e : Arg) (l : Args) :
    ∃ X : GoString, joinPairs (e :: l) = renderPair e ++ X := by
  cases l with
  | nil => exact ⟨[], by rw [joinPairs_singleton, List.append_nil]⟩
  | cons e' l => exact ⟨_, joinPairs_cons_cons e e' l⟩

/-- The joined pairs end with the last pair. -/
theorem joinPairs_concat (l : Args) (z : Arg) :
    ∃ X : GoString, joinPairs (l ++ [z]) = X ++ renderPair z := by
  induction l with
  | nil => exact ⟨[], by simp [joinPairs_singleton]⟩
  | cons e l ih =>
    obtain ⟨X, hX⟩ := ih
    cases l with
    | nil =>
      refine ⟨renderPair e ++ ['&'], ?_⟩
      simp [joinPairs_cons_cons, joinPairs_singleton]
    | cons e' l =>
      refine ⟨renderPair e ++ '&' :: X, ?_⟩
      rw [List.cons_append, List.cons_append, joinPairs_cons_cons, ← List.cons_append, hX]
      simp

/-- Where no key begins with `&` and the last value does not end with `&`,
trimming the output of the loop gives the pairs joined by `&`. -/
theorem stringsTrim_privQueryLoop (l : Args)
    (hkey : ∀ e ∈ l, e.Key.head? ≠ some '&')
    (hval : ∀ e, l.getLast? = some e → e.Value.getLast? ≠ some '&') :
    stringsTrim (privQueryLoop l) "&".toList = joinPairs l := by
  cases l with
  | nil => rfl
  | cons y rest =>
    rw [privQueryLoop_eq _ (by simp)]
    apply stringsTrim_amp
    · obtain ⟨X, hX⟩ := joinPairs_cons y rest
      rw [hX]
      exact renderPair_head y (hkey y (by simp)) X
    · rcases eq_nil_or_snoc (y :: rest) with h | ⟨init, z, h⟩
      · simp at h
      · rw [h] at hval ⊢
        obtain ⟨X, hX⟩ := joinPairs_concat init z
        rw [hX]
        exact renderPair_getLast z (hval z (List.getLast?_concat _)) X

/-- The last of the sorted parameters is not the `access_key` entry: its key is
at least `tonce`. -/
theorem sortSort_last_key (L : Lib) (now : Int) (access_key : GoString) (args : Args) (z : Arg)
    (hz : (L.sortSort (privArgs now access_key args)).getLast? = some z) :
    "tonce".toList ≤ z.Key := by
  have hto : Arg.mk "tonce".toList (fmtD now ++ "000".toList) ∈
      L.sortSort (privArgs now access_key args) :=
    (L.sortSort_perm _).mem_iff.mpr (by simp [privArgs])
  have hs := L.sortSort_sorted (privArgs now access_key args)
  rcases eq_nil_or_snoc (L.sortSort (privArgs now access_key args)) with h | ⟨init, w, h⟩
  · rw [h] at hto
    cases hto
  · rw [h] at hz hto hs
    rw [List.getLast?_concat] at hz
    cases hz
    rw [List.mem_append] at hto
    rcases hto with hin | hin
    · have := (List.pairwise_append.mp hs).2.2 _ hin z (by simp)
      exact not_lt.mp this
    · simp only [List.mem_singleton] at hin
      rw [← hin]

/-- The value of `tonce` ends with `0`. -/
theorem fmtD_tonce_getLast (now : Int) : (fmtD now ++ "000".toList).getLast? ≠ some '&' := by
  have : fmtD now ++ "000".toList = (fmtD now ++ "00".toList) ++ ['0'] := by simp
  rw [this, List.getLast?_concat]
  decide

/-- The query string is the key-sorted parameters joined by `&` whenever no
extra key begins with `&` and no value of an extra key at or after `tonce`, the
only ones that can come last, ends with `&`. -/
theorem privQuery_eq_joinPairs (L : Lib) (now : Int) (access_key : GoString) (args : Args)
    (hkey : ∀ e ∈ args, e.Key.head? ≠ some '&')
    (hval : ∀ e ∈ args, "tonce".toList ≤ e.Key → e.Value.getLast? ≠ some '&') :
    privQuery L now access_key args = joinPairs (L.sortSort (privArgs now access_key args)) := by
  unfold privQuery
  apply stringsTrim_privQueryLoop
  · intro e he
    have he' : e ∈ privArgs now access_key args := (L.sortSort_perm _).mem_iff.mp he
    simp only [privArgs, List.mem_append, List.mem_cons, List.mem_singleton,
      List.not_mem_nil, or_false] at he'
    rcases he' with h | h | h
    · exact hkey e h
    · rw [h]
      show List.head? "access_key".toList ≠ some '&'
      decide
    · rw [h]
      show List.head? "tonce".toList ≠ some '&'
      decide
  · intro z hz
    have hk := sortSort_last_key L now access_key args z hz
    have hz' : z ∈ privArgs now access_key args :=
      (L.sortSort_perm _).mem_iff.mp (List.mem_of_getLast?_eq_some hz)
    simp only [privArgs, List.mem_append, List.mem_cons, List.mem_singleton,
      List.not_mem_nil, or_false] at hz'
    rcases hz' with h | h | h
    · exact hval z h hk
    · rw [h] at hk
      have hlt : "access_key".toList < "tonce".toList := by decide
      exact absurd hk (not_le.mpr hlt)
    · rw [h]
      exact fmtD_tonce_getLast now


/-- The joined pairs of a slice whose tail is not empty. -/
theorem joinPairs_cons_of_ne_nil (e : Arg) (t : Args) (h : t ≠ []) :
    joinPairs (e :: t) = renderPair e ++ '&' :: joinPairs t := by
  cases t with
  | nil => exact absurd rfl h
  | cons e' l => exact joinPairs_cons_cons e e' l

/-- The joined pairs around one value: what stands before and after the value
does not depend on it. -/
theorem joinPairs_middle (pre post : Args) (k : GoString) :
    ∃ P Q : GoString, ∀ v : GoString, joinPairs (pre ++ ⟨k, v⟩ :: post) = P ++ v ++ Q := by
  induction pre with
  | nil =>
    cases post with
    | nil =>
      exact ⟨k ++ "=".toList, [], fun v => by
        rw [List.nil_append, joinPairs_singleton, List.append_nil]
        rfl⟩
    | cons e' l =>
      exact ⟨k ++ "=".toList, '&' :: joinPairs (e' :: l), fun v => by
        rw [List.nil_append, joinPairs_cons_cons]
        rfl⟩
  | cons e pre ih =>
    obtain ⟨P, Q, h⟩ := ih
    refine ⟨renderPair e ++ '&' :: P, Q, fun v => ?_⟩
    rw [List.cons_append, joinPairs_cons_of_ne_nil _ _ (by simp), h v]
    simp

/-- Changing the value of one parameter of a slice with pairwise distinct keys
changes that value, in place, in the sorted slice. -/
theorem sortSort_middle (L : Lib) (pre post : Args) (k v₁ v₂ : GoString)
    (hnd : ((pre ++ ⟨k, v₁⟩ :: post).map Arg.Key).Nodup) :
    ∃ pre' post' : Args,
      L.sortSort (pre ++ ⟨k, v₁⟩ :: post) = pre' ++ ⟨k, v₁⟩ :: post' ∧
      L.sortSort (pre ++ ⟨k, v₂⟩ :: post) = pre' ++ ⟨k, v₂⟩ :: post' := by
  have hmem : Arg.mk k v₁ ∈ L.sortSort (pre ++ ⟨k, v₁⟩ :: post) :=
    (L.sortSort_perm _).mem_iff.mpr (by simp)
  obtain ⟨pre', post', hsplit⟩ := List.append_of_mem hmem
  refine ⟨pre', post', hsplit, ?_⟩
  have hkeys : (pre ++ ⟨k, v₂⟩ :: post).map Arg.Key = (pre ++ ⟨k, v₁⟩ :: post).map Arg.Key := by
    simp
  have hnd₂ : ((pre ++ ⟨k, v₂⟩ :: post).map Arg.Key).Nodup := by rw [hkeys]; exact hnd
  have hp₁ : List.Perm (pre' ++ ⟨k, v₁⟩ :: post') (pre ++ ⟨k, v₁⟩ :: post) := by
    rw [← hsplit]
    exact L.sortSort_perm _
  have hp : List.Perm (pre' ++ post') (pre ++ post) :=
    List.Perm.cons_inv ((List.perm_middle.symm.trans hp₁).trans List.perm_middle)
  have hp₂ : List.Perm (pre' ++ ⟨k, v₂⟩ :: post') (pre ++ ⟨k, v₂⟩ :: post) :=
    (List.perm_middle.trans (hp.cons _)).trans List.perm_middle.symm
  have hs₁ := sortSort_strict L _ hnd
  rw [hsplit] at hs₁
  have hs₂ : List.Pairwise (fun x y : Arg => x.Key < y.Key) (pre' ++ ⟨k, v₂⟩ :: post') := by
    have h₁ := List.pairwise_map.mpr hs₁
    have hk : (pre' ++ ⟨k, v₂⟩ :: post').map Arg.Key = (pre' ++ ⟨k, v₁⟩ :: post').map Arg.Key := by
      simp
    rw [← hk] at h₁
    exact List.pairwise_map.mp h₁
  haveI : IsAntisymm Arg (fun x y : Arg => x.Key < y.Key) :=
    ⟨fun _ _ h₁ h₂ => absurd h₂ (lt_asymm h₁)⟩
  exact List.eq_of_perm_of_sorted ((L.sortSort_perm _).trans hp₂.symm)
    (sortSort_strict L _ hnd₂) hs₂

/-- Joined pairs of two sorted slices that differ in one value differ. -/
theorem joinPairs_sortSort_ne (L : Lib) (pre post : Args) (k v₁ v₂ : GoString)
    (hnd : ((pre ++ ⟨k, v₁⟩ :: post).map Arg.Key).Nodup) (hv : v₁ ≠ v₂) :
    joinPairs (L.sortSort (pre ++ ⟨k, v₁⟩ :: post)) ≠
      joinPairs (L.sortSort (pre ++ ⟨k, v₂⟩ :: post)) := by
  obtain ⟨pre', post', h₁, h₂⟩ := sortSort_middle L pre post k v₁ v₂ hnd
  obtain ⟨P, Q, hPQ⟩ := joinPairs_middle pre' post' k
  rw [h₁, h₂, hPQ v₁, hPQ v₂]
  intro he
  exact hv (List.append_right_inj _ |>.mp (List.append_left_inj _ |>.mp he))

/-- Different query strings give different signed messages, for one method
and path. -/
theorem privMessage_query_ne (L : Lib) (now₁ now₂ : Int) (method url ak₁ ak₂ : GoString)
    (args₁ args₂ : Args)
    (h : privQuery L now₁ ak₁ args₁ ≠ privQuery L now₂ ak₂ args₂) :
    privMessage L now₁ method url ak₁ args₁ ≠ privMessage L now₂ method url ak₂ args₂ := by
  intro he
  unfold privMessage at he
  exact h (List.append_right_inj _ |>.mp he)

/-- Where no extra key begins with `&` and no value of an extra key at or after
`tonce` ends with `&`, changing only the access key changes the signed message. -/
theorem privMessage_access_key_ne (L : Lib) (now : Int) (method url ak₁ ak₂ : GoString)
    (args : Args) (hnd : (args.map Arg.Key).Nodup)
    (hak : "access_key".toList ∉ args.map Arg.Key)
    (hto : "tonce".toList ∉ args.map Arg.Key)
    (hkey : ∀ e ∈ args, e.Key.head? ≠ some '&')
    (hval : ∀ e ∈ args, "tonce".toList ≤ e.Key → e.Value.getLast? ≠ some '&')
    (h : ak₁ ≠ ak₂) :
    privMessage L now method url ak₁ args ≠ privMessage L now method url ak₂ args := by
  apply privMessage_query_ne
  rw [privQuery_eq_joinPairs L now ak₁ args hkey hval,
    privQuery_eq_joinPairs L now ak₂ args hkey hval]
  exact joinPairs_sortSort_ne L args _ _ ak₁ ak₂
    (privArgs_keys_nodup now ak₁ args hnd hak hto) h

/-- Where no extra key begins with `&` and no value of an extra key at or after
`tonce` ends with `&`, changing the value of one extra parameter changes the
signed message. -/
theorem privMessage_value_ne (L : Lib) (now : Int) (method url access_key : GoString)
    (pre post : Args) (k v₁ v₂ : GoString)
    (hnd : ((pre ++ ⟨k, v₁⟩ :: post).map Arg.Key).Nodup)
    (hak : "access_key".toList ∉ (pre ++ ⟨k, v₁⟩ :: post).map Arg.Key)
    (hto : "tonce".toList ∉ (pre ++ ⟨k, v₁⟩ :: post).map Arg.Key)
    (hkey : ∀ e ∈ pre ++ ⟨k, v₁⟩ :: post, e.Key.head? ≠ some '&')
    (hval₁ : ∀ e ∈ pre ++ ⟨k, v₁⟩ :: post,
      "tonce".toList ≤ e.Key → e.Value.getLast? ≠ some '&')
    (hval₂ : ∀ e ∈ pre ++ ⟨k, v₂⟩ :: post,
      "tonce".toList ≤ e.Key → e.Value.getLast? ≠ some '&')
    (h : v₁ ≠ v₂) :
    privMessage L now method url access_key (pre ++ ⟨k, v₁⟩ :: post) ≠
      privMessage L now method url access_key (pre ++ ⟨k, v₂⟩ :: post) := by
  apply privMessage_query_ne
  have hkey₂ : ∀ e ∈ pre ++ ⟨k, v₂⟩ :: post, e.Key.head? ≠ some '&' := by
    intro e he
    simp only [List.mem_append, List.mem_cons] at he
    rcases he with he | he | he
    · exact hkey e (by simp [he])
    · rw [he]
      exact hkey ⟨k, v₁⟩ (by simp)
    · exact hkey e (by simp [he])
  rw [privQuery_eq_joinPairs L now access_key _ hkey hval₁,
    privQuery_eq_joinPairs L now access_key _ hkey₂ hval₂]
  have e₁ : ∀ v, privArgs now access_key (pre ++ ⟨k, v⟩ :: post) =
      pre ++ ⟨k, v⟩ :: (post ++ [⟨"access_key".toList, access_key⟩,
        ⟨"tonce".toList, fmtD now ++ "000".toList⟩]) := by
    intro v
    simp [privArgs]
  rw [e₁ v₁, e₁ v₂]
  refine joinPairs_sortSort_ne L pre _ k v₁ v₂ ?_ h
  rw [← e₁ v₁]
  exact privArgs_keys_nodup now access_key _ hnd hak hto

/-- The hypotheses on the first key and the last value cannot be dropped from
`privQuery_eq_joinPairs`: with the extra parameter `zz=1&`, the last in key
order, the trim removes the last character of the value; with the extra
parameter `&a=1`, the first in key order, it removes the first character of the
key.  No caller of `privURL` in `api.go` passes such parameters. -/
theorem privQuery_trims_parameters :
    (refLib.sortSort (privArgs 1609459200 "key".toList [⟨"zz".toList, "1&".toList⟩]) =
        [⟨"access_key".toList, "key".toList⟩, ⟨"tonce".toList, "1609459200000".toList⟩,
          ⟨"zz".toList, "1&".toList⟩] ∧
      joinPairs (refLib.sortSort
          (privArgs 1609459200 "key".toList [⟨"zz".toList, "1&".toList⟩])) =
        "access_key=key&tonce=1609459200000&zz=1&".toList ∧
      privQuery refLib 1609459200 "key".toList [⟨"zz".toList, "1&".toList⟩] =
        "access_key=key&tonce=1609459200000&zz=1".toList) ∧
    (refLib.sortSort (privArgs 1609459200 "key".toList [⟨"&a".toList, "1".toList⟩]) =
        [⟨"&a".toList, "1".toList⟩, ⟨"access_key".toList, "key".toList⟩,
          ⟨"tonce".toList, "1609459200000".toList⟩] ∧
      joinPairs (refLib.sortSort
          (privArgs 1609459200 "key".toList [⟨"&a".toList, "1".toList⟩])) =
        "&a=1&access_key=key&tonce=1609459200000".toList ∧
      privQuery refLib 1609459200 "key".toList [⟨"&a".toList, "1".toList⟩] =
        "a=1&access_key=key&tonce=1609459200000".toList) := by
  decide

/-- The joined pairs do not begin with `&` when no key does. -/
theorem joinPairs_head (l : Args) (hkey : ∀ e ∈ l, e.Key.head? ≠ some '&') :
    (joinPairs l).head? ≠ some '&' := by
  cases l with
  | nil =>
    show (joinPairs []).head? ≠ some '&'
    decide
  | cons y rest =>
    obtain ⟨X, hX⟩ := joinPairs_cons y rest
    rw [hX]
    exact renderPair_head y (hkey y (List.mem_cons_self _ _)) X

/-- No key of the slice `privURL` sorts begins with `&` when no extra key
does. -/
theorem sortSort_keys_head (L : Lib) (now : Int) (access_key : GoString) (args : Args)
    (hkey : ∀ e ∈ args, e.Key.head? ≠ some '&') :
    ∀ e ∈ L.sortSort (privArgs now access_key args), e.Key.head? ≠ some '&' := by
  intro e he
  have he' : e ∈ privArgs now access_key args := (L.sortSort_perm _).mem_iff.mp he
  simp only [privArgs, List.mem_append, List.mem_cons, List.mem_singleton,
    List.not_mem_nil, or_false] at he'
  rcases he' with h | h | h
  · exact hkey e h
  · rw [h]
    show List.head? "access_key".toList ≠ some '&'
    decide
  · rw [h]
    show List.head? "tonce".toList ≠ some '&'
    decide

/-- Where no extra key begins with `&` and no value of an extra key at or after
`tonce` ends with `&`, `privURL` returns the signed URL of the specification on
the sorted parameters. -/
theorem privURL_joinPairs (L : Lib) (now : Int) (method url access_key secret_key : GoString)
    (args : Args) (hkey : ∀ e ∈ args, e.Key.head? ≠ some '&')
    (hval : ∀ e ∈ args, "tonce".toList ≤ e.Key → e.Value.getLast? ≠ some '&') :
    privURL L now method url access_key secret_key args =
      specURL L method url secret_key (L.sortSort (privArgs now access_key args)) := by
  rw [privURL_format, privQuery_eq_joinPairs L now access_key args hkey hval]
  rfl

/-- At each of the five calls of `privURL` in `api.go` the URL is the signed
URL of the specification on the sorted parameters: the keys passed are `market`,
`price`, `side`, `volume` and `id`, and the only value that can come last in key
order, after `tonce`, is the `%f` rendering of the volume, which does not end
with `&`. -/
theorem api_calls_canonical (L : Lib) (fmtF : Float64 → GoString)
    (hfmt : ∀ x, (fmtF x).getLast? ≠ some '&') (now : Int)
    (access_key secret_key market side : GoString) (volume price : Float64) (id : Int) :
    GetUserInfoURL L now access_key secret_key =
      specURL L "GET".toList "/api/v2/members/me".toList secret_key
        (L.sortSort (privArgs now access_key [])) ∧
    GetUserOrdersURL L now access_key secret_key market =
      specURL L "GET".toList "/api/v2/orders".toList secret_key
        (L.sortSort (privArgs now access_key [⟨"market".toList, market⟩])) ∧
    GetUserTradesURL L now access_key secret_key market =
      specURL L "GET".toList "/api/v2/trades/my".toList secret_key
        (L.sortSort (privArgs now access_key [⟨"market".toList, market⟩])) ∧
    NewOrderURL L fmtF now access_key secret_key market side volume price =
      specURL L "POST".toList "/api/v2/orders".toList secret_key
        (L.sortSort (privArgs now access_key
          [⟨"market".toList, market⟩, ⟨"price".toList, fmtF price⟩, ⟨"side".toList, side⟩,
            ⟨"volume".toList, fmtF volume⟩])) ∧
    CancelOrderURL L now access_key secret_key id =
      specURL L "POST".toList "/api/v2/order/delete".toList secret_key
        (L.sortSort (privArgs now access_key [⟨"id".toList, fmtD id⟩])) := by
  have hm : ¬ "tonce".toList ≤ "market".toList := by decide
  have hp : ¬ "tonce".toList ≤ "price".toList := by decide
  have hs : ¬ "tonce".toList ≤ "side".toList := by decide
  have hi : ¬ "tonce".toList ≤ "id".toList := by decide
  refine ⟨?_, ?_, ?_, ?_, ?_⟩
  · exact privURL_joinPairs L now _ _ _ _ [] (fun e he => absurd he (List.not_mem_nil e))
      (fun e he => absurd he (List.not_mem_nil e))
  · refine privURL_joinPairs L now _ _ _ _ _ ?_ ?_
    · intro e he
      rw [List.mem_singleton] at he
      rw [he]
      show List.head? "market".toList ≠ some '&'
      decide
    · intro e he hle
      rw [List.mem_singleton] at he
      rw [he] at hle
      exact absurd hle hm
  · refine privURL_joinPairs L now _ _ _ _ _ ?_ ?_
    · intro e he
      rw [List.mem_singleton] at he
      rw [he]
      show List.head? "market".toList ≠ some '&'
      decide
    · intro e he hle
      rw [List.mem_singleton] at he
      rw [he] at hle
      exact absurd hle hm
  · refine privURL_joinPairs L now _ _ _ _ _ ?_ ?_
    · intro e he
      simp only [List.mem_cons, List.mem_singleton, List.not_mem_nil, or_false] at he
      rcases he with h | h | h | h <;> rw [h]
      · show List.head? "market".toList ≠ some '&'
        decide
      · show List.head? "price".toList ≠ some '&'
        decide
      · show List.head? "side".toList ≠ some '&'
        decide
      · show List.head? "volume".toList ≠ some '&'
        decide
    · intro e he hle
      simp only [List.mem_cons, List.mem_singleton, List.not_mem_nil, or_false] at he
      rcases he with h | h | h | h <;> rw [h] at hle ⊢
      · exact absurd hle hm
      · exact absurd hle hp
      · exact absurd hle hs
      · exact hfmt volume
  · refine privURL_joinPairs L now _ _ _ _ _ ?_ ?_
    · intro e he
      rw [List.mem_singleton] at he
      rw [he]
      show List.head? "id".toList ≠ some '&'
      decide
    · intro e he hle
      rw [List.mem_singleton] at he
      rw [he] at hle
      exact absurd hle hi

/-- With the stand-ins of `plainLib` the signature is an injective function of
the signed message. -/
theorem plainLib_injective (secret_key : GoString) :
    Function.Injective
      (fun msg => plainLib.hexEncodeToString (plainLib.hmacSHA256 secret_key msg)) := by
  intro m₁ m₂ h
  have hid : ∀ l : GoString, (l.map Char.toNat).map Char.ofNat = l := by
    intro l
    induction l with
    | nil => rfl
    | cons c cs ih =>
      simp only [List.map_cons, Char.ofNat_toNat, ih]
  have h' : ((secret_key ++ m₁).map Char.toNat).map Char.ofNat =
      ((secret_key ++ m₂).map Char.toNat).map Char.ofNat := h
  rw [hid, hid] at h'
  exact List.append_cancel_left h'

/-! ### The canonical query string and the signed URL (C2, C3, C4, C5)

The callers of `privURL` in `api.go` pass no key that begins with `&`, and the
value that comes last in key order is that of `tonce` or the `%f` rendering of
the volume (`api_calls_canonical`); the theorems below are stated for extra
parameters of that kind. -/

/-- C2: for extra parameters with pairwise distinct keys, none of them
`access_key` or `tonce` (no key beginning with `&`, no value of a key at or after
`tonce` ending with `&`), the URL that `privURL` returns is the signed URL over
the canonical query string of the sorted parameters, which are a rearrangement
of the extras with `access_key` and `tonce` and whose keys are strictly
ascending; and `privURL` returns the same URL for every rearrangement of the
extra parameters. -/
theorem privURL_canonical_order (L : Lib) (now : Int)
    (method url access_key secret_key : GoString) (args : Args)
    (hnd : (args.map Arg.Key).Nodup)
    (hak : "access_key".toList ∉ args.map Arg.Key)
    (hto : "tonce".toList ∉ args.map Arg.Key)
    (hkey : ∀ e ∈ args, e.Key.head? ≠ some '&')
    (hval : ∀ e ∈ args, "tonce".toList ≤ e.Key → e.Value.getLast? ≠ some '&') :
    privURL L now method url access_key secret_key args =
      specURL L method url secret_key (L.sortSort (privArgs now access_key args)) ∧
    List.Perm (L.sortSort (privArgs now access_key args)) (privArgs now access_key args) ∧
    List.Sorted (fun k₁ k₂ : GoString => k₁ < k₂)
      ((L.sortSort (privArgs now access_key args)).map Arg.Key) ∧
    ∀ args' : Args, List.Perm args' args →
      privURL L now method url access_key secret_key args' =
        privURL L now method url access_key secret_key args := by
  have hkeys := privArgs_keys_nodup now access_key args hnd hak hto
  refine ⟨privURL_joinPairs L now method url access_key secret_key args hkey hval,
    L.sortSort_perm _, List.pairwise_map.mpr (sortSort_strict L _ hkeys), fun args' hp => ?_⟩
  have hp' : List.Perm (privArgs now access_key args') (privArgs now access_key args) :=
    hp.append_right _
  have hs := sortSort_perm_eq L _ _ hp' hkeys
  simp only [privURL_format, privQuery, hs]

/-- C2, at the specification's example `{volume:1, market:x, price:2}`: the
query string in the URL reads `access_key`, `market`, `price`, `tonce`, `volume`
in that order, and the URL is that of the parameters given in another order. -/
theorem privURL_canonical_order_witness :
    ((sampleArgs.map Arg.Key).Nodup ∧
      "access_key".toList ∉ sampleArgs.map Arg.Key ∧
      "tonce".toList ∉ sampleArgs.map Arg.Key ∧
      (∀ e ∈ sampleArgs, e.Key.head? ≠ some '&') ∧
      (∀ e ∈ sampleArgs, "tonce".toList ≤ e.Key → e.Value.getLast? ≠ some '&')) ∧
    joinPairs (refLib.sortSort (privArgs 1609459200 "key".toList sampleArgs)) =
      "access_key=key&market=x&price=2&tonce=1609459200000&volume=1".toList ∧
    privURL refLib 1609459200 "POST".toList "/api/v2/orders".toList "key".toList
        "secret".toList sampleArgs =
      specURL refLib "POST".toList "/api/v2/orders".toList "secret".toList
        (refLib.sortSort (privArgs 1609459200 "key".toList sampleArgs)) ∧
    privURL refLib 1609459200 "POST".toList "/api/v2/orders".toList "key".toList
        "secret".toList
        [⟨"price".toList, "2".toList⟩, ⟨"volume".toList, "1".toList⟩,
          ⟨"market".toList, "x".toList⟩] =
      privURL refLib 1609459200 "POST".toList "/api/v2/orders".toList "key".toList
        "secret".toList sampleArgs :=
  ⟨⟨by decide, by decide, by decide, by decide, by decide⟩, by decide,
   (privURL_canonical_order refLib 1609459200 "POST".toList "/api/v2/orders".toList
      "key".toList "secret".toList sampleArgs (by decide) (by decide) (by decide)
      (by decide) (by decide)).1,
   (privURL_canonical_order refLib 1609459200 "POST".toList "/api/v2/orders".toList
      "key".toList "secret".toList sampleArgs (by decide) (by decide) (by decide)
      (by decide) (by decide)).2.2.2 _ (by decide)⟩

/-- C3: `privURL` returns `gBaseURL ++ path ++ "?" ++ Q ++ "&signature=" ++
hex(HMAC-SHA256(secretKey, method ++ "|" ++ path ++ "|" ++ Q))`, where `Q`, the
same in the URL and in the signed message, is the canonical query string: the
pairs `key=value` of the extras with `access_key` and `tonce`, sorted by key and
joined by `&` (extras with no key beginning with `&` and no value of a key at or
after `tonce` ending with `&`). -/
theorem privURL_canonical_format (L : Lib) (now : Int)
    (method url access_key secret_key : GoString) (args : Args)
    (hkey : ∀ e ∈ args, e.Key.head? ≠ some '&')
    (hval : ∀ e ∈ args, "tonce".toList ≤ e.Key → e.Value.getLast? ≠ some '&') :
    privURL L now method url access_key secret_key args =
      gBaseURL ++ url ++ "?".toList
        ++ joinPairs (L.sortSort (privArgs now access_key args))
        ++ "&signature=".toList
        ++ L.hexEncodeToString (L.hmacSHA256 secret_key
            (method ++ "|".toList ++ url ++ "|".toList
              ++ joinPairs (L.sortSort (privArgs now access_key args)))) ∧
    List.Perm (L.sortSort (privArgs now access_key args))
      (args ++ [⟨"access_key".toList, access_key⟩,
        ⟨"tonce".toList, fmtD now ++ "000".toList⟩]) ∧
    List.Pairwise (fun x y : Arg => ¬ y.Key < x.Key)
      (L.sortSort (privArgs now access_key args)) :=
  ⟨privURL_joinPairs L now method url access_key secret_key args hkey hval,
   L.sortSort_perm _, L.sortSort_sorted _⟩

/-- C3, at the specification's example: the URL of the order parameters
`{volume:1, market:x, price:2}` signed at clock reading 1609459200. -/
theorem privURL_canonical_format_witness :
    ((∀ e ∈ sampleArgs, e.Key.head? ≠ some '&') ∧
      (∀ e ∈ sampleArgs, "tonce".toList ≤ e.Key → e.Value.getLast? ≠ some '&')) ∧
    privURL refLib 1609459200 "POST".toList "/api/v2/orders".toList "key".toList
        "secret".toList sampleArgs =
      "https://kuna.io/api/v2/orders?".toList
        ++ "access_key=key&market=x&price=2&tonce=1609459200000&volume=1".toList
        ++ "&signature=".toList
        ++ refHex (refDigest "secret".toList
            ("POST|/api/v2/orders|".toList
              ++ "access_key=key&market=x&price=2&tonce=1609459200000&volume=1".toList)) := by
  have hq : joinPairs (refLib.sortSort (privArgs 1609459200 "key".toList sampleArgs)) =
      "access_key=key&market=x&price=2&tonce=1609459200000&volume=1".toList := by decide
  have h := (privURL_canonical_format refLib 1609459200 "POST".toList "/api/v2/orders".toList
    "key".toList "secret".toList sampleArgs (by decide) (by decide)).1
  rw [hq] at h
  exact ⟨⟨by decide, by decide⟩, h⟩

/-- C4: the query string built by `privURL`, the one that stands in the URL
and in the signed message, is the key-sorted parameters (a rearrangement of the
extras with `access_key` and `tonce`, no later key below an earlier one), each
rendered as `key=value` and joined by a single `&` between consecutive pairs; it
does not begin with `&` (extras with no key beginning with `&` and no value of a
key at or after `tonce` ending with `&`). -/
theorem privQuery_canonical (L : Lib) (now : Int)
    (method url access_key secret_key : GoString) (args : Args)
    (hkey : ∀ e ∈ args, e.Key.head? ≠ some '&')
    (hval : ∀ e ∈ args, "tonce".toList ≤ e.Key → e.Value.getLast? ≠ some '&') :
    privQuery L now access_key args =
      "&".toList.intercalate
        ((L.sortSort (privArgs now access_key args)).map
          (fun e => e.Key ++ "=".toList ++ e.Value)) ∧
    List.Perm (L.sortSort (privArgs now access_key args))
      (args ++ [⟨"access_key".toList, access_key⟩,
        ⟨"tonce".toList, fmtD now ++ "000".toList⟩]) ∧
    List.Pairwise (fun x y : Arg => ¬ y.Key < x.Key)
      (L.sortSort (privArgs now access_key args)) ∧
    (privQuery L now access_key args).head? ≠ some '&' ∧
    privURL L now method url access_key secret_key args =
      gBaseURL ++ url ++ "?".toList ++ privQuery L now access_key args
        ++ "&signature=".toList
        ++ L.hexEncodeToString (L.hmacSHA256 secret_key
            (method ++ "|".toList ++ url ++ "|".toList ++ privQuery L now access_key args)) := by
  have hq := privQuery_eq_joinPairs L now access_key args hkey hval
  refine ⟨hq, L.sortSort_perm _, L.sortSort_sorted _, ?_,
    privURL_format L now method url access_key secret_key args⟩
  rw [hq]
  exact joinPairs_head _ (sortSort_keys_head L now access_key args hkey)

/-- C4, at the specification's example `{volume:1, market:x, price:2}`. -/
theorem privQuery_canonical_witness :
    ((∀ e ∈ sampleArgs, e.Key.head? ≠ some '&') ∧
      (∀ e ∈ sampleArgs, "tonce".toList ≤ e.Key → e.Value.getLast? ≠ some '&')) ∧
    privQuery refLib 1609459200 "key".toList sampleArgs =
      "access_key=key&market=x&price=2&tonce=1609459200000&volume=1".toList := by
  have hq : "&".toList.intercalate
      ((refLib.sortSort (privArgs 1609459200 "key".toList sampleArgs)).map
        (fun e => e.Key ++ "=".toList ++ e.Value)) =
      "access_key=key&market=x&price=2&tonce=1609459200000&volume=1".toList := by decide
  have h := (privQuery_canonical refLib 1609459200 "POST".toList "/api/v2/orders".toList
    "key".toList "secret".toList sampleArgs (by decide) (by decide)).1
  rw [hq] at h
  exact ⟨⟨by decide, by decide⟩, h⟩

/-- C5: for fixed method, path, access key, secret key and clock reading, and
extra parameters with pairwise distinct keys, none of them `access_key` or
`tonce` (no key beginning with `&`, no value of a key at or after `tonce` ending
with `&`): changing the value of exactly one extra parameter, or only the
method, or only the path, or only the access key, changes the message
`METHOD|PATH|QUERY` that `privURL` signs, and with it the signature, the digest
and its rendering taken together as an injective function of the message.  The
signature in the URL is the digest of that message. -/
theorem privMessage_changes (L : Lib) (now : Int)
    (method url access_key secret_key : GoString) (pre post : Args) (k v₁ v₂ : GoString)
    (hnd : ((pre ++ ⟨k, v₁⟩ :: post).map Arg.Key).Nodup)
    (hak : "access_key".toList ∉ (pre ++ ⟨k, v₁⟩ :: post).map Arg.Key)
    (hto : "tonce".toList ∉ (pre ++ ⟨k, v₁⟩ :: post).map Arg.Key)
    (hkey : ∀ e ∈ pre ++ ⟨k, v₁⟩ :: post, e.Key.head? ≠ some '&')
    (hval₁ : ∀ e ∈ pre ++ ⟨k, v₁⟩ :: post,
      "tonce".toList ≤ e.Key → e.Value.getLast? ≠ some '&')
    (hval₂ : ∀ e ∈ pre ++ ⟨k, v₂⟩ :: post,
      "tonce".toList ≤ e.Key → e.Value.getLast? ≠ some '&')
    (hinj : Function.Injective
      (fun msg => L.hexEncodeToString (L.hmacSHA256 secret_key msg))) :
    privURL L now method url access_key secret_key (pre ++ ⟨k, v₁⟩ :: post) =
      gBaseURL ++ url ++ "?".toList ++ privQuery L now access_key (pre ++ ⟨k, v₁⟩ :: post)
        ++ "&signature=".toList
        ++ privSignature L now method url access_key secret_key (pre ++ ⟨k, v₁⟩ :: post) ∧
    (v₁ ≠ v₂ →
      privMessage L now method url access_key (pre ++ ⟨k, v₁⟩ :: post) ≠
        privMessage L now method url access_key (pre ++ ⟨k, v₂⟩ :: post) ∧
      privSignature L now method url access_key secret_key (pre ++ ⟨k, v₁⟩ :: post) ≠
        privSignature L now method url access_key secret_key (pre ++ ⟨k, v₂⟩ :: post)) ∧
    (∀ method₂ : GoString, method ≠ method₂ →
      privMessage L now method url access_key (pre ++ ⟨k, v₁⟩ :: post) ≠
        privMessage L now method₂ url access_key (pre ++ ⟨k, v₁⟩ :: post) ∧
      privSignature L now method url access_key secret_key (pre ++ ⟨k, v₁⟩ :: post) ≠
        privSignature L now method₂ url access_key secret_key (pre ++ ⟨k, v₁⟩ :: post)) ∧
    (∀ url₂ : GoString, url ≠ url₂ →
      privMessage L now method url access_key (pre ++ ⟨k, v₁⟩ :: post) ≠
        privMessage L now method url₂ access_key (pre ++ ⟨k, v₁⟩ :: post) ∧
      privSignature L now method url access_key secret_key (pre ++ ⟨k, v₁⟩ :: post) ≠
        privSignature L now method url₂ access_key secret_key (pre ++ ⟨k, v₁⟩ :: post)) ∧
    (∀ access_key₂ : GoString, access_key ≠ access_key₂ →
      privMessage L now method url access_key (pre ++ ⟨k, v₁⟩ :: post) ≠
        privMessage L now method url access_key₂ (pre ++ ⟨k, v₁⟩ :: post) ∧
      privSignature L now method url access_key secret_key (pre ++ ⟨k, v₁⟩ :: post) ≠
        privSignature L now method url access_key₂ secret_key (pre ++ ⟨k, v₁⟩ :: post)) := by
  have hsig : ∀ m₁ m₂ : GoString, m₁ ≠ m₂ →
      L.hexEncodeToString (L.hmacSHA256 secret_key m₁) ≠
        L.hexEncodeToString (L.hmacSHA256 secret_key m₂) :=
    fun m₁ m₂ hne he => hne (hinj he)
  refine ⟨privURL_signs_privMessage L now method url access_key secret_key _, ?_, ?_, ?_, ?_⟩
  · intro hv
    have hm := privMessage_value_ne L now method url access_key pre post k v₁ v₂
      hnd hak hto hkey hval₁ hval₂ hv
    exact ⟨hm, hsig _ _ hm⟩
  · intro method₂ hne
    have hm := privMessage_method_ne L now method method₂ url access_key
      (pre ++ ⟨k, v₁⟩ :: post) hne
    exact ⟨hm, hsig _ _ hm⟩
  · intro url₂ hne
    have hm := privMessage_url_ne L now method url url₂ access_key
      (pre ++ ⟨k, v₁⟩ :: post) hne
    exact ⟨hm, hsig _ _ hm⟩
  · intro access_key₂ hne
    have hm := privMessage_access_key_ne L now method url access_key access_key₂
      (pre ++ ⟨k, v₁⟩ :: post) hnd hak hto hkey hval₁ hne
    exact ⟨hm, hsig _ _ hm⟩

/-- C5, at the order parameters `{volume:1, market:x, price:2}`: changing the
market to `y`, or the method to `GET`, changes the signed message and the
signature. -/
theorem privMessage_changes_witness :
    (([Arg.mk "volume".toList "1".toList] ++ ⟨"market".toList, "x".toList⟩ ::
        [⟨"price".toList, "2".toList⟩]) = sampleArgs ∧
      (sampleArgs.map Arg.Key).Nodup ∧
      "access_key".toList ∉ sampleArgs.map Arg.Key ∧
      "tonce".toList ∉ sampleArgs.map Arg.Key ∧
      (∀ e ∈ sampleArgs, e.Key.head? ≠ some '&') ∧
      (∀ e ∈ sampleArgs, "tonce".toList ≤ e.Key → e.Value.getLast? ≠ some '&') ∧
      Function.Injective
        (fun msg => plainLib.hexEncodeToString (plainLib.hmacSHA256 "secret".toList msg))) ∧
    (privMessage plainLib 1609459200 "POST".toList "/api/v2/orders".toList "key".toList
        sampleArgs ≠
      privMessage plainLib 1609459200 "POST".toList "/api/v2/orders".toList "key".toList
        ([⟨"volume".toList, "1".toList⟩] ++ ⟨"market".toList, "y".toList⟩ ::
          [⟨"price".toList, "2".toList⟩]) ∧
     privSignature plainLib 1609459200 "POST".toList "/api/v2/orders".toList "key".toList
        "secret".toList sampleArgs ≠
      privSignature plainLib 1609459200 "POST".toList "/api/v2/orders".toList "key".toList
        "secret".toList
        ([⟨"volume".toList, "1".toList⟩] ++ ⟨"market".toList, "y".toList⟩ ::
          [⟨"price".toList, "2".toList⟩])) ∧
    (privMessage plainLib 1609459200 "POST".toList "/api/v2/orders".toList "key".toList
        sampleArgs ≠
      privMessage plainLib 1609459200 "GET".toList "/api/v2/orders".toList "key".toList
        sampleArgs ∧
     privSignature plainLib 1609459200 "POST".toList "/api/v2/orders".toList "key".toList
        "secret".toList sampleArgs ≠
      privSignature plainLib 1609459200 "GET".toList "/api/v2/orders".toList "key".toList
        "secret".toList sampleArgs) :=
  ⟨⟨rfl, by decide, by decide, by decide, by decide, by decide,
      plainLib_injective "secret".toList⟩,
   (privMessage_changes plainLib 1609459200 "POST".toList "/api/v2/orders".toList
      "key".toList "secret".toList [⟨"volume".toList, "1".toList⟩]
      [⟨"price".toList, "2".toList⟩] "market".toList "x".toList "y".toList
      (by decide) (by decide) (by decide) (by decide) (by decide) (by decide)
      (plainLib_injective "secret".toList)).2.1 (by decide),
   (privMessage_changes plainLib 1609459200 "POST".toList "/api/v2/orders".toList
      "key".toList "secret".toList [⟨"volume".toList, "1".toList⟩]
      [⟨"price".toList, "2".toList⟩] "market".toList "x".toList "y".toList
      (by decide) (by decide) (by decide) (by decide) (by decide) (by decide)
      (plainLib_injective "secret".toList)).2.2.1 "GET".toList (by decide)⟩

/-! ### The outcomes of the accessors (C11, C12) -/

/-- C11 as stated fails for `jsonGetInt`: on the JSON number `1.5` it returns the
error of `strconv.ParseInt`, which is neither the `MissingValue` nor the
`TypeMismatch` error. -/
theorem jsonGetInt_number_parse_error :
    (Any.number "1.5".toList).kind = Kind.number ∧
    jsonGetInt refLib (Any.number "1.5".toList) =
      .error (.lib "strconv.ParseInt: parsing \"1.5\": invalid syntax".toList) :=
  ⟨rfl, rfl⟩

/-- C11, amended: `jsonGetString` and `jsonGetBool` yield a typed result, the
`MissingValue` error (exactly on `nil`) or the `TypeMismatch` error with the
expected kind and the value found; `jsonGetInt` and `jsonGetFloat` yield the
`MissingValue` error on `nil`, the `TypeMismatch` error on a value of another
kind, and on a number (for `jsonGetFloat` also on a string) what the number
parser returns for its text, a typed result or the parser's error. -/
theorem accessor_outcomes (L : Lib) (v : Any) :
    ((v = Any.null ∧ jsonGetString v = .error (.missingValue "string".toList)) ∨
      (∃ s, v = Any.str s ∧ jsonGetString v = .ok s) ∨
      (v.kind ≠ Kind.null ∧ v.kind ≠ Kind.string ∧
        jsonGetString v = .error (.typeMismatch "string".toList v))) ∧
    ((v = Any.null ∧ jsonGetBool v = .error (.missingValue "bool".toList)) ∨
      (∃ b, v = Any.bool b ∧ jsonGetBool v = .ok b) ∨
      (v.kind ≠ Kind.null ∧ v.kind ≠ Kind.bool ∧
        jsonGetBool v = .error (.typeMismatch "bool".toList v))) ∧
    ((v = Any.null ∧ jsonGetInt L v = .error (.missingValue "int".toList)) ∨
      (∃ n, v = Any.number n ∧ jsonGetInt L v = L.parseInt n) ∨
      (v.kind ≠ Kind.null ∧ v.kind ≠ Kind.number ∧
        jsonGetInt L v = .error (.typeMismatch "int".toList v))) ∧
    ((v = Any.null ∧ jsonGetFloat L v = .error (.missingValue "float".toList)) ∨
      (∃ n, (v = Any.number n ∨ v = Any.str n) ∧ jsonGetFloat L v = L.parseFloat n) ∨
      (v.kind ≠ Kind.null ∧ v.kind ≠ Kind.number ∧ v.kind ≠ Kind.string ∧
        jsonGetFloat L v = .error (.typeMismatch "float".toList v))) ∧
    ((∀ k, jsonGetString v = .error (.missingValue k) → v = Any.null) ∧
      (∀ k, jsonGetBool v = .error (.missingValue k) → v = Any.null)) := by
  cases v with
  | number n =>
    refine ⟨?_, ?_, ?_, ?_, ?_⟩
    · simp [Any.kind, jsonGetString]
    · simp [Any.kind, jsonGetBool]
    · right
      left
      refine ⟨n, rfl, ?_⟩
      cases h : L.parseInt n <;> simp only [jsonGetInt, h]
    · right
      left
      exact ⟨n, Or.inl rfl, rfl⟩
    · simp [jsonGetString, jsonGetBool]
  | str s =>
    refine ⟨?_, ?_, ?_, ?_, ?_⟩
    · simp [Any.kind, jsonGetString]
    · simp [Any.kind, jsonGetBool]
    · simp [Any.kind, jsonGetInt]
    · right
      left
      exact ⟨s, Or.inr rfl, rfl⟩
    · simp [jsonGetString, jsonGetBool]
  | _ => simp [Any.kind, jsonGetString, jsonGetBool, jsonGetInt, jsonGetFloat]

/-- C12: `jsonGetFloatDef` returns the default on `nil`, and on every other
value what `jsonGetFloat` returns, whatever the default. -/
theorem jsonGetFloatDef_spec (L : Lib) (d : Float64) :
    jsonGetFloatDef L Any.null d = .ok d ∧
    ∀ v : Any, v ≠ Any.null → jsonGetFloatDef L v d = jsonGetFloat L v := by
  refine ⟨rfl, fun v hv => ?_⟩
  cases v with
  | null => exact absurd rfl hv
  | _ => rfl

/-- C12, at sample values: the default 7 on `nil`; the string `12.5`, a boolean
and an unreadable string give what `jsonGetFloat` gives. -/
theorem jsonGetFloatDef_spec_witness :
    jsonGetFloatDef refLib Any.null 7 = .ok 7 ∧
    (Any.str "12.5".toList ≠ Any.null ∧
      jsonGetFloatDef refLib (Any.str "12.5".toList) 7 =
        jsonGetFloat refLib (Any.str "12.5".toList)) ∧
    (Any.bool true ≠ Any.null ∧
      jsonGetFloatDef refLib (Any.bool true) 7 =
        .error (.typeMismatch "float".toList (Any.bool true))) ∧
    (Any.str "abc".toList ≠ Any.null ∧
      jsonGetFloatDef refLib (Any.str "abc".toList) 7 =
        jsonGetFloat refLib (Any.str "abc".toList)) :=
  ⟨(jsonGetFloatDef_spec refLib 7).1,
   ⟨by simp, (jsonGetFloatDef_spec refLib 7).2 _ (by simp)⟩,
   ⟨by simp, (jsonGetFloatDef_spec refLib 7).2 _ (by simp)⟩,
   ⟨by simp, (jsonGetFloatDef_spec refLib 7).2 _ (by simp)⟩⟩

/-! ### Timestamps in text (C16) -/

/-- The loop over the layouts returns the result of the first layout that
parses the text. -/
theorem parseTimeLoop_first (L : Lib) (s : GoString) (pre : List GoString) (f : GoString)
    (post : List GoString) (t : Time)
    (hpre : ∀ g ∈ pre, ∃ e, L.timeParse g s = .error e)
    (hf : L.timeParse f s = .ok t) :
    parseTimeLoop L s (pre ++ f :: post) = .ok t := by
  induction pre with
  | nil => simp only [List.nil_append, parseTimeLoop, hf]
  | cons g pre ih =>
    obtain ⟨e, he⟩ := hpre g (by simp)
    simp only [List.cons_append, parseTimeLoop, he]
    exact ih (fun g' hg' => hpre g' (by simp [hg']))

/-- The loop over the layouts fails, with the error naming the text, exactly
when no layout parses the text. -/
theorem parseTimeLoop_error_iff (L : Lib) (s : GoString) (fs : List GoString) :
    parseTimeLoop L s fs = .error (.text ("can't parse time: ".toList ++ s)) ↔
      ∀ f ∈ fs, ∃ e, L.timeParse f s = .error e := by
  induction fs with
  | nil => simp [parseTimeLoop]
  | cons f fs ih =>
    cases hf : L.timeParse f s with
    | ok t => simp [parseTimeLoop, hf]
    | error e =>
      simp only [parseTimeLoop, hf]
      rw [ih]
      constructor
      · intro h g hg
        rcases List.mem_cons.mp hg with rfl | hg
        · exact ⟨e, hf⟩
        · exact h g hg
      · intro h g hg
        exact h g (List.mem_cons_of_mem _ hg)

/-- C16: the layouts are tried in the order `...Z`, `...-0700`, `...-07:00`; on
a string `jsonGetTimeFromText` returns the result of the first layout that
parses it, and fails with the error `can't parse time: s` exactly when none
parses it; on a value that is not a string it fails with the `MissingValue` or
`TypeMismatch` error, whatever `time.Parse` would do. -/
theorem jsonGetTimeFromText_spec (L : Lib) :
    supportedTimeFormats =
      ["2006-01-02T15:04:05Z".toList, "2006-01-02T15:04:05-0700".toList,
        "2006-01-02T15:04:05-07:00".toList] ∧
    (∀ (s : GoString) (pre : List GoString) (f : GoString) (post : List GoString) (t : Time),
      supportedTimeFormats = pre ++ f :: post →
      (∀ g ∈ pre, ∃ e, L.timeParse g s = .error e) →
      L.timeParse f s = .ok t →
      jsonGetTimeFromText L (Any.str s) = .ok t) ∧
    (∀ s : GoString,
      jsonGetTimeFromText L (Any.str s) = .error (.text ("can't parse time: ".toList ++ s)) ↔
        ∀ f ∈ supportedTimeFormats, ∃ e, L.timeParse f s = .error e) ∧
    (∀ v : Any, v.kind ≠ Kind.string →
      jsonGetTimeFromText L v =
        .error (if v.kind = Kind.null then .missingValue "int".toList
          else .typeMismatch "time".toList v)) := by
  refine ⟨rfl, fun s pre f post t hsplit hpre hf => ?_, fun s => ?_, fun v hv => ?_⟩
  · show parseTimeLoop L s supportedTimeFormats = .ok t
    rw [hsplit]
    exact parseTimeLoop_first L s pre f post t hpre hf
  · exact parseTimeLoop_error_iff L s supportedTimeFormats
  · cases v <;> simp [Any.kind, jsonGetTimeFromText] at hv ⊢

/-- C16, at sample values: a text with zone `-0700` is not parsed by the first
layout and is parsed by the second; `not-a-date` is parsed by none; a number is
rejected as a value of another type. -/
theorem jsonGetTimeFromText_spec_witness :
    (supportedTimeFormats =
        ["2006-01-02T15:04:05Z".toList] ++ "2006-01-02T15:04:05-0700".toList ::
          ["2006-01-02T15:04:05-07:00".toList] ∧
      (∀ g ∈ ["2006-01-02T15:04:05Z".toList],
        ∃ e, refLib.timeParse g "2021-01-01T00:00:00-0500".toList = .error e) ∧
      refLib.timeParse "2006-01-02T15:04:05-0700".toList "2021-01-01T00:00:00-0500".toList =
        .ok ⟨1609477200⟩ ∧
      jsonGetTimeFromText refLib (Any.str "2021-01-01T00:00:00-0500".toList) =
        .ok ⟨1609477200⟩) ∧
    ((∀ f ∈ supportedTimeFormats, ∃ e, refLib.timeParse f "not-a-date".toList = .error e) ∧
      jsonGetTimeFromText refLib (Any.str "not-a-date".toList) =
        .error (.text "can't parse time: not-a-date".toList)) ∧
    ((Any.number "1609459200".toList).kind ≠ Kind.string ∧
      jsonGetTimeFromText refLib (Any.number "1609459200".toList) =
        .error (.typeMismatch "time".toList (Any.number "1609459200".toList))) := by
  have h₁ : ∀ g ∈ ["2006-01-02T15:04:05Z".toList],
      ∃ e, refLib.timeParse g "2021-01-01T00:00:00-0500".toList = .error e := by
    intro g hg
    rw [List.mem_singleton] at hg
    subst hg
    exact ⟨_, rfl⟩
  have h₂ : ∀ f ∈ supportedTimeFormats,
      ∃ e, refLib.timeParse f "not-a-date".toList = .error e := by
    intro f hf
    simp only [supportedTimeFormats, List.mem_cons, List.mem_singleton, List.not_mem_nil,
      or_false] at hf
    rcases hf with rfl | rfl | rfl <;> exact ⟨_, rfl⟩
  exact ⟨⟨rfl, h₁, rfl,
      (jsonGetTimeFromText_spec refLib).2.1 _ ["2006-01-02T15:04:05Z".toList]
        "2006-01-02T15:04:05-0700".toList ["2006-01-02T15:04:05-07:00".toList] _ rfl h₁ rfl⟩,
    ⟨h₂, ((jsonGetTimeFromText_spec refLib).2.2.1 _).mpr h₂⟩,
    ⟨by decide, (jsonGetTimeFromText_spec refLib).2.2.2 _ (by decide)⟩⟩


/-! ### Steps of the order book walk -/

/-- A round of the loop that does not clip prints the level as it is and goes
on with the totals increased by it. -/
theorem walkLoop_cons_noclip (gUAH : Bool) (limit : Float64) (e : Order) (rest : Orders)
    (sv sf : Float64)
    (h : ¬ (0 < limit ∧ ((gUAH = false ∧ limit ≤ sv + e.RemainingVolume) ∨
      (gUAH = true ∧ limit ≤ sf + e.RemainingVolume * e.Price)))) :
    walkLoop gUAH limit (e :: rest) sv sf =
      { Price := e.Price, Volume := e.RemainingVolume, Funds := e.RemainingVolume * e.Price,
        AvgPrice := (sf + e.RemainingVolume * e.Price) / (sv + e.RemainingVolume),
        SumVolume := sv + e.RemainingVolume, SumFunds := sf + e.RemainingVolume * e.Price }
      :: walkLoop gUAH limit rest (sv + e.RemainingVolume) (sf + e.RemainingVolume * e.Price) := by
  cases gUAH
  · have h' : ¬ (0 < limit ∧ limit ≤ sv + e.RemainingVolume) := fun hc => h ⟨hc.1, Or.inl ⟨rfl, hc.2⟩⟩
    simp [walkLoop, h']
  · have h' : ¬ (0 < limit ∧ limit ≤ sf + e.RemainingVolume * e.Price) :=
      fun hc => h ⟨hc.1, Or.inr ⟨rfl, hc.2⟩⟩
    simp [walkLoop, h']

/-- A round of the loop that clips by funds prints the level with the volume
`(limit - sumFunds) / price` and ends the walk. -/
theorem walkLoop_cons_clipFunds (limit : Float64) (e : Order) (rest : Orders)
    (sv sf : Float64) (h0 : 0 < limit) (h : limit ≤ sf + e.RemainingVolume * e.Price) :
    walkLoop true limit (e :: rest) sv sf =
      [{ Price := e.Price, Volume := (limit - sf) / e.Price,
         Funds := (limit - sf) / e.Price * e.Price,
         AvgPrice := (sf + (limit - sf) / e.Price * e.Price) / (sv + (limit - sf) / e.Price),
         SumVolume := sv + (limit - sf) / e.Price,
         SumFunds := sf + (limit - sf) / e.Price * e.Price }] := by
  simp [walkLoop, h0, h]


/-- The sum of the funds of a level and further levels. -/
theorem sumLevelFunds_cons (e : Order) (l : Orders) :
    sumLevelFunds (e :: l) = e.RemainingVolume * e.Price + sumLevelFunds l := by
  simp [sumLevelFunds]

/-- Without a positive ceiling the loop prints every level unclipped, from any
state. -/
theorem walkLoop_unclipped (gUAH : Bool) (limit : Float64) (hlimit : limit ≤ 0) :
    ∀ (levels : Orders) (sv sf : Float64),
      (walkLoop gUAH limit levels sv sf).length = levels.length ∧
      (walkLoop gUAH limit levels sv sf).map Row.Volume =
        levels.map (fun e => e.RemainingVolume) ∧
      (walkLoop gUAH limit levels sv sf).map Row.Price = levels.map (fun e => e.Price) := by
  intro levels
  induction levels with
  | nil => intro sv sf; simp [walkLoop]
  | cons e rest ih =>
    intro sv sf
    rw [walkLoop_cons_noclip gUAH limit e rest sv sf (fun h => absurd h.1 (not_lt.mpr hlimit))]
    obtain ⟨h₁, h₂, h₃⟩ := ih (sv + e.RemainingVolume) (sf + e.RemainingVolume * e.Price)
    simp [h₁, h₂, h₃]

/-- A written digit is read back. -/
theorem digitVal_digitChar (d : Nat) (h : d < 10) : digitVal (Nat.digitChar d) = some d := by
  interval_cases d <;> rfl

/-- A field written with two digits is read back. -/
theorem getnum2_pad2 (n : Nat) (hn : n < 100) (rest : GoString) :
    getnum2 (pad2 n ++ rest) = some (n, rest) := by
  have h₁ := digitVal_digitChar (n / 10) (by omega)
  have h₂ := digitVal_digitChar (n % 10) (by omega)
  simp only [pad2, List.cons_append, List.nil_append, getnum2, h₁, h₂]
  congr 2
  omega

/-- An hour written with two digits is read back. -/
theorem getnum12_pad2 (n : Nat) (hn : n < 100) (rest : GoString) :
    getnum12 (pad2 n ++ rest) = some (n, rest) := by
  have h₁ := digitVal_digitChar (n / 10) (by omega)
  have h₂ := digitVal_digitChar (n % 10) (by omega)
  simp only [pad2, List.cons_append, List.nil_append, getnum12, h₁, h₂]
  congr 2
  omega

/-- A year written with four digits is read back. -/
theorem getnum4_pad4 (n : Nat) (hn : n < 10000) (rest : GoString) :
    getnum4 (pad4 n ++ rest) = some (n, rest) := by
  have h₁ := digitVal_digitChar (n / 1000) (by omega)
  have h₂ := digitVal_digitChar (n / 100 % 10) (by omega)
  have h₃ := digitVal_digitChar (n / 10 % 10) (by omega)
  have h₄ := digitVal_digitChar (n % 10) (by omega)
  simp only [pad4, List.cons_append, List.nil_append, getnum4, h₁, h₂, h₃, h₄]
  congr 2
  omega

/-- A written date and time of day is read back, whatever follows it. -/
theorem readDateTime_write (c : Civil) (hc : c.valid) (rest : GoString) :
    readDateTime (writeDateTime c ++ rest) = some (c, skipFraction rest) := by
  obtain ⟨hy, hm1, hm2, hd1, hd2, hh, hmi, hs⟩ := hc
  have hd3 : c.day < 100 := by
    have : daysIn c.month c.year ≤ 31 := by
      unfold daysIn
      split_ifs <;> omega
    omega
  simp only [readDateTime, writeDateTime, List.append_assoc, List.cons_append,
    getnum4_pad4 c.year (by omega), getnum2_pad2 c.month (by omega), getnum2_pad2 c.day hd3,
    getnum12_pad2 c.hour (by omega), getnum2_pad2 c.min (by omega),
    getnum2_pad2 c.sec (by omega), expectChar, bind, Option.bind, if_true]
  have e1 : ¬ (c.month = 0 ∨ 12 < c.month) := by omega
  have e2 : ¬ (24 ≤ c.hour) := by omega
  have e3 : ¬ (60 ≤ c.min) := by omega
  have e4 : ¬ (60 ≤ c.sec) := by omega
  simp [e1, e2, e3, e4]


/-- The offset of a written zone. -/
theorem zoneOffset_pad2 (east : Bool) (hh mm : Nat) (hhh : hh < 24) (hmm : mm < 60) :
    zoneOffset (if east then '+' else '-') (Nat.digitChar (hh / 10)) (Nat.digitChar (hh % 10))
      (Nat.digitChar (mm / 10)) (Nat.digitChar (mm % 10)) = some (zoneSeconds east hh mm) := by
  have h₁ := digitVal_digitChar (hh / 10) (by omega)
  have h₂ := digitVal_digitChar (hh % 10) (by omega)
  have h₃ := digitVal_digitChar (mm / 10) (by omega)
  have h₄ := digitVal_digitChar (mm % 10) (by omega)
  have e₁ : 10 * (hh / 10) + hh % 10 = hh := by omega
  have e₂ : 10 * (mm / 10) + mm % 10 = mm := by omega
  have e₃ : ¬ (24 < hh ∨ 60 < mm) := by omega
  simp only [zoneOffset, h₁, h₂, h₃, h₄, e₁, e₂, e₃, if_false, zoneSeconds]
  cases east <;> simp

/-- A zone written `±hhmm` is read by the layout element `-0700`. -/
theorem readZone_numeric (east : Bool) (hh mm : Nat) (hhh : hh < 24) (hmm : mm < 60) :
    readZone .numeric (writeZone false east hh mm) = some (zoneSeconds east hh mm) := by
  simp only [writeZone, pad2, List.cons_append, List.nil_append, List.append_nil, readZone,
    Bool.false_eq_true, if_false]
  exact zoneOffset_pad2 east hh mm hhh hmm

/-- A zone written `±hh:mm` is read by the layout element `-07:00`. -/
theorem readZone_colon (east : Bool) (hh mm : Nat) (hhh : hh < 24) (hmm : mm < 60) :
    readZone .colon (writeZone true east hh mm) = some (zoneSeconds east hh mm) := by
  simp only [writeZone, pad2, List.cons_append, List.nil_append, List.append_nil, readZone,
    if_true]
  exact zoneOffset_pad2 east hh mm hhh hmm

/-- A written zone does not start a fractional second. -/
theorem skipFraction_writeZone (colon east : Bool) (hh mm : Nat) :
    skipFraction (writeZone colon east hh mm) = writeZone colon east hh mm := by
  cases east <;> cases colon <;> simp [writeZone, pad2, skipFraction]

/-- The reference `time.Parse` on a written date and time of day followed by
`rest`: the outcome is that of reading `rest` as the zone of the layout. -/
theorem refTimeParse_write (z : ZoneForm) (layout : GoString) (c : Civil) (hc : c.valid)
    (rest : GoString) (hlayout : layoutZone layout = some z)
    (hrest : skipFraction rest = rest) :
    refTimeParse layout (writeDateTime c ++ rest) =
      match readZone z rest with
      | none => .error (timeParseError layout (writeDateTime c ++ rest))
      | some off => .ok ⟨c.unix - off⟩ := by
  have hday : ¬ (c.day < 1 ∨ daysIn c.month c.year < c.day) := by
    obtain ⟨_, _, _, hd1, hd2, _⟩ := hc
    omega
  simp only [refTimeParse, hlayout, readDateTime_write c hc rest, hrest]
  cases readZone z rest with
  | none => rfl
  | some off => simp only [hday, if_false]

/-- A written date and time followed by `Z` is read as UTC. -/
theorem timeFromText_utc (c : Civil) (hc : c.valid) :
    jsonGetTimeFromText refLib (Any.str (writeDateTime c ++ "Z".toList)) = .ok ⟨c.unix⟩ := by
  have h := refTimeParse_write .utc "2006-01-02T15:04:05Z".toList c hc "Z".toList rfl rfl
  have hz : readZone .utc "Z".toList = some 0 := rfl
  rw [hz] at h
  simp only [sub_zero] at h
  have h' : refLib.timeParse "2006-01-02T15:04:05Z".toList (writeDateTime c ++ "Z".toList) =
      .ok ⟨c.unix⟩ := h
  simp only [jsonGetTimeFromText, supportedTimeFormats, parseTimeLoop, h']

/-- A written date and time followed by `±hhmm` is read minus the offset. -/
theorem timeFromText_numeric (c : Civil) (hc : c.valid) (east : Bool) (hh mm : Nat)
    (hhh : hh < 24) (hmm : mm < 60) :
    jsonGetTimeFromText refLib (Any.str (writeDateTime c ++ writeZone false east hh mm)) =
      .ok ⟨c.unix - zoneSeconds east hh mm⟩ := by
  have hskip := skipFraction_writeZone false east hh mm
  have h₁ := refTimeParse_write .utc "2006-01-02T15:04:05Z".toList c hc _ rfl hskip
  have hz₁ : readZone .utc (writeZone false east hh mm) = none := by
    simp [writeZone, pad2, readZone]
  rw [hz₁] at h₁
  have h₂ := refTimeParse_write .numeric "2006-01-02T15:04:05-0700".toList c hc _ rfl hskip
  rw [readZone_numeric east hh mm hhh hmm] at h₂
  have h₁' : refLib.timeParse "2006-01-02T15:04:05Z".toList
      (writeDateTime c ++ writeZone false east hh mm) = .error _ := h₁
  have h₂' : refLib.timeParse "2006-01-02T15:04:05-0700".toList
      (writeDateTime c ++ writeZone false east hh mm) = .ok _ := h₂
  simp only [jsonGetTimeFromText, supportedTimeFormats, parseTimeLoop, h₁', h₂']

/-- A written date and time followed by `±hh:mm` is read minus the offset. -/
theorem timeFromText_colon (c : Civil) (hc : c.valid) (east : Bool) (hh mm : Nat)
    (hhh : hh < 24) (hmm : mm < 60) :
    jsonGetTimeFromText refLib (Any.str (writeDateTime c ++ writeZone true east hh mm)) =
      .ok ⟨c.unix - zoneSeconds east hh mm⟩ := by
  have hskip := skipFraction_writeZone true east hh mm
  have h₁ := refTimeParse_write .utc "2006-01-02T15:04:05Z".toList c hc _ rfl hskip
  have hz₁ : readZone .utc (writeZone true east hh mm) = none := by
    simp [writeZone, pad2, readZone]
  rw [hz₁] at h₁
  have h₂ := refTimeParse_write .numeric "2006-01-02T15:04:05-0700".toList c hc _ rfl hskip
  have hz₂ : readZone .numeric (writeZone true east hh mm) = none := by
    simp [writeZone, pad2, readZone]
  rw [hz₂] at h₂
  have h₃ := refTimeParse_write .colon "2006-01-02T15:04:05-07:00".toList c hc _ rfl hskip
  rw [readZone_colon east hh mm hhh hmm] at h₃
  have h₁' : refLib.timeParse "2006-01-02T15:04:05Z".toList
      (writeDateTime c ++ writeZone true east hh mm) = .error _ := h₁
  have h₂' : refLib.timeParse "2006-01-02T15:04:05-0700".toList
      (writeDateTime c ++ writeZone true east hh mm) = .error _ := h₂
  have h₃' : refLib.timeParse "2006-01-02T15:04:05-07:00".toList
      (writeDateTime c ++ writeZone true east hh mm) = .ok _ := h₃
  simp only [jsonGetTimeFromText, supportedTimeFormats, parseTimeLoop, h₁', h₂', h₃']


/-- The walk under a ceiling in funds, from a state whose cumulative funds are
below the ceiling. -/
theorem walkLoop_funds (c : Float64) (hc : 0 < c) :
    ∀ (levels : Orders) (sv sf : Float64), (∀ e ∈ levels, 0 < e.Price) → sf < c →
      c ≤ sf + sumLevelFunds levels →
      ∃ k, k < levels.length ∧
        (∀ j, j ≤ k → sf + sumLevelFunds (levels.take j) < c) ∧
        c ≤ sf + sumLevelFunds (levels.take (k + 1)) ∧
        (walkLoop true c levels sv sf).length = k + 1 ∧
        ((walkLoop true c levels sv sf).take k).map Row.Volume =
          (levels.take k).map (fun e => e.RemainingVolume) ∧
        ((walkLoop true c levels sv sf)[k]?).map Row.Volume =
          (levels[k]?).map (fun e => (c - (sf + sumLevelFunds (levels.take k))) / e.Price) ∧
        ((walkLoop true c levels sv sf)[k]?).map Row.SumFunds = some c := by
  intro levels
  induction levels with
  | nil =>
    intro sv sf _ hsf hle
    simp [sumLevelFunds] at hle
    exact absurd hle (not_le.mpr hsf)
  | cons e rest ih =>
    intro sv sf hpos hsf hle
    have hprice : e.Price ≠ 0 := ne_of_gt (hpos e (by simp))
    by_cases hclip : c ≤ sf + e.RemainingVolume * e.Price
    · refine ⟨0, by simp, ?_, ?_, ?_, ?_, ?_, ?_⟩
      · intro j hj
        have : j = 0 := by omega
        subst this
        simpa [sumLevelFunds] using hsf
      · simpa [sumLevelFunds] using hclip
      · rw [walkLoop_cons_clipFunds c e rest sv sf hc hclip]; rfl
      · simp
      · rw [walkLoop_cons_clipFunds c e rest sv sf hc hclip]
        simp [sumLevelFunds]
      · rw [walkLoop_cons_clipFunds c e rest sv sf hc hclip]
        simp only [List.getElem?_cons_zero, Option.map_some', Option.some.injEq]
        rw [div_mul_cancel₀ _ hprice]
        ring
    · have hlt : sf + e.RemainingVolume * e.Price < c := not_le.mp hclip
      rw [sumLevelFunds_cons, ← add_assoc] at hle
      obtain ⟨k, hk, hleast, hreach, hlen, hpre, hvol, hsum⟩ :=
        ih (sv + e.RemainingVolume) (sf + e.RemainingVolume * e.Price)
          (fun e' he' => hpos e' (List.mem_cons_of_mem _ he')) hlt hle
      have hstep := walkLoop_cons_noclip true c e rest sv sf
        (fun h => by
          rcases h.2 with h' | h'
          · cases h'.1
          · exact hclip h'.2)
      refine ⟨k + 1, by simpa using hk, ?_, ?_, ?_, ?_, ?_, ?_⟩
      · intro j hj
        cases j with
        | zero => simpa [sumLevelFunds] using hsf
        | succ j =>
          have := hleast j (by omega)
          rw [List.take_succ_cons, sumLevelFunds_cons, ← add_assoc]
          exact this
      · rw [List.take_succ_cons, sumLevelFunds_cons, ← add_assoc]
        exact hreach
      · rw [hstep, List.length_cons, hlen]
      · rw [hstep, List.take_succ_cons, List.take_succ_cons, List.map_cons, List.map_cons, hpre]
      · rw [hstep, List.getElem?_cons_succ, List.getElem?_cons_succ, hvol, List.take_succ_cons,
          sumLevelFunds_cons, ← add_assoc]
      · rw [hstep, List.getElem?_cons_succ, hsum]

/-- The lines of `sell 7` on the sample order book. -/
theorem sample_rows_volume :
    sellRows false 7 sampleBook =
      [{ Price := 10, Volume := 5, Funds := 50, AvgPrice := 10, SumVolume := 5, SumFunds := 50 },
       { Price := 11, Volume := 2, Funds := 22, AvgPrice := 72 / 7, SumVolume := 7,
         SumFunds := 72 }] := by
  simp [sellRows, sampleBook, walkLoop, level, Order.zero]
  norm_num

/-- The lines of `--uah sell 60` on the sample order book. -/
theorem sample_rows_funds :
    sellRows true 60 sampleBook =
      [{ Price := 10, Volume := 5, Funds := 50, AvgPrice := 10, SumVolume := 5, SumFunds := 50 },
       { Price := 11, Volume := 10 / 11, Funds := 10, AvgPrice := 132 / 13, SumVolume := 65 / 11,
         SumFunds := 60 }] := by
  simp [sellRows, sampleBook, walkLoop, level, Order.zero]
  norm_num


/-! ### `decodeLatestStats` and `amount` (C14) -/

/-- With every required field readable, `decodeLatestStats` returns the record
of the field values. -/
theorem decodeLatestStats_of_fields (L : Lib) (m tk : List (GoString × Any)) (t : Time)
    (buy sell low high last vol amount : Float64)
    (hat : jsonGetTime L (mapIndex m "at".toList) = .ok t)
    (htk : mapIndex m "ticker".toList = Any.map tk)
    (hbuy : jsonGetFloat L (mapIndex tk "buy".toList) = .ok buy)
    (hsell : jsonGetFloat L (mapIndex tk "sell".toList) = .ok sell)
    (hlow : jsonGetFloat L (mapIndex tk "low".toList) = .ok low)
    (hhigh : jsonGetFloat L (mapIndex tk "high".toList) = .ok high)
    (hlast : jsonGetFloat L (mapIndex tk "last".toList) = .ok last)
    (hvol : jsonGetFloat L (mapIndex tk "vol".toList) = .ok vol)
    (hamount : jsonGetFloatDef L (mapIndex tk "amount".toList) 0 = .ok amount) :
    decodeLatestStats L (Any.map m) =
      .ok { Time := t, Buy := buy, Sell := sell, Low := low, High := high, Last := last,
            Vol := vol, Amount := amount } := by
  simp only [decodeLatestStats, bind, Except.bind, jsonGetMap, hat, htk, hbuy, hsell, hlow,
    hhigh, hlast, hvol, hamount, pure, Except.pure]

/-- Without `at`, `decodeLatestStats` fails. -/
theorem decodeLatestStats_missing_at (L : Lib) (m : List (GoString × Any))
    (hat : mapIndex m "at".toList = Any.null) :
    decodeLatestStats L (Any.map m) = .error (.missingValue "int".toList) := by
  simp only [decodeLatestStats, bind, Except.bind, jsonGetMap, hat, jsonGetTime]

/-- Without `ticker`, `decodeLatestStats` fails. -/
theorem decodeLatestStats_missing_ticker (L : Lib) (m : List (GoString × Any))
    (htk : mapIndex m "ticker".toList = Any.null) :
    ∃ e, decodeLatestStats L (Any.map m) = .error e := by
  cases hat : jsonGetTime L (mapIndex m "at".toList) with
  | error e => exact ⟨e, by simp only [decodeLatestStats, bind, Except.bind, jsonGetMap, hat]⟩
  | ok t =>
    exact ⟨.missingValue "dict".toList,
      by simp only [decodeLatestStats, bind, Except.bind, jsonGetMap, hat, htk]⟩

/-- Without one of `buy`, `sell`, `low`, `high`, `last`, `vol`,
`decodeLatestStats` fails. -/
theorem decodeLatestStats_missing_field (L : Lib) (m tk : List (GoString × Any)) (k : GoString)
    (htk : mapIndex m "ticker".toList = Any.map tk)
    (hk : k ∈ ["buy".toList, "sell".toList, "low".toList, "high".toList, "last".toList,
      "vol".toList])
    (hnull : mapIndex tk k = Any.null) :
    ∃ e, decodeLatestStats L (Any.map m) = .error e := by
  have hf : ∀ k', mapIndex tk k' = Any.null →
      jsonGetFloat L (mapIndex tk k') = .error (.missingValue "float".toList) := by
    intro k' h
    rw [h]
    rfl
  simp only [decodeLatestStats, bind, Except.bind, jsonGetMap, htk]
  cases jsonGetTime L (mapIndex m "at".toList) with
  | error e => exact ⟨e, rfl⟩
  | ok t =>
    simp only [List.mem_cons, List.mem_singleton, List.not_mem_nil, or_false] at hk
    cases hbuy : jsonGetFloat L (mapIndex tk "buy".toList) with
    | error e => exact ⟨e, rfl⟩
    | ok buy =>
    cases hsell : jsonGetFloat L (mapIndex tk "sell".toList) with
    | error e => exact ⟨e, rfl⟩
    | ok sell =>
    cases hlow : jsonGetFloat L (mapIndex tk "low".toList) with
    | error e => exact ⟨e, rfl⟩
    | ok low =>
    cases hhigh : jsonGetFloat L (mapIndex tk "high".toList) with
    | error e => exact ⟨e, rfl⟩
    | ok high =>
    cases hlast : jsonGetFloat L (mapIndex tk "last".toList) with
    | error e => exact ⟨e, rfl⟩
    | ok last =>
    cases hvol : jsonGetFloat L (mapIndex tk "vol".toList) with
    | error e => exact ⟨e, rfl⟩
    | ok vol =>
      exfalso
      rcases hk with rfl | rfl | rfl | rfl | rfl | rfl
      · rw [hf _ hnull] at hbuy; cases hbuy
      · rw [hf _ hnull] at hsell; cases hsell
      · rw [hf _ hnull] at hlow; cases hlow
      · rw [hf _ hnull] at hhigh; cases hhigh
      · rw [hf _ hnull] at hlast; cases hlast
      · rw [hf _ hnull] at hvol; cases hvol

/-- On a value other than `nil`, `jsonGetFloatDef` is `jsonGetFloat`. -/
theorem jsonGetFloatDef_of_ne_null (L : Lib) (v : Any) (d : Float64) (hv : v ≠ Any.null) :
    jsonGetFloatDef L v d = jsonGetFloat L v := by
  cases v with
  | null => exact absurd rfl hv
  | _ => rfl

/-- C14: for a ticker value whose `at`, `ticker`, `buy`, `sell`, `low`, `high`,
`last` and `vol` are readable, `decodeLatestStats` returns `Amount = 0` when
`amount` is absent or `nil`, and the number read from `amount` when it is
present; it fails when `at`, `ticker` or one of the six prices and volumes is
absent. -/
theorem decodeLatestStats_amount (L : Lib) (m : List (GoString × Any)) :
    (∀ (tk : List (GoString × Any)) (t : Time) (buy sell low high last vol : Float64),
      jsonGetTime L (mapIndex m "at".toList) = .ok t →
      mapIndex m "ticker".toList = Any.map tk →
      jsonGetFloat L (mapIndex tk "buy".toList) = .ok buy →
      jsonGetFloat L (mapIndex tk "sell".toList) = .ok sell →
      jsonGetFloat L (mapIndex tk "low".toList) = .ok low →
      jsonGetFloat L (mapIndex tk "high".toList) = .ok high →
      jsonGetFloat L (mapIndex tk "last".toList) = .ok last →
      jsonGetFloat L (mapIndex tk "vol".toList) = .ok vol →
      (mapIndex tk "amount".toList = Any.null →
        decodeLatestStats L (Any.map m) =
          .ok { Time := t, Buy := buy, Sell := sell, Low := low, High := high, Last := last,
                Vol := vol, Amount := 0 }) ∧
      (∀ amount : Float64, mapIndex tk "amount".toList ≠ Any.null →
        jsonGetFloat L (mapIndex tk "amount".toList) = .ok amount →
        decodeLatestStats L (Any.map m) =
          .ok { Time := t, Buy := buy, Sell := sell, Low := low, High := high, Last := last,
                Vol := vol, Amount := amount })) ∧
    (mapIndex m "at".toList = Any.null → ∃ e, decodeLatestStats L (Any.map m) = .error e) ∧
    (mapIndex m "ticker".toList = Any.null →
      ∃ e, decodeLatestStats L (Any.map m) = .error e) ∧
    (∀ (tk : List (GoString × Any)) (k : GoString),
      mapIndex m "ticker".toList = Any.map tk →
      k ∈ ["buy".toList, "sell".toList, "low".toList, "high".toList, "last".toList,
        "vol".toList] →
      mapIndex tk k = Any.null → ∃ e, decodeLatestStats L (Any.map m) = .error e) := by
  refine ⟨fun tk t buy sell low high last vol hat htk hbuy hsell hlow hhigh hlast hvol =>
    ⟨fun hnull => ?_, fun amount hne hamount => ?_⟩,
    fun hat => ⟨_, decodeLatestStats_missing_at L m hat⟩,
    decodeLatestStats_missing_ticker L m,
    fun tk k htk hk hnull => decodeLatestStats_missing_field L m tk k htk hk hnull⟩
  · refine decodeLatestStats_of_fields L m tk t buy sell low high last vol 0 hat htk hbuy
      hsell hlow hhigh hlast hvol ?_
    rw [hnull]
    rfl
  · refine decodeLatestStats_of_fields L m tk t buy sell low high last vol amount hat htk hbuy
      hsell hlow hhigh hlast hvol ?_
    rw [jsonGetFloatDef_of_ne_null L _ 0 hne]
    exact hamount

/-- The reference `ParseFloat` on the literals of the samples. -/
theorem refParseFloat_samples :
    refParseFloat "29000.0".toList = .ok 29000 ∧ refParseFloat "29100.5".toList = .ok (58201 / 2) ∧
    refParseFloat "28000.0".toList = .ok 28000 ∧ refParseFloat "29500.0".toList = .ok 29500 ∧
    refParseFloat "29050.0".toList = .ok 29050 ∧ refParseFloat "12.5".toList = .ok (25 / 2) ∧
    refParseFloat "362500.0".toList = .ok 362500 ∧ refParseFloat "10.0".toList = .ok 10 ∧
    refParseFloat "0.0".toList = .ok 0 ∧ refParseFloat "5.0".toList = .ok 5 ∧
    refParseFloat "9.0".toList = .ok 9 := by
  refine ⟨?_, ?_, ?_, ?_, ?_, ?_, ?_, ?_, ?_, ?_, ?_⟩
  · rw [refParseFloat_literal _ false 290000 1 0 (by rfl)]; norm_num [decimalValue]
  · rw [refParseFloat_literal _ false 291005 1 0 (by rfl)]; norm_num [decimalValue]
  · rw [refParseFloat_literal _ false 280000 1 0 (by rfl)]; norm_num [decimalValue]
  · rw [refParseFloat_literal _ false 295000 1 0 (by rfl)]; norm_num [decimalValue]
  · rw [refParseFloat_literal _ false 290500 1 0 (by rfl)]; norm_num [decimalValue]
  · rw [refParseFloat_literal _ false 125 1 0 (by rfl)]; norm_num [decimalValue]
  · rw [refParseFloat_literal _ false 3625000 1 0 (by rfl)]; norm_num [decimalValue]
  · rw [refParseFloat_literal _ false 100 1 0 (by rfl)]; norm_num [decimalValue]
  · rw [refParseFloat_literal _ false 0 1 0 (by rfl)]; norm_num [decimalValue]
  · rw [refParseFloat_literal _ false 50 1 0 (by rfl)]; norm_num [decimalValue]
  · rw [refParseFloat_literal _ false 90 1 0 (by rfl)]; norm_num [decimalValue]


/-- C14, on the sample ticker values: without `amount` the record has
`Amount = 0`, with `amount` the number read from it; a value without `at`
fails. -/
theorem decodeLatestStats_amount_witness :
    decodeLatestStats refLib tickerValue =
      .ok { Time := ⟨1609459200⟩, Buy := 29000, Sell := 58201 / 2, Low := 28000,
            High := 29500, Last := 29050, Vol := 25 / 2, Amount := 0 } ∧
    decodeLatestStats refLib tickerValueAmount =
      .ok { Time := ⟨1609459200⟩, Buy := 29000, Sell := 58201 / 2, Low := 28000,
            High := 29500, Last := 29050, Vol := 25 / 2, Amount := 362500 } ∧
    (mapIndex [] "at".toList = Any.null ∧
      ∃ e, decodeLatestStats refLib (Any.map []) = .error e) :=
  ⟨((decodeLatestStats_amount refLib tickerValue.fields).1
      (mapIndex tickerValue.fields "ticker".toList).fields ⟨1609459200⟩ 29000 (58201 / 2)
      28000 29500 29050 (25 / 2) rfl rfl refParseFloat_samples.1 refParseFloat_samples.2.1
      refParseFloat_samples.2.2.1 refParseFloat_samples.2.2.2.1
      refParseFloat_samples.2.2.2.2.1 refParseFloat_samples.2.2.2.2.2.1).1 rfl,
   ((decodeLatestStats_amount refLib tickerValueAmount.fields).1
      (mapIndex tickerValueAmount.fields "ticker".toList).fields ⟨1609459200⟩ 29000
      (58201 / 2) 28000 29500 29050 (25 / 2) rfl rfl refParseFloat_samples.1
      refParseFloat_samples.2.1 refParseFloat_samples.2.2.1 refParseFloat_samples.2.2.2.1
      refParseFloat_samples.2.2.2.2.1 refParseFloat_samples.2.2.2.2.2.1).2 362500
      (fun h => Any.noConfusion (h : Any.str "362500.0".toList = Any.null))
      refParseFloat_samples.2.2.2.2.2.2.1,
   ⟨rfl, (decodeLatestStats_amount refLib []).2.1 rfl⟩⟩

/-! ### `decodeOrder` (C13) -/

/-- On a map, the error of `decodeOrder` is the first error among the field
accessors, and the record returned next to an error is the zero `Order`. -/
theorem decodeOrder_map_error (L : Lib) (m : List (GoString × Any)) :
    (decodeOrder L (Any.map m)).2 = (orderFieldErrors L m).findSome? (fun o => o) ∧
    ((decodeOrder L (Any.map m)).2 ≠ none → (decodeOrder L (Any.map m)).1 = Order.zero) := by
  simp only [decodeOrder, jsonGetMap, orderFieldErrors]
  cases jsonGetInt L (mapIndex m "id".toList) with
  | error e => exact ⟨rfl, fun _ => rfl⟩
  | ok x1 =>
  cases jsonGetString (mapIndex m "side".toList) with
  | error e => exact ⟨rfl, fun _ => rfl⟩
  | ok x2 =>
  cases jsonGetString (mapIndex m "ord_type".toList) with
  | error e => exact ⟨rfl, fun _ => rfl⟩
  | ok x3 =>
  cases jsonGetFloat L (mapIndex m "price".toList) with
  | error e => exact ⟨rfl, fun _ => rfl⟩
  | ok x4 =>
  cases jsonGetFloat L (mapIndex m "avg_price".toList) with
  | error e => exact ⟨rfl, fun _ => rfl⟩
  | ok x5 =>
  cases jsonGetString (mapIndex m "state".toList) with
  | error e => exact ⟨rfl, fun _ => rfl⟩
  | ok x6 =>
  cases jsonGetString (mapIndex m "market".toList) with
  | error e => exact ⟨rfl, fun _ => rfl⟩
  | ok x7 =>
  cases jsonGetTimeFromText L (mapIndex m "created_at".toList) with
  | error e => exact ⟨rfl, fun _ => rfl⟩
  | ok x8 =>
  cases jsonGetFloat L (mapIndex m "volume".toList) with
  | error e => exact ⟨rfl, fun _ => rfl⟩
  | ok x9 =>
  cases jsonGetFloat L (mapIndex m "remaining_volume".toList) with
  | error e => exact ⟨rfl, fun _ => rfl⟩
  | ok x10 =>
  cases jsonGetFloat L (mapIndex m "executed_volume".toList) with
  | error e => exact ⟨rfl, fun _ => rfl⟩
  | ok x11 =>
  cases jsonGetInt L (mapIndex m "trades_count".toList) with
  | error e => exact ⟨rfl, fun _ => rfl⟩
  | ok x12 => exact ⟨rfl, fun h => absurd rfl h⟩

/-- With the twelve fields readable, `decodeOrder` returns the record of the
accessor results and no error. -/
theorem decodeOrder_of_fields (L : Lib) (m : List (GoString × Any)) (o : Order)
    (h₁ : jsonGetInt L (mapIndex m "id".toList) = .ok o.ID)
    (h₂ : jsonGetString (mapIndex m "side".toList) = .ok o.Side)
    (h₃ : jsonGetString (mapIndex m "ord_type".toList) = .ok o.OrdType)
    (h₄ : jsonGetFloat L (mapIndex m "price".toList) = .ok o.Price)
    (h₅ : jsonGetFloat L (mapIndex m "avg_price".toList) = .ok o.AvgPrice)
    (h₆ : jsonGetString (mapIndex m "state".toList) = .ok o.State)
    (h₇ : jsonGetString (mapIndex m "market".toList) = .ok o.Market)
    (h₈ : jsonGetTimeFromText L (mapIndex m "created_at".toList) = .ok o.CreatedAt)
    (h₉ : jsonGetFloat L (mapIndex m "volume".toList) = .ok o.Volume)
    (h₁₀ : jsonGetFloat L (mapIndex m "remaining_volume".toList) = .ok o.RemainingVolume)
    (h₁₁ : jsonGetFloat L (mapIndex m "executed_volume".toList) = .ok o.ExecutedVolume)
    (h₁₂ : jsonGetInt L (mapIndex m "trades_count".toList) = .ok o.TradesCount) :
    decodeOrder L (Any.map m) = (o, none) := by
  simp only [decodeOrder, jsonGetMap, h₁, h₂, h₃, h₄, h₅, h₆, h₇, h₈, h₉, h₁₀, h₁₁, h₁₂]

/-- A value that is not a map is rejected by `decodeOrder` with the error of
`jsonGetMap` and the zero `Order`. -/
theorem decodeOrder_not_map (L : Lib) (v : Any) (hv : v.kind ≠ Kind.map) :
    decodeOrder L v =
      (Order.zero, some (if v.kind = Kind.null then .missingValue "dict".toList
        else .typeMismatch "dict".toList v)) := by
  cases v <;> simp [Any.kind, decodeOrder, jsonGetMap] at hv ⊢

/-- C13: `decodeOrder` succeeds exactly on the maps whose twelve fields are
each accepted by their accessor; the record then holds the accessor results;
on failure the record is the zero `Order` and the error, on a map, is that of
the first field, in the order `id`, `side`, `ord_type`, `price`, `avg_price`,
`state`, `market`, `created_at`, `volume`, `remaining_volume`,
`executed_volume`, `trades_count`, whose accessor fails (on a value that is
not a map, the error of `jsonGetMap`). -/
theorem decodeOrder_spec (L : Lib) (v : Any) :
    ((decodeOrder L v).2 = none ↔
      ∃ m, v = Any.map m ∧ ∀ o ∈ orderFieldErrors L m, o = none) ∧
    (∀ (m : List (GoString × Any)) (o : Order), v = Any.map m →
      jsonGetInt L (mapIndex m "id".toList) = .ok o.ID →
      jsonGetString (mapIndex m "side".toList) = .ok o.Side →
      jsonGetString (mapIndex m "ord_type".toList) = .ok o.OrdType →
      jsonGetFloat L (mapIndex m "price".toList) = .ok o.Price →
      jsonGetFloat L (mapIndex m "avg_price".toList) = .ok o.AvgPrice →
      jsonGetString (mapIndex m "state".toList) = .ok o.State →
      jsonGetString (mapIndex m "market".toList) = .ok o.Market →
      jsonGetTimeFromText L (mapIndex m "created_at".toList) = .ok o.CreatedAt →
      jsonGetFloat L (mapIndex m "volume".toList) = .ok o.Volume →
      jsonGetFloat L (mapIndex m "remaining_volume".toList) = .ok o.RemainingVolume →
      jsonGetFloat L (mapIndex m "executed_volume".toList) = .ok o.ExecutedVolume →
      jsonGetInt L (mapIndex m "trades_count".toList) = .ok o.TradesCount →
      decodeOrder L v = (o, none)) ∧
    ((decodeOrder L v).2 ≠ none → (decodeOrder L v).1 = Order.zero) ∧
    (∀ m, v = Any.map m →
      (decodeOrder L v).2 = (orderFieldErrors L m).findSome? (fun o => o)) ∧
    (v.kind ≠ Kind.map →
      (decodeOrder L v).2 = some (if v.kind = Kind.null then .missingValue "dict".toList
        else .typeMismatch "dict".toList v)) := by
  refine ⟨⟨fun h => ?_, fun h => ?_⟩, ?_, fun h => ?_, fun m hm => ?_, fun hv => ?_⟩
  · by_cases hv : v.kind = Kind.map
    · cases v with
      | map m =>
        refine ⟨m, rfl, fun o ho => ?_⟩
        rw [(decodeOrder_map_error L m).1] at h
        exact (List.findSome?_eq_none_iff.mp h) o ho
      | _ => cases hv
    · rw [decodeOrder_not_map L v hv] at h
      cases h
  · obtain ⟨m, rfl, hall⟩ := h
    rw [(decodeOrder_map_error L m).1]
    exact List.findSome?_eq_none_iff.mpr hall
  · intro m o hm h₁ h₂ h₃ h₄ h₅ h₆ h₇ h₈ h₉ h₁₀ h₁₁ h₁₂
    subst hm
    exact decodeOrder_of_fields L m o h₁ h₂ h₃ h₄ h₅ h₆ h₇ h₈ h₉ h₁₀ h₁₁ h₁₂
  · by_cases hv : v.kind = Kind.map
    · cases v with
      | map m => exact (decodeOrder_map_error L m).2 h
      | _ => cases hv
    · rw [decodeOrder_not_map L v hv]
  · subst hm
    exact (decodeOrder_map_error L m).1
  · rw [decodeOrder_not_map L v hv]


/-- C13, on sample values: the sample fields give the sample order; fields
without `state` and with a bad `volume` give the zero `Order` and the error of
`state`, the first of the two in the order of the fields; a list is rejected
as a value that is not a map. -/
theorem decodeOrder_spec_witness :
    decodeOrder refLib (Any.map sampleOrderFields) = (sampleOrder, none) ∧
    ((decodeOrder refLib (Any.map brokenOrderFields)).2 ≠ none ∧
      (decodeOrder refLib (Any.map brokenOrderFields)).1 = Order.zero) ∧
    (decodeOrder refLib (Any.map brokenOrderFields)).2 =
      some (.missingValue "string".toList) ∧
    ((Any.list []).kind ≠ Kind.map ∧
      (decodeOrder refLib (Any.list [])).2 =
        some (.typeMismatch "dict".toList (Any.list []))) := by
  have hbroken : (decodeOrder refLib (Any.map brokenOrderFields)).2 =
      some (.missingValue "string".toList) :=
    ((decodeOrder_spec refLib (Any.map brokenOrderFields)).2.2.2.1 brokenOrderFields rfl).trans
      rfl
  have hne : (decodeOrder refLib (Any.map brokenOrderFields)).2 ≠ none := by
    rw [hbroken]
    exact fun h => Option.noConfusion h
  exact ⟨(decodeOrder_spec refLib (Any.map sampleOrderFields)).2.1 sampleOrderFields sampleOrder
      rfl rfl rfl rfl refParseFloat_samples.2.2.2.2.2.2.2.1
      refParseFloat_samples.2.2.2.2.2.2.2.2.1 rfl rfl rfl
      refParseFloat_samples.2.2.2.2.2.2.2.2.2.1 refParseFloat_samples.2.2.2.2.2.2.2.2.2.1
      refParseFloat_samples.2.2.2.2.2.2.2.2.1 rfl,
    ⟨hne, (decodeOrder_spec refLib (Any.map brokenOrderFields)).2.2.1 hne⟩,
    hbroken,
    ⟨by decide, (decodeOrder_spec refLib (Any.list [])).2.2.2.2 (by decide)⟩⟩

/-! ### `decodeOrders` and `decodeOrderBook` (C15) -/

/-- When every element decodes, the loop of `decodeOrders` appends the decoded
orders, in order, to those decoded so far. -/
theorem decodeOrdersLoop_ok (L : Lib) (l : List Any) (res : Orders)
    (h : ∀ v ∈ l, (decodeOrder L v).2 = none) :
    decodeOrdersLoop L l res = .ok (res ++ l.map (fun v => (decodeOrder L v).1)) := by
  induction l generalizing res with
  | nil => simp [decodeOrdersLoop]
  | cons v rest ih =>
    have hv := h v (by simp)
    have hpair : decodeOrder L v = ((decodeOrder L v).1, none) := by
      rw [← hv]
    rw [decodeOrdersLoop, hpair]
    simp only []
    rw [ih _ (fun u hu => h u (List.mem_cons_of_mem _ hu))]
    simp

/-- The loop of `decodeOrders` fails with the error of the first element that
does not decode. -/
theorem decodeOrdersLoop_error (L : Lib) (pre : List Any) (v : Any) (post : List Any)
    (e : Error) (res : Orders)
    (hpre : ∀ u ∈ pre, (decodeOrder L u).2 = none) (hv : (decodeOrder L v).2 = some e) :
    decodeOrdersLoop L (pre ++ v :: post) res = .error e := by
  induction pre generalizing res with
  | nil =>
    have hpair : decodeOrder L v = ((decodeOrder L v).1, some e) := by
      rw [← hv]
    rw [List.nil_append, decodeOrdersLoop, hpair]
  | cons u pre ih =>
    have hu := hpre u (by simp)
    have hpair : decodeOrder L u = ((decodeOrder L u).1, none) := by
      rw [← hu]
    rw [List.cons_append, decodeOrdersLoop, hpair]
    simp only []
    exact ih _ (fun w hw => hpre w (List.mem_cons_of_mem _ hw))

/-- Either every element decodes or there is a first element that does not. -/
theorem decodeOrder_all_or_first (L : Lib) (l : List Any) :
    (∀ v ∈ l, (decodeOrder L v).2 = none) ∨
    ∃ (pre : List Any) (v : Any) (post : List Any) (e : Error),
      l = pre ++ v :: post ∧ (∀ u ∈ pre, (decodeOrder L u).2 = none) ∧
        (decodeOrder L v).2 = some e := by
  induction l with
  | nil => left; simp
  | cons v rest ih =>
    cases hv : (decodeOrder L v).2 with
    | some e => exact Or.inr ⟨[], v, rest, e, rfl, by simp, hv⟩
    | none =>
      rcases ih with hall | ⟨pre, w, post, e, hsplit, hpre, hw⟩
      · left
        intro u hu
        rcases List.mem_cons.mp hu with rfl | hu
        · exact hv
        · exact hall u hu
      · right
        refine ⟨v :: pre, w, post, e, by rw [hsplit, List.cons_append], ?_, hw⟩
        intro u hu
        rcases List.mem_cons.mp hu with rfl | hu
        · exact hv
        · exact hpre u hu

/-- C15: on a list, `decodeOrders` succeeds exactly when `decodeOrder` succeeds
on every element; the result is then the list of the decoded elements, in the
order of the input; otherwise it fails with the error of the first element
that does not decode.  `decodeOrderBook` decodes the entry `asks`, then the
entry `bids`, and fails with the error of the first of the two that fails. -/
theorem decodeOrders_spec (L : Lib) (l : List Any) :
    ((∃ os, decodeOrders L (Any.list l) = .ok os) ↔
      ∀ v ∈ l, (decodeOrder L v).2 = none) ∧
    ((∀ v ∈ l, (decodeOrder L v).2 = none) →
      decodeOrders L (Any.list l) = .ok (l.map (fun v => (decodeOrder L v).1))) ∧
    (∀ (pre : List Any) (v : Any) (post : List Any) (e : Error),
      l = pre ++ v :: post → (∀ u ∈ pre, (decodeOrder L u).2 = none) →
      (decodeOrder L v).2 = some e → decodeOrders L (Any.list l) = .error e) ∧
    (∀ (m : List (GoString × Any)),
      (∀ asks bids, decodeOrders L (mapIndex m "asks".toList) = .ok asks →
        decodeOrders L (mapIndex m "bids".toList) = .ok bids →
        decodeOrderBook L (Any.map m) = .ok { Asks := asks, Bids := bids }) ∧
      (∀ e, decodeOrders L (mapIndex m "asks".toList) = .error e →
        decodeOrderBook L (Any.map m) = .error e) ∧
      (∀ asks e, decodeOrders L (mapIndex m "asks".toList) = .ok asks →
        decodeOrders L (mapIndex m "bids".toList) = .error e →
        decodeOrderBook L (Any.map m) = .error e)) := by
  have hok : (∀ v ∈ l, (decodeOrder L v).2 = none) →
      decodeOrders L (Any.list l) = .ok (l.map (fun v => (decodeOrder L v).1)) := by
    intro h
    simp only [decodeOrders, jsonGetList]
    rw [decodeOrdersLoop_ok L l [] h, List.nil_append]
  have herr : ∀ (pre : List Any) (v : Any) (post : List Any) (e : Error),
      l = pre ++ v :: post → (∀ u ∈ pre, (decodeOrder L u).2 = none) →
      (decodeOrder L v).2 = some e → decodeOrders L (Any.list l) = .error e := by
    intro pre v post e hsplit hpre hv
    simp only [decodeOrders, jsonGetList]
    rw [hsplit]
    exact decodeOrdersLoop_error L pre v post e [] hpre hv
  refine ⟨⟨fun h => ?_, fun h => ⟨_, hok h⟩⟩, hok, herr, fun m => ⟨?_, ?_, ?_⟩⟩
  · rcases decodeOrder_all_or_first L l with hall | ⟨pre, v, post, e, hsplit, hpre, hv⟩
    · exact hall
    · obtain ⟨os, hos⟩ := h
      rw [herr pre v post e hsplit hpre hv] at hos
      cases hos
  · intro asks bids ha hb
    simp only [decodeOrderBook, jsonGetMap, ha, hb]
  · intro e ha
    simp only [decodeOrderBook, jsonGetMap, ha]
  · intro asks e ha hb
    simp only [decodeOrderBook, jsonGetMap, ha, hb]

/-- C15, on sample lists: two sample orders decode to two orders in the same
order; a list whose second element is broken fails with the error of that
element; an order book with the sample order as only ask and no bids decodes. -/
theorem decodeOrders_spec_witness :
    ((∀ v ∈ [Any.map sampleOrderFields, Any.map sampleOrderFields],
        (decodeOrder refLib v).2 = none) ∧
      decodeOrders refLib (Any.list [Any.map sampleOrderFields, Any.map sampleOrderFields]) =
        .ok [sampleOrder, sampleOrder]) ∧
    decodeOrders refLib (Any.list [Any.map sampleOrderFields, Any.map brokenOrderFields,
        Any.bool true]) = .error (.missingValue "string".toList) ∧
    decodeOrderBook refLib (Any.map [("asks".toList, Any.list [Any.map sampleOrderFields]),
        ("bids".toList, Any.list [])]) = .ok { Asks := [sampleOrder], Bids := [] } := by
  have hs : decodeOrder refLib (Any.map sampleOrderFields) = (sampleOrder, none) :=
    decodeOrder_of_fields refLib sampleOrderFields sampleOrder
      rfl rfl rfl refParseFloat_samples.2.2.2.2.2.2.2.1
      refParseFloat_samples.2.2.2.2.2.2.2.2.1 rfl rfl rfl
      refParseFloat_samples.2.2.2.2.2.2.2.2.2.1 refParseFloat_samples.2.2.2.2.2.2.2.2.2.1
      refParseFloat_samples.2.2.2.2.2.2.2.2.1 rfl
  have hall₂ : ∀ v ∈ [Any.map sampleOrderFields, Any.map sampleOrderFields],
      (decodeOrder refLib v).2 = none := by
    intro v hv
    simp only [List.mem_cons, List.mem_singleton, List.not_mem_nil, or_false, or_self] at hv
    rw [hv, hs]
  have hall₁ : ∀ v ∈ [Any.map sampleOrderFields], (decodeOrder refLib v).2 = none := by
    intro v hv
    rw [List.mem_singleton] at hv
    rw [hv, hs]
  have h₁ := (decodeOrders_spec refLib _).2.1 hall₂
  simp only [List.map_cons, List.map_nil, hs] at h₁
  have h₂ := (decodeOrders_spec refLib [Any.map sampleOrderFields, Any.map brokenOrderFields,
      Any.bool true]).2.2.1 [Any.map sampleOrderFields] (Any.map brokenOrderFields)
      [Any.bool true] (.missingValue "string".toList) rfl hall₁ rfl
  have ha := (decodeOrders_spec refLib _).2.1 hall₁
  simp only [List.map_cons, List.map_nil, hs] at ha
  have h₃ := ((decodeOrders_spec refLib []).2.2.2
      [("asks".toList, Any.list [Any.map sampleOrderFields]), ("bids".toList, Any.list [])]).1
      [sampleOrder] [] ha rfl
  exact ⟨⟨hall₂, h₁⟩, h₂, h₃⟩


/-! ### The instant of a timestamp (C17) -/

/-- C17: with `time.Parse` as in `refTimeParse`, for every date and time of day
that exists, the text `YYYY-MM-DDThh:mm:ssZ` is read as that date and time in
UTC, and the texts with the offset written `±hhmm` and `±hh:mm` are both read
as that date and time minus the offset, hence as the same instant. -/
theorem jsonGetTimeFromText_instant (c : Civil) (hc : c.valid) :
    jsonGetTimeFromText refLib (Any.str (writeDateTime c ++ "Z".toList)) = .ok ⟨c.unix⟩ ∧
    ∀ (east : Bool) (hh mm : Nat), hh < 24 → mm < 60 →
      jsonGetTimeFromText refLib (Any.str (writeDateTime c ++ writeZone false east hh mm)) =
        .ok ⟨c.unix - zoneSeconds east hh mm⟩ ∧
      jsonGetTimeFromText refLib (Any.str (writeDateTime c ++ writeZone true east hh mm)) =
        .ok ⟨c.unix - zoneSeconds east hh mm⟩ :=
  ⟨timeFromText_utc c hc, fun east hh mm hhh hmm =>
    ⟨timeFromText_numeric c hc east hh mm hhh hmm, timeFromText_colon c hc east hh mm hhh hmm⟩⟩

/-- C17, on the texts of the specification: `2021-01-01T00:00:00Z` is the
second 1609459200, `2021-01-01T00:00:00-0500` and `2021-01-01T00:00:00-05:00`
are both the second 1609477200, and `not-a-date` fails with the error naming
it. -/
theorem jsonGetTimeFromText_instant_witness :
    (Civil.valid ⟨2021, 1, 1, 0, 0, 0⟩ ∧ (5 : Nat) < 24 ∧ (0 : Nat) < 60) ∧
    jsonGetTimeFromText refLib (Any.str "2021-01-01T00:00:00Z".toList) = .ok ⟨1609459200⟩ ∧
    jsonGetTimeFromText refLib (Any.str "2021-01-01T00:00:00-0500".toList) =
      .ok ⟨1609477200⟩ ∧
    jsonGetTimeFromText refLib (Any.str "2021-01-01T00:00:00-05:00".toList) =
      .ok ⟨1609477200⟩ ∧
    jsonGetTimeFromText refLib (Any.str "not-a-date".toList) =
      .error (.text "can't parse time: not-a-date".toList) :=
  ⟨⟨by decide, by decide, by decide⟩,
   (jsonGetTimeFromText_instant ⟨2021, 1, 1, 0, 0, 0⟩ (by decide)).1,
   ((jsonGetTimeFromText_instant ⟨2021, 1, 1, 0, 0, 0⟩ (by decide)).2 false 5 0
      (by decide) (by decide)).1,
   ((jsonGetTimeFromText_instant ⟨2021, 1, 1, 0, 0, 0⟩ (by decide)).2 false 5 0
      (by decide) (by decide)).2,
   rfl⟩

/-! ### The order book walk (C18, C19, C20) -/

/-- C19: for levels with positive prices and a ceiling `c` in funds with
`0 < c` and `c` at most the total funds of the levels, the walk stops at the
first level, of index `k`, at which the running sum of the funds reaches `c`;
it prints the levels before it unclipped, prints that level with the volume
`(c - funds so far) / price`, and the cumulative funds of that last line are
`c`. -/
theorem walk_funds_ceiling (c : Float64) (levels : Orders)
    (hprice : ∀ e ∈ levels, 0 < e.Price) (hc : 0 < c) (hle : c ≤ sumLevelFunds levels) :
    ∃ k, k < levels.length ∧
      (∀ j, j ≤ k → sumLevelFunds (levels.take j) < c) ∧
      c ≤ sumLevelFunds (levels.take (k + 1)) ∧
      (walkLoop true c levels 0 0).length = k + 1 ∧
      ((walkLoop true c levels 0 0).take k).map Row.Volume =
        (levels.take k).map (fun e => e.RemainingVolume) ∧
      ((walkLoop true c levels 0 0)[k]?).map Row.Volume =
        (levels[k]?).map (fun e => (c - sumLevelFunds (levels.take k)) / e.Price) ∧
      ((walkLoop true c levels 0 0)[k]?).map Row.SumFunds = some c := by
  obtain ⟨k, hk, hleast, hreach, hlen, hpre, hvol, hsum⟩ :=
    walkLoop_funds c hc levels 0 0 hprice hc (by rw [zero_add]; exact hle)
  refine ⟨k, hk, fun j hj => ?_, ?_, hlen, hpre, ?_, hsum⟩
  · have := hleast j hj
    rwa [zero_add] at this
  · rwa [zero_add] at hreach
  · rw [hvol, zero_add]

/-- C19, on the example of the specification: asks `(10, 5)`, `(11, 5)` and the
ceiling 60 in funds give a second line with volume `10 / 11` and cumulative
funds 60. -/
theorem walk_funds_ceiling_witness :
    ((∀ e ∈ sampleBook.Asks, 0 < e.Price) ∧ (0 : Float64) < 60 ∧
      (60 : Float64) ≤ sumLevelFunds sampleBook.Asks) ∧
    (∃ k, k < sampleBook.Asks.length ∧
      (∀ j, j ≤ k → sumLevelFunds (sampleBook.Asks.take j) < 60) ∧
      60 ≤ sumLevelFunds (sampleBook.Asks.take (k + 1)) ∧
      (walkLoop true 60 sampleBook.Asks 0 0).length = k + 1 ∧
      ((walkLoop true 60 sampleBook.Asks 0 0).take k).map Row.Volume =
        (sampleBook.Asks.take k).map (fun e => e.RemainingVolume) ∧
      ((walkLoop true 60 sampleBook.Asks 0 0)[k]?).map Row.Volume =
        (sampleBook.Asks[k]?).map
          (fun e => (60 - sumLevelFunds (sampleBook.Asks.take k)) / e.Price) ∧
      ((walkLoop true 60 sampleBook.Asks 0 0)[k]?).map Row.SumFunds = some 60) ∧
    sellRows true 60 sampleBook =
      [{ Price := 10, Volume := 5, Funds := 50, AvgPrice := 10, SumVolume := 5, SumFunds := 50 },
       { Price := 11, Volume := 10 / 11, Funds := 10, AvgPrice := 132 / 13,
         SumVolume := 65 / 11, SumFunds := 60 }] := by
  have h₀ : ∀ e ∈ sampleBook.Asks, 0 < e.Price := by
    intro e he
    simp only [sampleBook, List.mem_cons, List.mem_singleton, List.not_mem_nil, or_false] at he
    rcases he with rfl | rfl <;> norm_num [level]
  have h₁ : (0 : Float64) < 60 := by norm_num
  have h₂ : (60 : Float64) ≤ sumLevelFunds sampleBook.Asks := by
    norm_num [sumLevelFunds, sampleBook, level, Order.zero]
  exact ⟨⟨h₀, h₁, h₂⟩, walk_funds_ceiling 60 sampleBook.Asks h₀ h₁ h₂, sample_rows_funds⟩

/-- C20: with a ceiling that is not positive, in volume or in funds, the walk
prints one line per level, in the order of the levels, each with the price and
the volume of its level; so do `sell` on the asks and `buy` on the bids. -/
theorem walk_without_ceiling (gUAH : Bool) (limit : Float64) (hlimit : limit ≤ 0)
    (obook : OrderBook) :
    ((sellRows gUAH limit obook).length = obook.Asks.length ∧
      (sellRows gUAH limit obook).map Row.Volume =
        obook.Asks.map (fun e => e.RemainingVolume) ∧
      (sellRows gUAH limit obook).map Row.Price = obook.Asks.map (fun e => e.Price)) ∧
    ((buyRows gUAH limit obook).length = obook.Bids.length ∧
      (buyRows gUAH limit obook).map Row.Volume =
        obook.Bids.map (fun e => e.RemainingVolume) ∧
      (buyRows gUAH limit obook).map Row.Price = obook.Bids.map (fun e => e.Price)) :=
  ⟨walkLoop_unclipped gUAH limit hlimit obook.Asks 0 0,
   walkLoop_unclipped gUAH limit hlimit obook.Bids 0 0⟩

/-- C20, on the sample order book with the ceiling 0: both asks and both bids
are printed with their own volumes. -/
theorem walk_without_ceiling_witness :
    (0 : Float64) ≤ 0 ∧
    (sellRows false 0 sampleBook).map Row.Volume = [5, 5] ∧
    (sellRows true 0 sampleBook).length = 2 ∧
    (buyRows true 0 sampleBook).map Row.Volume = [4, 6] ∧
    (buyRows true 0 sampleBook).map Row.Price = [9, 8] :=
  ⟨le_refl 0,
   (walk_without_ceiling false 0 (le_refl 0) sampleBook).1.2.1,
   (walk_without_ceiling true 0 (le_refl 0) sampleBook).1.1,
   (walk_without_ceiling true 0 (le_refl 0) sampleBook).2.2.1,
   (walk_without_ceiling true 0 (le_refl 0) sampleBook).2.2.2⟩

/-- The loop that keeps the smaller value ends at most at its start value. -/
theorem foldl_min_le_init (field : HistoryEntry → Float64) (l : History) (a : Float64) :
    l.foldl (fun min x => if field x < min then field x else min) a ≤ a := by
  induction l generalizing a with
  | nil => exact le_refl a
  | cons x xs ih =>
    simp only [List.foldl_cons]
    refine le_trans (ih _) ?_
    split
    · exact le_of_lt (by assumption)
    · exact le_refl a

/-- The loop that keeps the smaller value ends at most at the value of each
entry it visits. -/
theorem foldl_min_le_mem (field : HistoryEntry → Float64) (l : History) (a : Float64) :
    ∀ x ∈ l, l.foldl (fun min x => if field x < min then field x else min) a ≤ field x := by
  induction l generalizing a with
  | nil => intro x hx; cases hx
  | cons y ys ih =>
    intro x hx
    simp only [List.foldl_cons]
    rcases List.mem_cons.mp hx with rfl | hx
    · refine le_trans (foldl_min_le_init field ys _) ?_
      split
      · exact le_refl _
      · exact not_lt.mp (by assumption)
    · exact ih _ x hx

/-- The loop that keeps the smaller value ends at its start value or at the
value of an entry. -/
theorem foldl_min_attained (field : HistoryEntry → Float64) (l : History) (a : Float64) :
    l.foldl (fun min x => if field x < min then field x else min) a = a ∨
      ∃ x ∈ l, l.foldl (fun min x => if field x < min then field x else min) a = field x := by
  induction l generalizing a with
  | nil => exact Or.inl rfl
  | cons y ys ih =>
    simp only [List.foldl_cons]
    rcases ih (if field y < a then field y else a) with h | ⟨x, hx, h⟩
    · by_cases hy : field y < a
      · rw [if_pos hy] at h ⊢
        exact Or.inr ⟨y, List.mem_cons_self _ _, h⟩
      · rw [if_neg hy] at h ⊢
        exact Or.inl h
    · exact Or.inr ⟨x, List.mem_cons_of_mem _ hx, h⟩

/-- The loop that keeps the larger value ends at least at its start value. -/
theorem foldl_max_init_le (field : HistoryEntry → Float64) (l : History) (a : Float64) :
    a ≤ l.foldl (fun max e => if max < field e then field e else max) a := by
  induction l generalizing a with
  | nil => exact le_refl a
  | cons x xs ih =>
    simp only [List.foldl_cons]
    refine le_trans ?_ (ih _)
    split
    · exact le_of_lt (by assumption)
    · exact le_refl a

/-- The loop that keeps the larger value ends at least at the value of each
entry it visits. -/
theorem foldl_max_mem_le (field : HistoryEntry → Float64) (l : History) (a : Float64) :
    ∀ x ∈ l, field x ≤ l.foldl (fun max e => if max < field e then field e else max) a := by
  induction l generalizing a with
  | nil => intro x hx; cases hx
  | cons y ys ih =>
    intro x hx
    simp only [List.foldl_cons]
    rcases List.mem_cons.mp hx with rfl | hx
    · refine le_trans ?_ (foldl_max_init_le field ys _)
      split
      · exact le_refl _
      · exact not_lt.mp (by assumption)
    · exact ih _ x hx

/-- The loop that keeps the larger value ends at its start value or at the value
of an entry. -/
theorem foldl_max_attained (field : HistoryEntry → Float64) (l : History) (a : Float64) :
    l.foldl (fun max e => if max < field e then field e else max) a = a ∨
      ∃ x ∈ l, l.foldl (fun max e => if max < field e then field e else max) a = field x := by
  induction l generalizing a with
  | nil => exact Or.inl rfl
  | cons y ys ih =>
    simp only [List.foldl_cons]
    rcases ih (if a < field y then field y else a) with h | ⟨x, hx, h⟩
    · by_cases hy : a < field y
      · rw [if_pos hy] at h ⊢
        exact Or.inr ⟨y, List.mem_cons_self _ _, h⟩
      · rw [if_neg hy] at h ⊢
        exact Or.inl h
    · exact Or.inr ⟨x, List.mem_cons_of_mem _ hx, h⟩

/-- The loop of `MinPrice`, `MinVolume`, `MinFunds` on a non-empty history
returns the least value of the field, and it is the value of some entry. -/
theorem histMin_least (field : HistoryEntry → Float64) (h : History) (hne : h ≠ []) :
    (∀ e ∈ h, histMin field h ≤ field e) ∧ ∃ e ∈ h, histMin field h = field e := by
  cases h with
  | nil => exact absurd rfl hne
  | cons e rest =>
    refine ⟨?_, ?_⟩
    · intro x hx
      rcases List.mem_cons.mp hx with rfl | hx
      · exact foldl_min_le_init field rest _
      · exact foldl_min_le_mem field rest _ x hx
    · rcases foldl_min_attained field rest (field e) with h | ⟨x, hx, h⟩
      · exact ⟨e, List.mem_cons_self _ _, h⟩
      · exact ⟨x, List.mem_cons_of_mem _ hx, h⟩

/-- The loop of `MaxPrice`, `MaxVolume`, `MaxFunds` returns the greatest value
of the field, and it is the value of some entry, when some entry has a value
that is not negative. -/
theorem histMax_greatest (field : HistoryEntry → Float64) (h : History)
    (hpos : ∃ e ∈ h, 0 ≤ field e) :
    (∀ e ∈ h, field e ≤ histMax field h) ∧ ∃ e ∈ h, histMax field h = field e := by
  refine ⟨foldl_max_mem_le field h 0, ?_⟩
  rcases foldl_max_attained field h 0 with h0 | hx
  · obtain ⟨e, he, hge⟩ := hpos
    refine ⟨e, he, le_antisymm ?_ (foldl_max_mem_le field h 0 e he)⟩
    unfold histMax
    rw [h0]
    exact hge
  · exact hx

/-- The summing loop adds the sum of the field to its start value. -/
theorem foldl_add_eq (field : HistoryEntry → Float64) (l : History) (a : Float64) :
    l.foldl (fun sum e => sum + field e) a = a + (l.map field).sum := by
  induction l generalizing a with
  | nil => simp
  | cons x xs ih =>
    simp only [List.foldl_cons, List.map_cons, List.sum_cons]
    rw [ih]
    ring

/-- The loop of `SumVolume` and `SumFunds` returns the sum of the field. -/
theorem histSum_eq (field : HistoryEntry → Float64) (h : History) :
    histSum field h = (h.map field).sum := by
  unfold histSum
  rw [foldl_add_eq]
  ring

/-- On one entry with a value that is not negative, the loop of the maxima
returns that value. -/
theorem histMax_single (field : HistoryEntry → Float64) (e : HistoryEntry) (h : 0 ≤ field e) :
    histMax field [e] = field e := by
  simp only [histMax, List.foldl_cons, List.foldl_nil]
  split
  · rfl
  · exact le_antisymm h (not_lt.mp (by assumption))

/-- The volumes of a non-empty history with positive volumes have a positive
sum. -/
theorem sum_volume_pos (l : History) (hne : l ≠ []) (hv : ∀ e ∈ l, 0 < e.Volume) :
    0 < (l.map (fun e => e.Volume)).sum := by
  induction l with
  | nil => exact absurd rfl hne
  | cons x xs ih =>
    simp only [List.map_cons, List.sum_cons]
    have hx : 0 < x.Volume := hv x (List.mem_cons_self _ _)
    cases xs with
    | nil => simpa using hx
    | cons y ys =>
      have := ih (List.cons_ne_nil _ _) (fun e he => hv e (List.mem_cons_of_mem _ he))
      linarith

/-- With volumes that are not negative, prices between `m` and `M` and funds
`price * volume`, the sum of the funds lies between `m` and `M` times the sum of
the volumes. -/
theorem weighted_sum_bounds (l : History) (m M : Float64)
    (hall : ∀ e ∈ l, 0 ≤ e.Volume ∧ m ≤ e.Price ∧ e.Price ≤ M ∧ e.Funds = e.Price * e.Volume) :
    m * (l.map (fun e => e.Volume)).sum ≤ (l.map (fun e => e.Funds)).sum ∧
      (l.map (fun e => e.Funds)).sum ≤ M * (l.map (fun e => e.Volume)).sum := by
  induction l with
  | nil => simp
  | cons x xs ih =>
    simp only [List.map_cons, List.sum_cons]
    obtain ⟨hv, hm, hM, hf⟩ := hall x (List.mem_cons_self _ _)
    obtain ⟨h1, h2⟩ := ih (fun e he => hall e (List.mem_cons_of_mem _ he))
    rw [hf]
    constructor
    · have := mul_le_mul_of_nonneg_right hm hv
      linarith
    · have := mul_le_mul_of_nonneg_right hM hv
      linarith

/-! ### The statistics of a trade history (C22, C23, C24, C29) -/

/-- C22: for the empty history, `MinPrice`, `MaxPrice`, `MinVolume`,
`MaxVolume`, `MinFunds` and `MaxFunds` all return 0. -/
theorem history_empty_min_max :
    History.MinPrice [] = 0 ∧ History.MaxPrice [] = 0 ∧ History.MinVolume [] = 0 ∧
      History.MaxVolume [] = 0 ∧ History.MinFunds [] = 0 ∧ History.MaxFunds [] = 0 :=
  ⟨rfl, rfl, rfl, rfl, rfl, rfl⟩

/-- C23, as the code has it: for a history of one entry whose price, volume
and funds are not negative, the minimum, maximum, average and sum of the
volume are the volume of the entry, those of the funds are its funds, the
minimum and maximum of the price are its price, and `AvgPrice` is its funds
divided by its volume; that is its price when the funds are price times volume
and the volume is not 0. -/
theorem history_single (e : HistoryEntry) (hp : 0 ≤ e.Price) (hv : 0 ≤ e.Volume)
    (hf : 0 ≤ e.Funds) :
    (History.MinVolume [e] = e.Volume ∧ History.MaxVolume [e] = e.Volume ∧
      History.AvgVolume [e] = e.Volume ∧ History.SumVolume [e] = e.Volume) ∧
    (History.MinFunds [e] = e.Funds ∧ History.MaxFunds [e] = e.Funds ∧
      History.AvgFunds [e] = e.Funds ∧ History.SumFunds [e] = e.Funds) ∧
    History.MinPrice [e] = e.Price ∧ History.MaxPrice [e] = e.Price ∧
    History.AvgPrice [e] = e.Funds / e.Volume ∧
    (e.Volume ≠ 0 → e.Funds = e.Price * e.Volume → History.AvgPrice [e] = e.Price) := by
  have hsv : History.SumVolume [e] = e.Volume := by
    simp [History.SumVolume, histSum]
  have hsf : History.SumFunds [e] = e.Funds := by
    simp [History.SumFunds, histSum]
  refine ⟨⟨rfl, histMax_single _ e hv, ?_, hsv⟩, ⟨rfl, histMax_single _ e hf, ?_, hsf⟩,
    rfl, histMax_single _ e hp, ?_, ?_⟩
  · simp [History.AvgVolume, hsv]
  · simp [History.AvgFunds, hsf]
  · simp [History.AvgPrice, hsv, hsf]
  · intro hv0 hfe
    simp only [History.AvgPrice, hsv, hsf, hfe]
    field_simp

/-- C23, on the history of the one trade of price 10, volume 2 and funds 20:
all three statistics of the price are 10. -/
theorem history_single_witness :
    ((0 : Float64) ≤ (trade 10 2 20).Price ∧ (0 : Float64) ≤ (trade 10 2 20).Volume ∧
      (0 : Float64) ≤ (trade 10 2 20).Funds) ∧
    History.MinPrice [trade 10 2 20] = 10 ∧ History.MaxPrice [trade 10 2 20] = 10 ∧
    History.AvgPrice [trade 10 2 20] = 10 := by
  have hp : (0 : Float64) ≤ (trade 10 2 20).Price := by norm_num [trade]
  have hv : (0 : Float64) ≤ (trade 10 2 20).Volume := by norm_num [trade]
  have hf : (0 : Float64) ≤ (trade 10 2 20).Funds := by norm_num [trade]
  have h := history_single (trade 10 2 20) hp hv hf
  exact ⟨⟨hp, hv, hf⟩, h.2.2.1, h.2.2.2.1,
    h.2.2.2.2.2 (by norm_num [trade]) (by norm_num [trade])⟩

/-- C23 fails as stated: on the history of the one trade of price 10, volume 2
and funds 30, `MinPrice` and `MaxPrice` are 10 and `AvgPrice` is `30 / 2 = 15`. -/
theorem avgPrice_single_not_price :
    History.AvgPrice [trade 10 2 30] = 15 ∧ History.MinPrice [trade 10 2 30] = 10 ∧
      History.MaxPrice [trade 10 2 30] = 10 ∧
      History.AvgPrice [trade 10 2 30] ≠ (trade 10 2 30).Price := by
  have h : History.AvgPrice [trade 10 2 30] = 15 := by
    norm_num [History.AvgPrice, History.SumFunds, History.SumVolume, histSum, trade]
  refine ⟨h, ?_, ?_, ?_⟩
  · norm_num [History.MinPrice, histMin, trade]
  · norm_num [History.MaxPrice, histMax, trade]
  · rw [h]; norm_num [trade]

/-- C24, where the code departs from it: on the history of the one trade of
price -1, volume 1 and funds -1, `MaxPrice` and `MaxFunds` return 0, which is
the price, respectively the funds, of no entry, while `MinPrice` and `MinFunds`
return -1. -/
theorem maxPrice_negative_entry :
    History.MaxPrice [trade (-1) 1 (-1)] = 0 ∧ History.MaxFunds [trade (-1) 1 (-1)] = 0 ∧
      (¬ ∃ e ∈ [trade (-1) 1 (-1)], History.MaxPrice [trade (-1) 1 (-1)] = e.Price) ∧
      (¬ ∃ e ∈ [trade (-1) 1 (-1)], History.MaxFunds [trade (-1) 1 (-1)] = e.Funds) ∧
      History.MinPrice [trade (-1) 1 (-1)] = -1 ∧ History.MinFunds [trade (-1) 1 (-1)] = -1 := by
  have h : History.MaxPrice [trade (-1) 1 (-1)] = 0 := by
    norm_num [History.MaxPrice, histMax, trade]
  have h2 : History.MaxFunds [trade (-1) 1 (-1)] = 0 := by
    norm_num [History.MaxFunds, histMax, trade]
  refine ⟨h, h2, ?_, ?_, ?_, ?_⟩
  · rw [h]
    norm_num [trade]
  · rw [h2]
    norm_num [trade]
  · norm_num [History.MinPrice, histMin, trade]
  · norm_num [History.MinFunds, histMin, trade]

/-- C29: for a non-empty history in which every entry has a positive volume, a
price that is not negative and funds equal to price times volume, `AvgPrice`
is `SumFunds / SumVolume`, its divisor `SumVolume` is positive, and
`MinPrice ≤ AvgPrice ≤ MaxPrice`. -/
theorem history_avg_between (h : History) (hne : h ≠ [])
    (hall : ∀ e ∈ h, 0 < e.Volume ∧ 0 ≤ e.Price ∧ e.Funds = e.Price * e.Volume) :
    History.AvgPrice h = History.SumFunds h / History.SumVolume h ∧
      0 < History.SumVolume h ∧
      History.MinPrice h ≤ History.AvgPrice h ∧ History.AvgPrice h ≤ History.MaxPrice h := by
  have hpos : 0 < History.SumVolume h := by
    unfold History.SumVolume
    rw [histSum_eq]
    exact sum_volume_pos h hne (fun e he => (hall e he).1)
  obtain ⟨e0, he0⟩ := List.exists_mem_of_ne_nil h hne
  have hmin := (histMin_least (fun e => e.Price) h hne).1
  have hmax := (histMax_greatest (fun e => e.Price) h ⟨e0, he0, (hall e0 he0).2.1⟩).1
  have hb := weighted_sum_bounds h (History.MinPrice h) (History.MaxPrice h)
    (fun e he => ⟨le_of_lt (hall e he).1, hmin e he, hmax e he, (hall e he).2.2⟩)
  rw [← histSum_eq, ← histSum_eq] at hb
  refine ⟨rfl, hpos, ?_, ?_⟩
  · unfold History.AvgPrice
    rw [le_div_iff₀ hpos]
    exact hb.1
  · unfold History.AvgPrice
    rw [div_le_iff₀ hpos]
    exact hb.2

/-- C29, on the sample history of the trades `(10, 2)`, `(12, 1)`, `(9, 3)`:
the average price lies between the least and the greatest price. -/
theorem history_avg_between_witness :
    (sampleHistory ≠ [] ∧
      ∀ e ∈ sampleHistory, 0 < e.Volume ∧ 0 ≤ e.Price ∧ e.Funds = e.Price * e.Volume) ∧
    History.MinPrice sampleHistory ≤ History.AvgPrice sampleHistory ∧
    History.AvgPrice sampleHistory ≤ History.MaxPrice sampleHistory := by
  have h1 : sampleHistory ≠ [] := by simp [sampleHistory]
  have h2 : ∀ e ∈ sampleHistory,
      0 < e.Volume ∧ 0 ≤ e.Price ∧ e.Funds = e.Price * e.Volume := by
    simp [sampleHistory, trade]
    norm_num
  exact ⟨⟨h1, h2⟩, (history_avg_between sampleHistory h1 h2).2.2⟩

/-- One round of the loop: it prints the line of the level with a volume `v`,
divides by `sv + v` (after dividing by the price when the level is clipped by
funds), and either goes on with the totals `sv + v`, `sf + v * price` (level not
clipped), or stops (level clipped by volume or by funds). -/
theorem walk_round (g : Bool) (limit : Float64) (e : Order) (rest : Orders) (sv sf : Float64) :
    ∃ (v : Float64) (stop : Bool) (pre : List Float64),
      walkLoop g limit (e :: rest) sv sf =
        rowOf e v sv sf ::
          (if stop then [] else walkLoop g limit rest (sv + v) (sf + v * e.Price)) ∧
      walkDivisors g limit (e :: rest) sv sf =
        pre ++ (sv + v) ::
          (if stop then [] else walkDivisors g limit rest (sv + v) (sf + v * e.Price)) ∧
      ((stop = false ∧ pre = [] ∧ v = e.RemainingVolume ∧
          (0 < limit → (g = false → sv + v < limit) ∧ (g = true → sf + v * e.Price < limit))) ∨
        (stop = true ∧ pre = [] ∧ g = false ∧ 0 < limit ∧ limit ≤ sv + e.RemainingVolume ∧
          v = limit - sv) ∨
        (stop = true ∧ pre = [e.Price] ∧ g = true ∧ 0 < limit ∧
          limit ≤ sf + e.RemainingVolume * e.Price ∧ v = (limit - sf) / e.Price)) := by
  by_cases h0 : 0 < limit
  · cases g with
    | false =>
      by_cases hc : limit ≤ sv + e.RemainingVolume
      · refine ⟨limit - sv, true, [], ?_, ?_, Or.inr (Or.inl ⟨rfl, rfl, rfl, h0, hc, rfl⟩)⟩
        · simp [walkLoop, rowOf, h0, hc]
        · simp [walkDivisors, h0, hc]
      · refine ⟨e.RemainingVolume, false, [], ?_, ?_, Or.inl ⟨rfl, rfl, rfl, ?_⟩⟩
        · simp [walkLoop, rowOf, h0, hc]
        · simp [walkDivisors, h0, hc]
        · intro _
          exact ⟨fun _ => not_le.mp hc, fun h => Bool.noConfusion h⟩
    | true =>
      by_cases hc : limit ≤ sf + e.RemainingVolume * e.Price
      · refine ⟨(limit - sf) / e.Price, true, [e.Price], ?_, ?_,
          Or.inr (Or.inr ⟨rfl, rfl, rfl, h0, hc, rfl⟩)⟩
        · simp [walkLoop, rowOf, h0, hc]
        · simp [walkDivisors, h0, hc]
      · refine ⟨e.RemainingVolume, false, [], ?_, ?_, Or.inl ⟨rfl, rfl, rfl, ?_⟩⟩
        · simp [walkLoop, rowOf, h0, hc]
        · simp [walkDivisors, h0, hc]
        · intro _
          exact ⟨fun h => Bool.noConfusion h, fun _ => not_le.mp hc⟩
  · refine ⟨e.RemainingVolume, false, [], ?_, ?_, Or.inl ⟨rfl, rfl, rfl, fun h => absurd h h0⟩⟩
    · simp [walkLoop, rowOf, h0]
    · simp [walkDivisors, h0]

/-- The invariants of the line of index `i` of the walk started from the totals
`sv` and `sf`. -/
theorem walkLoop_rows (g : Bool) (limit : Float64) (levels : Orders) (sv sf : Float64)
    (i : Nat) (r : Row) (h : (walkLoop g limit levels sv sf)[i]? = some r) :
    r.Funds = r.Volume * r.Price ∧
      r.SumVolume =
        sv + (((walkLoop g limit levels sv sf).take (i + 1)).map (fun x => x.Volume)).sum ∧
      r.SumFunds =
        sf + (((walkLoop g limit levels sv sf).take (i + 1)).map (fun x => x.Funds)).sum ∧
      r.AvgPrice = r.SumFunds / r.SumVolume ∧
      ∃ e, levels[i]? = some e ∧ r.Price = e.Price := by
  induction levels generalizing sv sf i with
  | nil => simp [walkLoop] at h
  | cons e rest ih =>
    obtain ⟨v, stop, pre, hw, _, _⟩ := walk_round g limit e rest sv sf
    rw [hw] at h ⊢
    cases i with
    | zero =>
      simp only [List.getElem?_cons_zero, Option.some.injEq] at h
      subst h
      simp [rowOf]
    | succ j =>
      simp only [List.getElem?_cons_succ] at h
      cases stop with
      | true => simp at h
      | false =>
        simp only [Bool.false_eq_true, if_false] at h ⊢
        obtain ⟨h1, h2, h3, h4, e1, he1, h5⟩ := ih (sv + v) (sf + v * e.Price) j h
        refine ⟨h1, ?_, ?_, h4, e1, ?_, h5⟩
        · rw [h2]
          simp only [List.take_succ_cons, List.map_cons, List.sum_cons, rowOf]
          ring
        · rw [h3]
          simp only [List.take_succ_cons, List.map_cons, List.sum_cons, rowOf]
          ring
        · simpa using he1

/-- The second line of `sell 7` on the sample order book. -/
theorem sample_volume_line :
    (walkLoop false 7 sampleBook.Asks 0 0)[1]? = some sampleVolumeLine := by
  rw [show walkLoop false 7 sampleBook.Asks 0 0 = sellRows false 7 sampleBook from rfl,
    sample_rows_volume]
  rfl

/-- C21: for the empty list of levels, every ceiling and both denominations,
the walk prints no line and evaluates no division; so do `sell` on an order
book without asks and `buy` on an order book without bids. -/
theorem walk_empty (gUAH : Bool) (limit : Float64) (asks bids : Orders) :
    walkLoop gUAH limit [] 0 0 = [] ∧ walkDivisors gUAH limit [] 0 0 = [] ∧
      sellRows gUAH limit { Asks := [], Bids := bids } = [] ∧
      buyRows gUAH limit { Asks := asks, Bids := [] } = [] :=
  ⟨rfl, rfl, rfl, rfl⟩

/-- C25: for every list of levels, ceiling and denomination, the line of index
`i` (counted from 0) of the walk has funds equal to its volume times its price,
a cumulative volume equal to the sum of the volumes of the lines up to it, a
cumulative funds equal to the sum of the funds of the lines up to it, an
average price equal to cumulative funds over cumulative volume, and the price
of the level of index `i`. -/
theorem walk_row_invariants (gUAH : Bool) (limit : Float64) (levels : Orders) (i : Nat)
    (r : Row) (h : (walkLoop gUAH limit levels 0 0)[i]? = some r) :
    r.Funds = r.Volume * r.Price ∧
      r.SumVolume = (((walkLoop gUAH limit levels 0 0).take (i + 1)).map Row.Volume).sum ∧
      r.SumFunds = (((walkLoop gUAH limit levels 0 0).take (i + 1)).map Row.Funds).sum ∧
      r.AvgPrice = r.SumFunds / r.SumVolume ∧
      (levels[i]?).map (fun e => e.Price) = some r.Price := by
  obtain ⟨h1, h2, h3, h4, e, he, h5⟩ := walkLoop_rows gUAH limit levels 0 0 i r h
  refine ⟨h1, ?_, ?_, h4, ?_⟩
  · rw [h2, zero_add]
  · rw [h3, zero_add]
  · rw [he, h5]
    rfl

/-- C25, on the sample order book with the ceiling 7 in volume: the second line
has funds `2 * 11`, cumulative volume `5 + 2`, cumulative funds `50 + 22`. -/
theorem walk_row_invariants_witness :
    (walkLoop false 7 sampleBook.Asks 0 0)[1]? = some sampleVolumeLine ∧
    (sampleVolumeLine.Funds = sampleVolumeLine.Volume * sampleVolumeLine.Price ∧
      sampleVolumeLine.SumVolume =
        (((walkLoop false 7 sampleBook.Asks 0 0).take (1 + 1)).map Row.Volume).sum ∧
      sampleVolumeLine.SumFunds =
        (((walkLoop false 7 sampleBook.Asks 0 0).take (1 + 1)).map Row.Funds).sum ∧
      sampleVolumeLine.AvgPrice = sampleVolumeLine.SumFunds / sampleVolumeLine.SumVolume ∧
      (sampleBook.Asks[1]?).map (fun e => e.Price) = some sampleVolumeLine.Price) :=
  ⟨sample_volume_line,
   walk_row_invariants false 7 sampleBook.Asks 1 sampleVolumeLine sample_volume_line⟩

/-- Samples of the `float64` arithmetic: `0.1 + 0.2` is `0.30000000000000004`;
`0.3` is `5404319552844595 * 2^(-54)`; the greatest finite value, and overflow
above it; the least subnormal `5e-324`, and underflow to 0 below half of it; ties
go to the even significand (`2^53 + 1` is `2^53`, `2^53 + 2 + 1` is `2^53 + 4`);
`1/3`; `0/0` is NaN and `1/0` is `+Inf`; a product that underflows to 0. -/
theorem F64_samples :
    F64.add (dec 1 (-1)) (dec 2 (-1)) = dec 30000000000000004 (-17) ∧
    dec 3 (-1) = .finite false (5404319552844595 * 2 ^ 1020) ∧
    dec 17976931348623157 292 = .finite false ((2 ^ 53 - 1) * 2 ^ 2045) ∧
    dec 18 307 = .inf false ∧
    dec 5 (-324) = .finite false 1 ∧
    dec 2 (-324) = .finite false 0 ∧
    F64.add (dec 9007199254740992 0) (dec 1 0) = dec 9007199254740992 0 ∧
    F64.add (dec 9007199254740994 0) (dec 1 0) = dec 9007199254740996 0 ∧
    F64.div (dec 1 0) (dec 3 0) = .finite false (6004799503160661 * 2 ^ 1020) ∧
    F64.div F64.zero F64.zero = .nan ∧
    F64.div (dec 1 0) F64.zero = .inf false ∧
    F64.mul (dec 1 (-200)) (dec 1 (-200)) = F64.zero := by
  decide!

end Kuna
